import Mathlib

/-!
# The CH4 progress engine (`src/mpid/ch4/src/ch4_progress.h`)

A shallow embedding of the progress driver of the CH4 device and of the public
progress operations built on it, followed by theorems about them.

Modelling conventions.

* C `int` values are `Int`.  The only arithmetic on an `int` in the file is the
  increment of `global_vci_poll_count`; it is modelled as a two's-complement
  32-bit increment (`int_incr`).  Context indices and `vci_count` are `Nat`.
* The arrays `vci[]` and `progress_counts[]` of a progress state are total maps
  from index to value; the code only touches indices below `n_vcis` or
  `vci_count`, both bounded by the array capacity `MPIDI_CH4_MAX_VCIS`.
* Everything outside the file (transports, hooks, failed-process detection, work
  queues, the thread yield, the per-context progress counters) acts on an
  abstract world `W` and is a field of `Env`.  Preprocessor switches and the
  constants of other headers are fields of `Env` too.
* Every lock operation and every collaborator call (with the code it returned)
  is appended to a trace kept in the machine state.
-/

namespace Ch4Progress

/-- Value of `MPI_SUCCESS`. -/
def MPI_SUCCESS : Int := 0

/-- The `MPIDI_CH4_PROG_POLL_MASK` constant (`0xff`). -/
def MPIDI_CH4_PROG_POLL_MASK : Int := 0xff

/-- The progress state (snapshot) handed to the progress functions. -/
structure MPID_Progress_state where
  flag : Int
  progress_made : Int
  vci_count : Nat
  vci : Nat → Nat
  progress_counts : Nat → Int

/-- Observable events of the progress engine: per-context lock operations and
collaborator calls together with the code the collaborator returned. -/
inductive Event where
  | cs_enter (vci : Nat)
  | cs_exit (vci : Nat)
  | nm_progress (vci : Nat) (rc : Int)
  | shm_progress (vci : Nat) (rc : Int)
  | hook_exec_all (rc : Int)
  | check_for_failed_procs (rc : Int)
  | workq_vci_progress (rc : Int)
  | thread_yield
  deriving DecidableEq, Repr

/-- Build configuration, constants of other headers, the context registry and
the external collaborators, over an abstract world `W`. -/
structure Env (W : Type) where
  /-- Capacity of the context table (`MPIDI_CH4_MAX_VCIS`). -/
  MPIDI_CH4_MAX_VCIS : Nat
  /-- Whether `MPIDI_CH4_DIRECT_NETMOD` is defined. -/
  MPIDI_CH4_DIRECT_NETMOD : Bool
  /-- Whether `MPIDI_CH4_USE_WORK_QUEUES` is defined. -/
  MPIDI_CH4_USE_WORK_QUEUES : Bool
  /-- Whether `HAVE_SIGNAL` is defined. -/
  HAVE_SIGNAL : Bool
  MPIDI_PROGRESS_HOOKS : Int
  MPIDI_PROGRESS_NM : Int
  MPIDI_PROGRESS_SHM : Int
  MPIDI_PROGRESS_ALL : Int
  /-- Number of contexts in use (`MPIDI_global.n_vcis`). -/
  n_vcis : Nat
  /-- Relaxed atomic load of `MPIDI_VCI(vci).progress_count`. -/
  progress_count : W → Nat → Int
  MPIDI_NM_progress : Nat → W → Int × W
  MPIDI_SHM_progress : Nat → W → Int × W
  MPIR_Progress_hook_exec_all : W → Int × W
  MPIDI_check_for_failed_procs : W → Int × W
  MPIDI_workq_vci_progress : W → Int × W
  /-- Effect on the world of yielding the calling execution entity. -/
  thread_yield : W → W
  /-- Content of an uninitialised progress state on the stack. -/
  uninit : MPID_Progress_state

/-- Process state seen by the progress functions. -/
structure Machine (W : Type) where
  world : W
  global_vci_poll_count : Int
  sigusr1_count : Int
  my_sigusr1_count : Int
  trace : List Event

variable {W : Type}

/-- Append an event to the trace. -/
def log (e : Event) (g : Machine W) : Machine W :=
  { g with trace := g.trace ++ [e] }

/-- Two's-complement 32-bit value of an integer. -/
def int_wrap (x : Int) : Int := (x + 2 ^ 31) % 2 ^ 32 - 2 ^ 31

/-- The `++` operator on an `int`. -/
def int_incr (x : Int) : Int := int_wrap (x + 1)

/-- The function `MPIDI_do_global_progress` (lines 35-43). -/
def MPIDI_do_global_progress (env : Env W) (g : Machine W) : Int × Machine W :=
  if env.n_vcis = 1 then
    (0, g)
  else
    let g1 := { g with global_vci_poll_count := int_incr g.global_vci_poll_count }
    (if Int.land g1.global_vci_poll_count MPIDI_CH4_PROG_POLL_MASK = 0 then 1 else 0, g1)

/-- The function `MPIDI_check_progress_made_idx` (lines 46-53). -/
def MPIDI_check_progress_made_idx (env : Env W) (g : Machine W)
    (state : MPID_Progress_state) (idx : Nat) : MPID_Progress_state :=
  let cur_count := env.progress_count g.world (state.vci idx)
  if state.progress_counts idx ≠ cur_count then
    { state with
      progress_counts := Function.update state.progress_counts idx cur_count
      progress_made := 1 }
  else
    state

/-- The loop of `MPIDI_check_progress_made_vci` over the remaining indices. -/
def MPIDI_check_progress_made_vci_loop (env : Env W) (g : Machine W) (vci : Nat) :
    List Nat → MPID_Progress_state → MPID_Progress_state
  | [], state => state
  | i :: rest, state =>
    if vci = state.vci i then
      let cur_count := env.progress_count g.world (state.vci i)
      if state.progress_counts i ≠ cur_count then
        { state with
          progress_counts := Function.update state.progress_counts i cur_count
          progress_made := 1 }
      else
        state
    else
      MPIDI_check_progress_made_vci_loop env g vci rest state

/-- The function `MPIDI_check_progress_made_vci` (lines 56-68). -/
def MPIDI_check_progress_made_vci (env : Env W) (g : Machine W)
    (state : MPID_Progress_state) (vci : Nat) : MPID_Progress_state :=
  MPIDI_check_progress_made_vci_loop env g vci (List.range state.vci_count) state

/-- A call of `MPIDI_NM_progress(vci, 0)`. -/
def call_nm (env : Env W) (vci : Nat) (g : Machine W) : Int × Machine W :=
  let r := env.MPIDI_NM_progress vci g.world
  (r.1, log (Event.nm_progress vci r.1) { g with world := r.2 })

/-- A call of `MPIDI_SHM_progress(vci, 0)`. -/
def call_shm (env : Env W) (vci : Nat) (g : Machine W) : Int × Machine W :=
  let r := env.MPIDI_SHM_progress vci g.world
  (r.1, log (Event.shm_progress vci r.1) { g with world := r.2 })

/-- A call of `MPIR_Progress_hook_exec_all(&made_progress)`. -/
def call_hooks (env : Env W) (g : Machine W) : Int × Machine W :=
  let r := env.MPIR_Progress_hook_exec_all g.world
  (r.1, log (Event.hook_exec_all r.1) { g with world := r.2 })

/-- A call of `MPIDI_check_for_failed_procs()`. -/
def call_check_for_failed_procs (env : Env W) (g : Machine W) : Int × Machine W :=
  let r := env.MPIDI_check_for_failed_procs g.world
  (r.1, log (Event.check_for_failed_procs r.1) { g with world := r.2 })

/-- A call of `MPIDI_workq_vci_progress()`. -/
def call_workq (env : Env W) (g : Machine W) : Int × Machine W :=
  let r := env.MPIDI_workq_vci_progress g.world
  (r.1, log (Event.workq_vci_progress r.1) { g with world := r.2 })

/-- The `MPIDI_PROGRESS_YIELD()` step. -/
def MPIDI_PROGRESS_YIELD (env : Env W) (g : Machine W) : Machine W :=
  log Event.thread_yield { g with world := env.thread_yield g.world }

/-- The macro `MPIDI_PROGRESS(vci)` (lines 70-89); `mpi_errno` is the value of
the local variable when the macro is entered. -/
def MPIDI_PROGRESS (env : Env W) (state : MPID_Progress_state) (vci : Nat)
    (mpi_errno : Int) (g : Machine W) : Int × Machine W :=
  let r1 := if Int.land state.flag env.MPIDI_PROGRESS_NM ≠ 0 then call_nm env vci g
    else (mpi_errno, g)
  if env.MPIDI_CH4_DIRECT_NETMOD then
    r1
  else if Int.land state.flag env.MPIDI_PROGRESS_SHM ≠ 0 ∧ r1.1 = MPI_SUCCESS then
    call_shm env vci r1.2
  else
    r1

/-- Modelled from the spec: the macro `MPIR_ERR_CHECK`, defined outside this
file; a failure is propagated immediately and unchanged, so the check is the
test `mpi_errno != MPI_SUCCESS` followed by `goto fn_fail`. -/
def MPIR_ERR_CHECK (mpi_errno : Int) : Bool := decide (mpi_errno ≠ MPI_SUCCESS)

/-- Lines 99-116 of `MPIDI_progress_test`: failed-process detection, progress
hooks and work-queue progress.  Returns `mpi_errno` and whether control went to
`fn_fail`. -/
def MPIDI_progress_test_head (env : Env W) (state : MPID_Progress_state)
    (g : Machine W) : Int × Bool × Machine W :=
  let r0 : Int × Machine W :=
    if env.HAVE_SIGNAL = true ∧ g.sigusr1_count > g.my_sigusr1_count then
      call_check_for_failed_procs env { g with my_sigusr1_count := g.sigusr1_count }
    else (MPI_SUCCESS, g)
  if MPIR_ERR_CHECK r0.1 then (r0.1, true, r0.2)
  else
    let r1 : Int × Machine W :=
      if Int.land state.flag env.MPIDI_PROGRESS_HOOKS ≠ 0 then call_hooks env r0.2 else r0
    if MPIR_ERR_CHECK r1.1 then (r1.1, true, r1.2)
    else
      let r2 : Int × Machine W :=
        if env.MPIDI_CH4_USE_WORK_QUEUES then call_workq env r1.2 else r1
      if MPIR_ERR_CHECK r2.1 then (r2.1, true, r2.2) else (r2.1, false, r2.2)

/-- The global sweep loop of `MPIDI_progress_test` (lines 130-141) over the
remaining context indices. -/
def global_sweep (env : Env W) (wait : Int) :
    List Nat → MPID_Progress_state → Int → Machine W → Int × MPID_Progress_state × Machine W
  | [], state, mpi_errno, g => (mpi_errno, state, g)
  | vci :: rest, state, mpi_errno, g =>
    let g1 := log (Event.cs_enter vci) g
    let r := MPIDI_PROGRESS env state vci mpi_errno g1
    let state1 := if wait ≠ 0 then MPIDI_check_progress_made_vci env r.2 state vci else state
    let g2 := log (Event.cs_exit vci) r.2
    if MPIR_ERR_CHECK r.1 then (r.1, state1, g2)
    else if wait ≠ 0 ∧ state1.progress_made ≠ 0 then (r.1, state1, g2)
    else global_sweep env wait rest state1 r.1 g2

/-- The targeted sweep loop of `MPIDI_progress_test` (lines 143-155) over the
remaining positions of the watch list. -/
def targeted_sweep (env : Env W) (wait : Int) :
    List Nat → MPID_Progress_state → Int → Machine W → Int × MPID_Progress_state × Machine W
  | [], state, mpi_errno, g => (mpi_errno, state, g)
  | i :: rest, state, mpi_errno, g =>
    let vci := state.vci i
    let g1 := log (Event.cs_enter vci) g
    let r := MPIDI_PROGRESS env state vci mpi_errno g1
    let state1 := if wait ≠ 0 then MPIDI_check_progress_made_idx env r.2 state i else state
    let g2 := log (Event.cs_exit vci) r.2
    if MPIR_ERR_CHECK r.1 then (r.1, state1, g2)
    else if wait ≠ 0 ∧ state1.progress_made ≠ 0 then (r.1, state1, g2)
    else targeted_sweep env wait rest state1 r.1 g2

/-- The function `MPIDI_progress_test` (lines 91-164). -/
def MPIDI_progress_test (env : Env W) (state : MPID_Progress_state) (wait : Int)
    (g : Machine W) : Int × MPID_Progress_state × Machine W :=
  let h := MPIDI_progress_test_head env state g
  if h.2.1 then (h.1, state, h.2.2)
  else if env.MPIDI_CH4_MAX_VCIS = 1 then
    let g1 := log (Event.cs_enter 0) h.2.2
    let r := MPIDI_PROGRESS env state 0 h.1 g1
    let state1 := if wait ≠ 0 then MPIDI_check_progress_made_idx env r.2 state 0 else state
    (r.1, state1, log (Event.cs_exit 0) r.2)
  else
    let d := MPIDI_do_global_progress env h.2.2
    if d.1 ≠ 0 then
      global_sweep env wait (List.range env.n_vcis) state h.1 d.2
    else
      targeted_sweep env wait (List.range state.vci_count) state h.1 d.2

/-- The function `MPIDI_progress_state_init` (lines 168-177). -/
def MPIDI_progress_state_init (env : Env W) (state : MPID_Progress_state) :
    MPID_Progress_state :=
  let s1 := { state with flag := env.MPIDI_PROGRESS_ALL }
  let s2 := { s1 with progress_made := 0 }
  let s3 := (List.range env.n_vcis).foldl
    (fun s i => { s with vci := Function.update s.vci i i }) s2
  { s3 with vci_count := env.n_vcis }

/-- The function `MPIDI_progress_state_init_count` (lines 180-190). -/
def MPIDI_progress_state_init_count (env : Env W) (g : Machine W)
    (state : MPID_Progress_state) : MPID_Progress_state :=
  if env.MPIDI_CH4_MAX_VCIS = 1 then
    { state with
      progress_counts := Function.update state.progress_counts 0 (env.progress_count g.world 0) }
  else
    (List.range env.n_vcis).foldl
      (fun s i => { s with
        progress_counts := Function.update s.progress_counts i (env.progress_count g.world i) })
      state

/-- The function `MPIDI_Progress_test` (lines 192-198). -/
def MPIDI_Progress_test (env : Env W) (flags : Int) (g : Machine W) : Int × Machine W :=
  let state := MPIDI_progress_state_init env env.uninit
  let state := { state with flag := flags }
  let r := MPIDI_progress_test env state 0 g
  (r.1, r.2.2)

/-- The function `MPID_Progress_start` (lines 226-237). -/
def MPID_Progress_start (env : Env W) (g : Machine W) (state : MPID_Progress_state) :
    MPID_Progress_state :=
  MPIDI_progress_state_init_count env g (MPIDI_progress_state_init env state)

/-- The function `MPID_Progress_end` (lines 239-246). -/
def MPID_Progress_end (state : MPID_Progress_state) : MPID_Progress_state := state

/-- The function `MPID_Progress_test` (lines 248-258); `none` is the `NULL`
state. -/
def MPID_Progress_test (env : Env W) (state : Option MPID_Progress_state)
    (g : Machine W) : Int × Option MPID_Progress_state × Machine W :=
  match state with
  | none =>
    let progress_state := MPIDI_progress_state_init env env.uninit
    let r := MPIDI_progress_test env progress_state 0 g
    (r.1, none, r.2.2)
  | some state =>
    let r := MPIDI_progress_test env state 0 g
    (r.1, some r.2.1, r.2.2)

/-- The function `MPIDI_progress_test_vci` (lines 203-224). -/
def MPIDI_progress_test_vci (env : Env W) (vci : Nat) (g : Machine W) : Int × Machine W :=
  let d := MPIDI_do_global_progress env g
  if d.1 ≠ 0 then
    let g1 := log (Event.cs_exit vci) d.2
    let r := MPID_Progress_test env none g1
    (r.1, log (Event.cs_enter vci) r.2.2)
  else
    let r := call_nm env vci d.2
    if MPIR_ERR_CHECK r.1 then r
    else if env.MPIDI_CH4_DIRECT_NETMOD then r
    else call_shm env vci r.2

/-- The function `MPID_Progress_poke` (lines 260-271). -/
def MPID_Progress_poke (env : Env W) (g : Machine W) : Int × Machine W :=
  let r := MPID_Progress_test env none g
  (r.1, r.2.2)

/-- The `while (1)` loop of `MPID_Progress_wait` (lines 293-300); `fuel` bounds
the number of driver calls, `none` means the bound was reached. -/
def MPID_Progress_wait_loop (env : Env W) :
    Nat → MPID_Progress_state → Machine W → Option (Int × MPID_Progress_state × Machine W)
  | 0, _, _ => none
  | fuel + 1, state, g =>
    let r := MPIDI_progress_test env state 1 g
    if MPIR_ERR_CHECK r.1 then some r
    else if r.2.1.progress_made ≠ 0 then some r
    else MPID_Progress_wait_loop env fuel r.2.1 (MPIDI_PROGRESS_YIELD env r.2.2)

/-- The function `MPID_Progress_wait` (lines 279-309). -/
def MPID_Progress_wait (env : Env W) (fuel : Nat) (state : MPID_Progress_state)
    (g : Machine W) : Option (Int × MPID_Progress_state × Machine W) :=
  if env.MPIDI_CH4_USE_WORK_QUEUES then
    let r := MPID_Progress_test env (some state) g
    if MPIR_ERR_CHECK r.1 then some (r.1, r.2.1.getD state, r.2.2)
    else some (r.1, r.2.1.getD state, MPIDI_PROGRESS_YIELD env r.2.2)
  else
    MPID_Progress_wait_loop env fuel { state with progress_made := 0 } g

/-! ## Vocabulary of the statements -/

/-- Contexts whose lock is acquired in a trace, in order of acquisition. -/
def visited : List Event → List Nat
  | [] => []
  | Event.cs_enter v :: t => v :: visited t
  | _ :: t => visited t

/-- Events of one sweep position on context `vci` when every transport call
succeeds: lock, the transports selected by `flag`, unlock. -/
def visit_ok (env : Env W) (flag : Int) (vci : Nat) : List Event :=
  [Event.cs_enter vci]
    ++ (if Int.land flag env.MPIDI_PROGRESS_NM ≠ 0 then [Event.nm_progress vci 0] else [])
    ++ (if env.MPIDI_CH4_DIRECT_NETMOD = false ∧ Int.land flag env.MPIDI_PROGRESS_SHM ≠ 0
          then [Event.shm_progress vci 0] else [])
    ++ [Event.cs_exit vci]

/-- Events of lines 99-116 of `MPIDI_progress_test` when every collaborator
call succeeds. -/
def head_ok (env : Env W) (state : MPID_Progress_state) (g : Machine W) : List Event :=
  (if env.HAVE_SIGNAL = true ∧ g.sigusr1_count > g.my_sigusr1_count
      then [Event.check_for_failed_procs 0] else [])
    ++ (if Int.land state.flag env.MPIDI_PROGRESS_HOOKS ≠ 0 then [Event.hook_exec_all 0] else [])
    ++ (if env.MPIDI_CH4_USE_WORK_QUEUES = true then [Event.workq_vci_progress 0] else [])

/-- Every collaborator call returns `MPI_SUCCESS`. -/
def all_succeed (env : Env W) : Prop :=
  (∀ v w, (env.MPIDI_NM_progress v w).1 = MPI_SUCCESS) ∧
  (∀ v w, (env.MPIDI_SHM_progress v w).1 = MPI_SUCCESS) ∧
  (∀ w, (env.MPIR_Progress_hook_exec_all w).1 = MPI_SUCCESS) ∧
  (∀ w, (env.MPIDI_check_for_failed_procs w).1 = MPI_SUCCESS) ∧
  (∀ w, (env.MPIDI_workq_vci_progress w).1 = MPI_SUCCESS)

/-! ## Example configurations -/

/-- World of the examples: the progress counter of every context and the number
of collaborator calls made so far. -/
structure ExWorld where
  counters : Nat → Int
  calls : Nat

/-- An example: four contexts in a table of eight, all collaborators succeed,
and the network poll of context 2 bumps the counter of context 2. -/
def exEnv : Env ExWorld where
  MPIDI_CH4_MAX_VCIS := 8
  MPIDI_CH4_DIRECT_NETMOD := false
  MPIDI_CH4_USE_WORK_QUEUES := false
  HAVE_SIGNAL := true
  MPIDI_PROGRESS_HOOKS := 1
  MPIDI_PROGRESS_NM := 2
  MPIDI_PROGRESS_SHM := 4
  MPIDI_PROGRESS_ALL := 7
  n_vcis := 4
  progress_count := fun w v => w.counters v
  MPIDI_NM_progress := fun v w =>
    (0, { counters := if v = 2 then Function.update w.counters 2 (w.counters 2 + 1)
                      else w.counters,
          calls := w.calls + 1 })
  MPIDI_SHM_progress := fun _ w => (0, { w with calls := w.calls + 1 })
  MPIR_Progress_hook_exec_all := fun w => (0, { w with calls := w.calls + 1 })
  MPIDI_check_for_failed_procs := fun w => (0, { w with calls := w.calls + 1 })
  MPIDI_workq_vci_progress := fun w => (0, { w with calls := w.calls + 1 })
  thread_yield := fun w => w
  uninit := { flag := 0, progress_made := 1, vci_count := 0, vci := fun _ => 0,
              progress_counts := fun _ => 0 }

/-- An example machine state with poll counter `c`: all counters at 10. -/
def exMachine (c : Int) : Machine ExWorld :=
  { world := { counters := fun _ => 10, calls := 0 }
    global_vci_poll_count := c
    sigusr1_count := 0
    my_sigusr1_count := 0
    trace := [] }

/-- An example of arbitrary prior content of a progress state. -/
def exGarbage : MPID_Progress_state :=
  { flag := 99, progress_made := 5, vci_count := 17, vci := fun i => 3 * i + 1,
    progress_counts := fun _ => -4 }

/-! ## Proof devices -/

/-- Common form of the two sweep loops of `MPIDI_progress_test`: `ctx` gives the
context of a sweep position and `check` is the detection step. -/
def sweep_loop (env : Env W) (wait : Int) (ctx : MPID_Progress_state → Nat → Nat)
    (check : Machine W → MPID_Progress_state → Nat → MPID_Progress_state) :
    List Nat → MPID_Progress_state → Int → Machine W → Int × MPID_Progress_state × Machine W
  | [], state, mpi_errno, g => (mpi_errno, state, g)
  | i :: rest, state, mpi_errno, g =>
    let vci := ctx state i
    let g1 := log (Event.cs_enter vci) g
    let r := MPIDI_PROGRESS env state vci mpi_errno g1
    let state1 := if wait ≠ 0 then check r.2 state i else state
    let g2 := log (Event.cs_exit vci) r.2
    if MPIR_ERR_CHECK r.1 then (r.1, state1, g2)
    else if wait ≠ 0 ∧ state1.progress_made ≠ 0 then (r.1, state1, g2)
    else sweep_loop env wait ctx check rest state1 r.1 g2

/-- Whether a sweep result makes the loop stop: a failure, or detected progress
when detection is enabled. -/
def sweep_stops (wait : Int) (r : Int × MPID_Progress_state × Machine W) : Prop :=
  r.1 ≠ MPI_SUCCESS ∨ (wait ≠ 0 ∧ r.2.1.progress_made ≠ 0)

instance (wait : Int) (r : Int × MPID_Progress_state × Machine W) :
    Decidable (sweep_stops wait r) := by
  unfold sweep_stops
  exact inferInstance

/-- The machine state `g2` extends `g` by the events `new` and has the same poll
counter and signal count. -/
def ext_by (g g2 : Machine W) (new : List Event) : Prop :=
  g2.trace = g.trace ++ new ∧
  g2.global_vci_poll_count = g.global_vci_poll_count ∧
  g2.sigusr1_count = g.sigusr1_count

/-- The possible transport events of one `MPIDI_PROGRESS(vci)` entered with
`mpi_errno = e`, with the resulting `mpi_errno`. -/
def poll_shape (vci : Nat) (e : Int) (polls : List Event) (err : Int) : Prop :=
  (polls = [] ∧ err = e) ∨
  (polls = [Event.nm_progress vci err]) ∨
  (polls = [Event.shm_progress vci err] ∧ e = MPI_SUCCESS) ∨
  (polls = [Event.nm_progress vci MPI_SUCCESS, Event.shm_progress vci err])

/-- Runs the lock automaton over a trace from lock state `h` (the context whose
lock is held, if any): `none` when a lock is taken while one is held, a lock is
released that is not held, or a transport of `v` is polled while the lock of `v`
is not the one held; otherwise the final lock state. -/
def lock_run : Option Nat → List Event → Option (Option Nat)
  | h, [] => some h
  | h, Event.cs_enter v :: t => if h = none then lock_run (some v) t else none
  | h, Event.cs_exit v :: t => if h = some v then lock_run none t else none
  | h, Event.nm_progress v _ :: t => if h = some v then lock_run h t else none
  | h, Event.shm_progress v _ :: t => if h = some v then lock_run h t else none
  | h, _ :: t => lock_run h t

/-- Every failing transport event of the trace carries the code `err` and is
followed by the unlock of its context and nothing else. -/
def fail_last (err : Int) : List Event → Prop
  | [] => True
  | Event.nm_progress v rc :: t =>
    (rc ≠ MPI_SUCCESS → err = rc ∧ t = [Event.cs_exit v]) ∧ fail_last err t
  | Event.shm_progress v rc :: t =>
    (rc ≠ MPI_SUCCESS → err = rc ∧ t = [Event.cs_exit v]) ∧ fail_last err t
  | _ :: t => fail_last err t

/-- No transport event of the trace failed. -/
def no_fail : List Event → Prop
  | [] => True
  | Event.nm_progress _ rc :: t => rc = MPI_SUCCESS ∧ no_fail t
  | Event.shm_progress _ rc :: t => rc = MPI_SUCCESS ∧ no_fail t
  | _ :: t => no_fail t

/-- The trace holds no lock operation and no transport poll. -/
def quiet : List Event → Prop
  | [] => True
  | Event.hook_exec_all _ :: t => quiet t
  | Event.check_for_failed_procs _ :: t => quiet t
  | Event.workq_vci_progress _ :: t => quiet t
  | Event.thread_yield :: t => quiet t
  | _ :: _ => False

/-- The sweep list of one call of `MPIDI_progress_test` in a multi-context
build: the contexts of the sweep positions, in order.  All contexts when
`MPIDI_do_global_progress` returns true for the call, the watch list of the
snapshot otherwise. -/
def sweep_list (env : Env W) (state : MPID_Progress_state) (g : Machine W) : List Nat :=
  if (MPIDI_do_global_progress env g).1 ≠ 0 then List.range env.n_vcis
  else (List.range state.vci_count).map state.vci

/-- Context locks held after a trace, starting from the locks `held`. -/
def locks_after (held : List Nat) : List Event → List Nat
  | [] => held
  | Event.cs_enter v :: t => locks_after (v :: held) t
  | Event.cs_exit v :: t => locks_after (held.erase v) t
  | _ :: t => locks_after held t

/-- The example with a network transport that fails with code 77 on context 1. -/
def exEnvFail : Env ExWorld :=
  { exEnv with
    MPIDI_NM_progress := fun v w =>
      (if v = 1 then 77 else 0, { w with calls := w.calls + 1 }) }

/-- The snapshot made by `MPID_Progress_start` in the four-context example. -/
def exSnapshot : MPID_Progress_state :=
  MPID_Progress_start exEnv (exMachine 0) exGarbage

/-- A snapshot of the example that watches contexts 2 and 1, in that order, with
saved counts 10 and all sources selected. -/
def exWatch21 : MPID_Progress_state :=
  { flag := 7, progress_made := 0, vci_count := 2,
    vci := fun i => if i = 0 then 2 else 1,
    progress_counts := fun _ => 10 }

/-- Lines 129-156 of `MPIDI_progress_test` with both sweep loops cut after their
first `k` positions, started in machine state `g` with `mpi_errno` equal to
`MPI_SUCCESS`: what the multi-context sweep does up to and including sweep
position `k - 1`. -/
def sweep_upto (env : Env W) (state : MPID_Progress_state) (wait : Int) (k : Nat)
    (g : Machine W) : Int × MPID_Progress_state × Machine W :=
  let d := MPIDI_do_global_progress env g
  if d.1 ≠ 0 then
    global_sweep env wait ((List.range env.n_vcis).take k) state MPI_SUCCESS d.2
  else
    targeted_sweep env wait ((List.range state.vci_count).take k) state MPI_SUCCESS d.2

/-- An example with six contexts in which the network poll of context 3 bumps
the progress counter of context 3 and nothing else changes a counter. -/
def exEnv6 : Env ExWorld :=
  { exEnv with
    n_vcis := 6
    MPIDI_NM_progress := fun v w =>
      (0, { counters := if v = 3 then Function.update w.counters 3 (w.counters 3 + 1)
                        else w.counters,
            calls := w.calls + 1 }) }

/-- A snapshot that watches only contexts 2 and 5, with saved counts 10. -/
def exWatch25 : MPID_Progress_state :=
  { flag := 7, progress_made := 0, vci_count := 2,
    vci := fun i => if i = 0 then 2 else 5,
    progress_counts := fun _ => 10 }

/-- Result of driver call number `k + 1` of the loop of `MPID_Progress_wait`
entered with snapshot `state` and machine state `g`, had no earlier call ended
the loop: each call is `MPIDI_progress_test(state, 1)` on the snapshot left by
the previous call, after one `MPIDI_PROGRESS_YIELD()`. -/
def wait_call (env : Env W) (state : MPID_Progress_state) (g : Machine W) :
    Nat → Int × MPID_Progress_state × Machine W
  | 0 => MPIDI_progress_test env state 1 g
  | k + 1 =>
    MPIDI_progress_test env (wait_call env state g k).2.1 1
      (MPIDI_PROGRESS_YIELD env (wait_call env state g k).2.2)

/-- A driver call result that ends the loop of `MPID_Progress_wait`: a failure,
or `progress_made` set. -/
def wait_exits (r : Int × MPID_Progress_state × Machine W) : Prop :=
  r.1 ≠ MPI_SUCCESS ∨ r.2.1.progress_made ≠ 0

/-- The example with a network transport that, on context 0, bumps the progress
counter of context 0 and then fails with code 77. -/
def exEnvBumpFail : Env ExWorld :=
  { exEnv with
    MPIDI_NM_progress := fun v w =>
      (if v = 0 then 77 else 0,
       { counters := if v = 0 then Function.update w.counters 0 (w.counters 0 + 1)
                     else w.counters,
         calls := w.calls + 1 }) }

/-- A single-context example (table of one context, so the fast path is
compiled) whose transports always succeed and never bump a counter, and whose
progress hooks fail with code 5. -/
def exEnvHookFail : Env ExWorld :=
  { exEnv with
    MPIDI_CH4_MAX_VCIS := 1
    n_vcis := 1
    MPIDI_NM_progress := fun _ w => (0, { w with calls := w.calls + 1 })
    MPIR_Progress_hook_exec_all := fun w => (5, { w with calls := w.calls + 1 }) }

/-- A single-context example in a multi-context build: one context in a table
of eight; the second network poll (and every later one) bumps the counter of
context 0. -/
def exEnvOne : Env ExWorld :=
  { exEnv with
    n_vcis := 1
    MPIDI_NM_progress := fun _ w =>
      (0, { counters := if 2 ≤ w.calls then Function.update w.counters 0 (w.counters 0 + 1)
                        else w.counters,
            calls := w.calls + 1 })
    MPIDI_SHM_progress := fun _ w => (0, w)
    MPIR_Progress_hook_exec_all := fun w => (0, { w with calls := w.calls + 1 }) }

/-- The snapshot a call `MPID_Progress_test(state)` works on: the transient
all-contexts snapshot for `NULL`, the given one otherwise. -/
def test_snapshot (env : Env W) (state : Option MPID_Progress_state) : MPID_Progress_state :=
  match state with
  | none => MPIDI_progress_state_init env env.uninit
  | some st => st

/-- Machine state after consecutive calls of `MPID_Progress_test`, one per
element of the list (`none` is a call with `NULL`), by the same execution
entity. -/
def MPID_Progress_test_seq (env : Env W) :
    List (Option MPID_Progress_state) → Machine W → Machine W
  | [], g => g
  | s :: rest, g => MPID_Progress_test_seq env rest (MPID_Progress_test env s g).2.2

/-- The machine state `g` with its poll counter replaced by `c`. -/
def set_count (c : Int) (g : Machine W) : Machine W :=
  { g with global_vci_poll_count := c }

/-- The driver without the global-progress decision: lines 91-164 with the
multi-context branch always taking the targeted sweep and the poll counter left
alone. -/
def progress_test_targeted (env : Env W) (state : MPID_Progress_state) (wait : Int)
    (g : Machine W) : Int × MPID_Progress_state × Machine W :=
  let h := MPIDI_progress_test_head env state g
  if h.2.1 then (h.1, state, h.2.2)
  else if env.MPIDI_CH4_MAX_VCIS = 1 then
    let g1 := log (Event.cs_enter 0) h.2.2
    let r := MPIDI_PROGRESS env state 0 h.1 g1
    let state1 := if wait ≠ 0 then MPIDI_check_progress_made_idx env r.2 state 0 else state
    (r.1, state1, log (Event.cs_exit 0) r.2)
  else
    targeted_sweep env wait (List.range state.vci_count) state h.1 h.2.2

/-- The four-context example with progress hooks that fail with code 5. -/
def exEnvHookFail4 : Env ExWorld :=
  { exEnv with
    MPIR_Progress_hook_exec_all := fun w => (5, { w with calls := w.calls + 1 }) }

/-- Every transport poll and hook execution of the trace is one that `flag`
selects (and the build has): network polls need the network bit, shared-memory
polls the shared-memory bit in a build that is not direct-netmod, hook
executions the hooks bit. -/
def respects_flag (env : Env W) (flag : Int) : List Event → Prop
  | [] => True
  | Event.nm_progress _ _ :: t =>
    Int.land flag env.MPIDI_PROGRESS_NM ≠ 0 ∧ respects_flag env flag t
  | Event.shm_progress _ _ :: t =>
    (Int.land flag env.MPIDI_PROGRESS_SHM ≠ 0 ∧ env.MPIDI_CH4_DIRECT_NETMOD = false) ∧
      respects_flag env flag t
  | Event.hook_exec_all _ :: t =>
    Int.land flag env.MPIDI_PROGRESS_HOOKS ≠ 0 ∧ respects_flag env flag t
  | _ :: t => respects_flag env flag t

/-- The four-context example with a failed-process detection that fails with
code 9. -/
def exEnvSigFail : Env ExWorld :=
  { exEnv with
    MPIDI_check_for_failed_procs := fun w => (9, { w with calls := w.calls + 1 }) }

/-- An example machine state in which one failure signal has not been looked at
yet. -/
def exMachineSig : Machine ExWorld :=
  { exMachine 0 with sigusr1_count := 1 }

/-- Contexts whose network transport is polled in a trace, in order. -/
def polled_nm : List Event → List Nat
  | [] => []
  | Event.nm_progress v _ :: t => v :: polled_nm t
  | _ :: t => polled_nm t

/-- Contexts whose shared-memory transport is polled in a trace, in order. -/
def polled_shm : List Event → List Nat
  | [] => []
  | Event.shm_progress v _ :: t => v :: polled_shm t
  | _ :: t => polled_shm t

/-- Contexts whose lock is released in a trace, in order of release. -/
def released : List Event → List Nat
  | [] => []
  | Event.cs_exit v :: t => v :: released t
  | _ :: t => released t

/-- Machine state after `n` consecutive calls of `MPID_Progress_poke`. -/
def MPID_Progress_poke_seq (env : Env W) : Nat → Machine W → Machine W
  | 0, g => g
  | n + 1, g => MPID_Progress_poke_seq env n (MPID_Progress_poke env g).2

/-- A single-context example (fast-path build) whose network transport
succeeds without touching the counter on its first two invocations and, on its
third invocation, bumps the counter of context 0 and fails with code 77.  The
other collaborators succeed and leave the world alone. -/
def exEnvFail3 : Env ExWorld :=
  { exEnv with
    MPIDI_CH4_MAX_VCIS := 1
    n_vcis := 1
    MPIDI_NM_progress := fun _ w =>
      (if w.calls = 2 then 77 else 0,
       { counters := if w.calls = 2 then Function.update w.counters 0 (w.counters 0 + 1)
                     else w.counters,
         calls := w.calls + 1 })
    MPIDI_SHM_progress := fun _ w => (0, w)
    MPIR_Progress_hook_exec_all := fun w => (0, w)
    MPIDI_check_for_failed_procs := fun w => (0, w)
    MPIDI_workq_vci_progress := fun w => (0, w) }

/-- The same single-context example with a third network invocation that
fails with code 77 without touching the counter. -/
def exEnvFail3Quiet : Env ExWorld :=
  { exEnvFail3 with
    MPIDI_NM_progress := fun _ w =>
      (if w.calls = 2 then 77 else 0, { w with calls := w.calls + 1 }) }

/-! ## Basic facts -/

theorem land_mask_eq_emod (c : Int) : Int.land c MPIDI_CH4_PROG_POLL_MASK = c % 256 := by
  unfold MPIDI_CH4_PROG_POLL_MASK
  cases c with
  | ofNat n =>
    show Int.land (Int.ofNat n) (Int.ofNat 255) = (Int.ofNat n) % 256
    simp only [Int.land]
    have h := Nat.and_pow_two_sub_one_eq_mod n 8
    norm_num at h
    rw [h]
    rfl
  | negSucc m =>
    show Int.land (Int.negSucc m) (Int.ofNat 255) = (Int.negSucc m) % 256
    simp only [Int.land]
    have h1 : Nat.ldiff 255 m = 255 - m % 256 := by
      apply Nat.eq_of_testBit_eq
      intro i
      have h2 : m % 256 < 2 ^ 8 := by
        have := Nat.mod_lt m (show 0 < 256 by norm_num)
        norm_num
        exact this
      have h3 := Nat.testBit_two_pow_sub_succ h2 i
      have h4 : (2:Nat) ^ 8 - (m % 256 + 1) = 255 - m % 256 := by omega
      rw [h4] at h3
      rw [h3, Nat.testBit_ldiff]
      have h5 : (255 : Nat) = 2 ^ 8 - 1 := by norm_num
      have h6 : (256 : Nat) = 2 ^ 8 := by norm_num
      rw [h5, h6, Nat.testBit_two_pow_sub_one, Nat.testBit_mod_two_pow]
      by_cases hi : i < 8 <;> simp [hi]
    rw [h1]
    have h7 : m % 256 < 256 := Nat.mod_lt m (by norm_num)
    rw [Int.negSucc_eq]
    omega

theorem int_wrap_emod (x : Int) : int_wrap x % 256 = x % 256 := by
  unfold int_wrap
  omega

theorem int_incr_emod (c : Int) : int_incr c % 256 = (c + 1) % 256 :=
  int_wrap_emod (c + 1)

theorem int_incr_of_lt (c : Int) (h1 : -2 ^ 31 ≤ c) (h2 : c < 2 ^ 31 - 1) :
    int_incr c = c + 1 := by
  unfold int_incr int_wrap
  omega

theorem int_incr_congr (c : Int) : (int_incr c - (c + 1)) % 2 ^ 32 = 0 := by
  unfold int_incr int_wrap
  omega

theorem foldl_vci (n : Nat) (s : MPID_Progress_state) :
    ((List.range n).foldl (fun s i => { s with vci := Function.update s.vci i i }) s).flag
      = s.flag ∧
    ((List.range n).foldl (fun s i => { s with vci := Function.update s.vci i i })
      s).progress_made = s.progress_made ∧
    ((List.range n).foldl (fun s i => { s with vci := Function.update s.vci i i })
      s).vci_count = s.vci_count ∧
    ((List.range n).foldl (fun s i => { s with vci := Function.update s.vci i i })
      s).progress_counts = s.progress_counts ∧
    (∀ i, i < n → ((List.range n).foldl
      (fun s i => { s with vci := Function.update s.vci i i }) s).vci i = i) ∧
    (∀ i, n ≤ i → ((List.range n).foldl
      (fun s i => { s with vci := Function.update s.vci i i }) s).vci i = s.vci i) := by
  induction n with
  | zero => simp
  | succ n ih =>
    simp only [List.range_succ, List.foldl_append, List.foldl_cons, List.foldl_nil]
    obtain ⟨h1, h2, h3, h4, h5, h6⟩ := ih
    refine ⟨h1, h2, h3, h4, ?_, ?_⟩
    · intro i hi
      by_cases hin : i = n
      · subst hin; simp
      · simp only [ne_eq, hin, not_false_eq_true, Function.update_noteq]
        exact h5 i (by omega)
    · intro i hi
      have hin : i ≠ n := by omega
      simp only [ne_eq, hin, not_false_eq_true, Function.update_noteq]
      exact h6 i (by omega)

theorem foldl_counts (f : Nat → Int) (n : Nat) (s : MPID_Progress_state) :
    ((List.range n).foldl
      (fun s i => { s with progress_counts := Function.update s.progress_counts i (f i) })
      s).flag = s.flag ∧
    ((List.range n).foldl
      (fun s i => { s with progress_counts := Function.update s.progress_counts i (f i) })
      s).progress_made = s.progress_made ∧
    ((List.range n).foldl
      (fun s i => { s with progress_counts := Function.update s.progress_counts i (f i) })
      s).vci_count = s.vci_count ∧
    ((List.range n).foldl
      (fun s i => { s with progress_counts := Function.update s.progress_counts i (f i) })
      s).vci = s.vci ∧
    (∀ i, i < n → ((List.range n).foldl
      (fun s i => { s with progress_counts := Function.update s.progress_counts i (f i) })
      s).progress_counts i = f i) := by
  induction n with
  | zero => simp
  | succ n ih =>
    simp only [List.range_succ, List.foldl_append, List.foldl_cons, List.foldl_nil]
    obtain ⟨h1, h2, h3, h4, h5⟩ := ih
    refine ⟨h1, h2, h3, h4, ?_⟩
    intro i hi
    by_cases hin : i = n
    · subst hin; simp
    · simp only [ne_eq, hin, not_false_eq_true, Function.update_noteq]
      exact h5 i (by omega)

/-! ## The snapshot produced by `MPID_Progress_start` -/

/-- C4: for every registry with `n_vcis` contexts (within the table capacity)
and every prior content of the snapshot, after `MPID_Progress_start` the
snapshot has `flag = MPIDI_PROGRESS_ALL`, `progress_made = 0`,
`vci_count = n_vcis`, `vci[i] = i` and `progress_counts[i]` equal to the current
progress counter of context `i`, for every `i < n_vcis`. -/
theorem MPID_Progress_start_snapshot (env : Env W) (g : Machine W)
    (state : MPID_Progress_state) (hcap : env.n_vcis ≤ env.MPIDI_CH4_MAX_VCIS) :
    (MPID_Progress_start env g state).flag = env.MPIDI_PROGRESS_ALL ∧
    (MPID_Progress_start env g state).progress_made = 0 ∧
    (MPID_Progress_start env g state).vci_count = env.n_vcis ∧
    (∀ i, i < env.n_vcis → (MPID_Progress_start env g state).vci i = i) ∧
    (∀ i, i < env.n_vcis →
      (MPID_Progress_start env g state).progress_counts i = env.progress_count g.world i) := by
  have hv := foldl_vci env.n_vcis
    { state with flag := env.MPIDI_PROGRESS_ALL, progress_made := 0 }
  obtain ⟨v1, v2, v3, v4, v5, v6⟩ := hv
  unfold MPID_Progress_start MPIDI_progress_state_init_count
  by_cases hmax : env.MPIDI_CH4_MAX_VCIS = 1
  · simp only [hmax, if_true]
    refine ⟨?_, ?_, ?_, ?_, ?_⟩
    · simpa [MPIDI_progress_state_init] using v1
    · simpa [MPIDI_progress_state_init] using v2
    · simp [MPIDI_progress_state_init]
    · intro i hi
      simpa [MPIDI_progress_state_init] using v5 i hi
    · intro i hi
      have hi0 : i = 0 := by omega
      subst hi0
      simp
  · simp only [hmax, if_false]
    have hc := foldl_counts (env.progress_count g.world) env.n_vcis
      (MPIDI_progress_state_init env state)
    obtain ⟨c1, c2, c3, c4, c5⟩ := hc
    refine ⟨?_, ?_, ?_, ?_, ?_⟩
    · rw [c1]; simpa [MPIDI_progress_state_init] using v1
    · rw [c2]; simpa [MPIDI_progress_state_init] using v2
    · rw [c3]; simp [MPIDI_progress_state_init]
    · intro i hi
      rw [c4]
      simpa [MPIDI_progress_state_init] using v5 i hi
    · intro i hi
      exact c5 i hi

/-- Witness of C4 on the four-context example, from arbitrary prior content. -/
theorem MPID_Progress_start_snapshot_witness :
    exEnv.n_vcis ≤ exEnv.MPIDI_CH4_MAX_VCIS ∧
    (MPID_Progress_start exEnv (exMachine 0) exGarbage).flag = 7 ∧
    (MPID_Progress_start exEnv (exMachine 0) exGarbage).progress_made = 0 ∧
    (MPID_Progress_start exEnv (exMachine 0) exGarbage).vci_count = 4 ∧
    (∀ i, i < 4 → (MPID_Progress_start exEnv (exMachine 0) exGarbage).vci i = i) ∧
    (∀ i, i < 4 →
      (MPID_Progress_start exEnv (exMachine 0) exGarbage).progress_counts i = 10) :=
  ⟨by decide, MPID_Progress_start_snapshot exEnv (exMachine 0) exGarbage (by decide)⟩

/-! ## The global-progress decision -/

/-- C9: with exactly one context `MPIDI_do_global_progress` returns 0 and
leaves the machine state (so the poll counter) unchanged; otherwise it only
replaces the poll counter by its `int` increment (the previous value plus one
whenever that does not overflow, and congruent to it modulo `2^32` always) and
returns 1 exactly when the low 8 bits of the incremented counter are all zero,
0 otherwise. -/
theorem MPIDI_do_global_progress_spec (env : Env W) (g : Machine W) :
    (env.n_vcis = 1 → MPIDI_do_global_progress env g = (0, g)) ∧
    (env.n_vcis ≠ 1 →
      (MPIDI_do_global_progress env g).2 =
        { g with global_vci_poll_count := int_incr g.global_vci_poll_count } ∧
      ((MPIDI_do_global_progress env g).2.global_vci_poll_count
        - (g.global_vci_poll_count + 1)) % 2 ^ 32 = 0 ∧
      (-2 ^ 31 ≤ g.global_vci_poll_count → g.global_vci_poll_count < 2 ^ 31 - 1 →
        (MPIDI_do_global_progress env g).2.global_vci_poll_count
          = g.global_vci_poll_count + 1) ∧
      ((MPIDI_do_global_progress env g).1 = 1 ↔
        (MPIDI_do_global_progress env g).2.global_vci_poll_count % 2 ^ 8 = 0) ∧
      ((MPIDI_do_global_progress env g).1 = 0 ↔
        (MPIDI_do_global_progress env g).2.global_vci_poll_count % 2 ^ 8 ≠ 0)) := by
  constructor
  · intro h
    simp [MPIDI_do_global_progress, h]
  · intro h
    simp only [MPIDI_do_global_progress, h, if_false, land_mask_eq_emod]
    refine ⟨trivial, int_incr_congr _, int_incr_of_lt _, ?_, ?_⟩
    · by_cases h0 : int_incr g.global_vci_poll_count % 256 = 0
      · simp only [h0, if_true]
        constructor
        · intro _; omega
        · intro _; trivial
      · simp only [h0, if_false]
        constructor
        · intro h1; exact absurd h1 (by decide)
        · intro h1; omega
    · by_cases h0 : int_incr g.global_vci_poll_count % 256 = 0
      · simp only [h0, if_true]
        constructor
        · intro h1; exact absurd h1 (by decide)
        · intro h1; omega
      · simp only [h0, if_false]
        constructor
        · intro _; omega
        · intro _; trivial

/-- Witness of C9: with four contexts and poll counter 255 the counter becomes
256 and the decision is "global". -/
theorem MPIDI_do_global_progress_spec_witness :
    (MPIDI_do_global_progress exEnv (exMachine 255)).2.global_vci_poll_count = 255 + 1 ∧
    (MPIDI_do_global_progress exEnv (exMachine 255)).1 = 1 :=
  ⟨((MPIDI_do_global_progress_spec exEnv (exMachine 255)).2 (by decide)).2.2.1
      (by decide) (by decide),
   ((MPIDI_do_global_progress_spec exEnv (exMachine 255)).2 (by decide)).2.2.2.1.2
      (by decide)⟩

/-! ## The sweep loops -/

theorem MPIR_ERR_CHECK_iff (e : Int) : MPIR_ERR_CHECK e = true ↔ e ≠ MPI_SUCCESS := by
  simp [MPIR_ERR_CHECK]

theorem global_sweep_eq (env : Env W) (wait : Int) (l : List Nat)
    (state : MPID_Progress_state) (e : Int) (g : Machine W) :
    global_sweep env wait l state e g =
      sweep_loop env wait (fun _ v => v) (fun g st v => MPIDI_check_progress_made_vci env g st v)
        l state e g := by
  induction l generalizing state e g with
  | nil => rfl
  | cons v rest ih =>
    simp only [global_sweep, sweep_loop, ih]

theorem targeted_sweep_eq (env : Env W) (wait : Int) (l : List Nat)
    (state : MPID_Progress_state) (e : Int) (g : Machine W) :
    targeted_sweep env wait l state e g =
      sweep_loop env wait (fun st i => st.vci i)
        (fun g st i => MPIDI_check_progress_made_idx env g st i) l state e g := by
  induction l generalizing state e g with
  | nil => rfl
  | cons v rest ih =>
    simp only [targeted_sweep, sweep_loop, ih]

theorem sweep_loop_cons (env : Env W) (wait : Int) (ctx : MPID_Progress_state → Nat → Nat)
    (check : Machine W → MPID_Progress_state → Nat → MPID_Progress_state)
    (i : Nat) (rest : List Nat) (state : MPID_Progress_state) (e : Int) (g : Machine W) :
    sweep_loop env wait ctx check (i :: rest) state e g =
      if sweep_stops wait (sweep_loop env wait ctx check [i] state e g) then
        sweep_loop env wait ctx check [i] state e g
      else
        sweep_loop env wait ctx check rest
          (sweep_loop env wait ctx check [i] state e g).2.1
          (sweep_loop env wait ctx check [i] state e g).1
          (sweep_loop env wait ctx check [i] state e g).2.2 := by
  simp only [sweep_loop]
  generalize (MPIDI_PROGRESS env state (ctx state i) e (log (Event.cs_enter (ctx state i)) g))
    = r
  generalize (if wait ≠ 0 then check r.2 state i else state) = st1
  by_cases h1 : MPIR_ERR_CHECK r.1 = true
  · have h1b := (MPIR_ERR_CHECK_iff _).1 h1
    simp [h1, sweep_stops, h1b]
  · have h1b : r.1 = MPI_SUCCESS := by
      by_contra hc
      exact h1 ((MPIR_ERR_CHECK_iff _).2 hc)
    simp only [h1, Bool.false_eq_true, if_false]
    by_cases h2 : wait ≠ 0 ∧ st1.progress_made ≠ 0
    · have h3 : sweep_stops wait (r.1, st1, log (Event.cs_exit (ctx state i)) r.2) :=
        Or.inr h2
      simp only [h2, and_self, if_true, ne_eq, not_false_eq_true]
      rw [if_pos h3]
    · rw [if_neg h2, if_neg h2]
      have h3 : ¬ sweep_stops wait (r.1, st1, log (Event.cs_exit (ctx state i)) r.2) := by
        intro h3
        rcases h3 with h3 | h3
        · exact h3 h1b
        · exact h2 h3
      rw [if_neg h3]

theorem sweep_loop_append (env : Env W) (wait : Int) (ctx : MPID_Progress_state → Nat → Nat)
    (check : Machine W → MPID_Progress_state → Nat → MPID_Progress_state)
    (l1 l2 : List Nat) (hne : l1 ≠ []) (state : MPID_Progress_state) (e : Int)
    (g : Machine W) :
    sweep_loop env wait ctx check (l1 ++ l2) state e g =
      if sweep_stops wait (sweep_loop env wait ctx check l1 state e g) then
        sweep_loop env wait ctx check l1 state e g
      else
        sweep_loop env wait ctx check l2
          (sweep_loop env wait ctx check l1 state e g).2.1
          (sweep_loop env wait ctx check l1 state e g).1
          (sweep_loop env wait ctx check l1 state e g).2.2 := by
  induction l1 generalizing state e g with
  | nil => exact absurd rfl hne
  | cons i rest ih =>
    cases rest with
    | nil =>
      rw [List.cons_append, List.nil_append]
      exact sweep_loop_cons env wait ctx check i l2 state e g
    | cons j rest2 =>
      have ih2 := ih (by simp)
      rw [List.cons_append, sweep_loop_cons env wait ctx check i (j :: rest2 ++ l2),
        sweep_loop_cons env wait ctx check i (j :: rest2)]
      by_cases h1 : sweep_stops wait (sweep_loop env wait ctx check [i] state e g)
      · rw [if_pos h1, if_pos h1, if_pos h1]
      · rw [if_neg h1, if_neg h1, ih2]

/-! ## Shape of the trace -/

theorem ext_by_refl (g : Machine W) : ext_by g g [] := by
  simp [ext_by]

theorem ext_by_trans {g g2 g3 : Machine W} {a b : List Event}
    (h1 : ext_by g g2 a) (h2 : ext_by g2 g3 b) : ext_by g g3 (a ++ b) := by
  obtain ⟨a1, a2, a3⟩ := h1
  obtain ⟨b1, b2, b3⟩ := h2
  refine ⟨?_, ?_, ?_⟩
  · rw [b1, a1, List.append_assoc]
  · rw [b2, a2]
  · rw [b3, a3]

theorem ext_by_log (e : Event) (g : Machine W) : ext_by g (log e g) [e] := by
  simp [ext_by, log]

theorem call_nm_ext (env : Env W) (v : Nat) (g : Machine W) :
    ext_by g (call_nm env v g).2 [Event.nm_progress v (call_nm env v g).1] := by
  simp [ext_by, call_nm, log]

theorem call_shm_ext (env : Env W) (v : Nat) (g : Machine W) :
    ext_by g (call_shm env v g).2 [Event.shm_progress v (call_shm env v g).1] := by
  simp [ext_by, call_shm, log]

theorem MPIDI_PROGRESS_shape (env : Env W) (state : MPID_Progress_state) (v : Nat)
    (e : Int) (g : Machine W) :
    ∃ polls, ext_by g (MPIDI_PROGRESS env state v e g).2 polls ∧
      poll_shape v e polls (MPIDI_PROGRESS env state v e g).1 := by
  unfold MPIDI_PROGRESS
  by_cases hnm : Int.land state.flag env.MPIDI_PROGRESS_NM ≠ 0
  · simp only [hnm, if_true, ne_eq, not_false_eq_true]
    by_cases hd : env.MPIDI_CH4_DIRECT_NETMOD = true
    · simp only [hd, if_true]
      exact ⟨_, call_nm_ext env v g, Or.inr (Or.inl rfl)⟩
    · simp only [hd, Bool.false_eq_true, if_false]
      by_cases hs : ¬Int.land state.flag env.MPIDI_PROGRESS_SHM = 0 ∧
          (call_nm env v g).1 = MPI_SUCCESS
      · rw [if_pos hs]
        refine ⟨_, ext_by_trans (call_nm_ext env v g) (call_shm_ext env v _), ?_⟩
        right; right; right
        rw [hs.2]
        rfl
      · rw [if_neg hs]
        exact ⟨_, call_nm_ext env v g, Or.inr (Or.inl rfl)⟩
  · simp only [hnm, if_false]
    by_cases hd : env.MPIDI_CH4_DIRECT_NETMOD = true
    · simp only [hd, if_true]
      exact ⟨[], ext_by_refl g, Or.inl ⟨rfl, rfl⟩⟩
    · simp only [hd, Bool.false_eq_true, if_false]
      by_cases hs : Int.land state.flag env.MPIDI_PROGRESS_SHM ≠ 0 ∧ e = MPI_SUCCESS
      · rw [if_pos hs]
        exact ⟨_, call_shm_ext env v g, Or.inr (Or.inr (Or.inl ⟨rfl, hs.2⟩))⟩
      · rw [if_neg hs]
        exact ⟨[], ext_by_refl g, Or.inl ⟨rfl, rfl⟩⟩

theorem lock_run_append (a b : List Event) (h : Option Nat) :
    lock_run h (a ++ b) = (lock_run h a).bind (fun h2 => lock_run h2 b) := by
  induction a generalizing h with
  | nil => simp [lock_run]
  | cons x t ih =>
    cases x <;> simp only [List.cons_append, lock_run] <;>
      first
      | exact ih _
      | (split_ifs <;> first | exact ih _ | rfl)

theorem fail_last_append (err : Int) (a b : List Event) (ha : no_fail a)
    (hb : fail_last err b) : fail_last err (a ++ b) := by
  induction a with
  | nil => simpa using hb
  | cons x t ih =>
    cases x <;> simp only [List.cons_append, fail_last, no_fail] at ha ⊢ <;>
      first
      | exact ih ha
      | exact ⟨fun hc => absurd ha.1 hc, ih ha.2⟩

theorem visited_append (a b : List Event) : visited (a ++ b) = visited a ++ visited b := by
  induction a with
  | nil => simp [visited]
  | cons x t ih =>
    cases x <;> simp [visited, ih]

theorem poll_shape_lock (v : Nat) (e : Int) (polls : List Event) (err : Int)
    (h : poll_shape v e polls err) :
    lock_run none (Event.cs_enter v :: polls ++ [Event.cs_exit v]) = some none ∧
    visited (Event.cs_enter v :: polls ++ [Event.cs_exit v]) = [v] := by
  rcases h with ⟨h, _⟩ | h | ⟨h, _⟩ | h <;> subst h <;> simp [lock_run, visited]

theorem poll_shape_fail (v : Nat) (polls : List Event) (err : Int)
    (h : poll_shape v MPI_SUCCESS polls err) :
    fail_last err (Event.cs_enter v :: polls ++ [Event.cs_exit v]) ∧
    (err = MPI_SUCCESS → no_fail (Event.cs_enter v :: polls ++ [Event.cs_exit v])) := by
  rcases h with ⟨h, _⟩ | h | ⟨h, _⟩ | h <;> subst h <;>
    simp [fail_last, no_fail]

theorem no_fail_append (a b : List Event) (ha : no_fail a) (hb : no_fail b) :
    no_fail (a ++ b) := by
  induction a with
  | nil => simpa using hb
  | cons x t ih =>
    cases x <;> simp only [List.cons_append, no_fail] at ha ⊢ <;>
      first
      | exact ih ha
      | exact ⟨ha.1, ih ha.2⟩

theorem sweep_loop_trace (env : Env W) (wait : Int) (ctx : MPID_Progress_state → Nat → Nat)
    (check : Machine W → MPID_Progress_state → Nat → MPID_Progress_state)
    (hctx : ∀ g st i j, ctx (check g st i) j = ctx st j)
    (l : List Nat) (state : MPID_Progress_state) (g : Machine W) :
    ∃ new, ext_by g (sweep_loop env wait ctx check l state MPI_SUCCESS g).2.2 new ∧
      lock_run none new = some none ∧
      fail_last (sweep_loop env wait ctx check l state MPI_SUCCESS g).1 new ∧
      ((sweep_loop env wait ctx check l state MPI_SUCCESS g).1 = MPI_SUCCESS → no_fail new) ∧
      ∃ k, k ≤ l.length ∧ visited new = (l.take k).map (ctx state) := by
  induction l generalizing state g with
  | nil =>
    exact ⟨[], ext_by_refl g, rfl, trivial, fun _ => trivial, 0, le_refl _, rfl⟩
  | cons i rest ih =>
    obtain ⟨polls, hext, hshape⟩ :=
      MPIDI_PROGRESS_shape env state (ctx state i) MPI_SUCCESS (log (Event.cs_enter (ctx state i)) g)
    have hlock := poll_shape_lock _ _ _ _ hshape
    have hfail := poll_shape_fail _ _ _ hshape
    simp only [sweep_loop]
    generalize hr : MPIDI_PROGRESS env state (ctx state i) MPI_SUCCESS
      (log (Event.cs_enter (ctx state i)) g) = r at hext hshape hlock hfail
    generalize hst : (if wait ≠ 0 then check r.2 state i else state) = st1
    have hctx1 : ∀ j, ctx st1 j = ctx state j := by
      intro j
      rw [← hst]
      split_ifs
      · exact hctx _ _ _ _
      · rfl
    have hvisit : ext_by g (log (Event.cs_exit (ctx state i)) r.2)
        (Event.cs_enter (ctx state i) :: polls ++ [Event.cs_exit (ctx state i)]) := by
      have h := ext_by_trans (ext_by_log (Event.cs_enter (ctx state i)) g)
        (ext_by_trans hext (ext_by_log (Event.cs_exit (ctx state i)) r.2))
      simpa using h
    have hstop : ∃ new, ext_by g (log (Event.cs_exit (ctx state i)) r.2) new ∧
        lock_run none new = some none ∧ fail_last r.1 new ∧
        (r.1 = MPI_SUCCESS → no_fail new) ∧
        ∃ k, k ≤ (i :: rest).length ∧ visited new = ((i :: rest).take k).map (ctx state) :=
      ⟨_, hvisit, hlock.1, hfail.1, hfail.2, 1, by simp, by simpa using hlock.2⟩
    by_cases h1 : MPIR_ERR_CHECK r.1 = true
    · rw [if_pos h1]
      exact hstop
    · rw [if_neg h1]
      by_cases h2 : wait ≠ 0 ∧ st1.progress_made ≠ 0
      · rw [if_pos h2]
        exact hstop
      · rw [if_neg h2]
        have h1b : r.1 = MPI_SUCCESS := by
          by_contra hc
          exact h1 ((MPIR_ERR_CHECK_iff _).2 hc)
        rw [h1b]
        obtain ⟨new2, e2, l2, f2, n2, k, hk, v2⟩ :=
          ih st1 (log (Event.cs_exit (ctx state i)) r.2)
        refine ⟨_, ext_by_trans hvisit e2, ?_, ?_, ?_, k + 1, ?_, ?_⟩
        · rw [lock_run_append, hlock.1]
          simpa using l2
        · exact fail_last_append _ _ _ (hfail.2 h1b) f2
        · intro h
          exact no_fail_append _ _ (hfail.2 h1b) (n2 h)
        · simp only [List.length_cons]
          omega
        · rw [visited_append, hlock.2, v2]
          simp only [List.take_succ_cons, List.map_cons, List.singleton_append]
          congr 1
          apply List.map_congr_left
          intro j _
          exact hctx1 j

theorem quiet_append (a b : List Event) (ha : quiet a) (hb : quiet b) : quiet (a ++ b) := by
  induction a with
  | nil => simpa using hb
  | cons x t ih =>
    cases x <;> simp only [List.cons_append, quiet] at ha ⊢ <;> exact ih ha

theorem quiet_lock_run (a : List Event) (ha : quiet a) (h : Option Nat) :
    lock_run h a = some h := by
  induction a with
  | nil => rfl
  | cons x t ih =>
    cases x <;> simp only [quiet, lock_run] at ha ⊢ <;> exact ih ha

theorem quiet_no_fail (a : List Event) (ha : quiet a) : no_fail a := by
  induction a with
  | nil => trivial
  | cons x t ih =>
    cases x <;> simp only [quiet, no_fail] at ha ⊢ <;> exact ih ha

theorem quiet_visited (a : List Event) (ha : quiet a) : visited a = [] := by
  induction a with
  | nil => rfl
  | cons x t ih =>
    cases x <;> simp only [quiet, visited] at ha ⊢ <;> exact ih ha

theorem MPIR_ERR_CHECK_false (e : Int) (h : ¬ MPIR_ERR_CHECK e = true) : e = MPI_SUCCESS := by
  by_contra hc
  exact h ((MPIR_ERR_CHECK_iff _).2 hc)

theorem head_shape (env : Env W) (state : MPID_Progress_state) (g : Machine W) :
    ∃ hd, ext_by g (MPIDI_progress_test_head env state g).2.2 hd ∧ quiet hd ∧
      ((MPIDI_progress_test_head env state g).2.1 = false →
        (MPIDI_progress_test_head env state g).1 = MPI_SUCCESS) ∧
      ((MPIDI_progress_test_head env state g).2.1 = true →
        (MPIDI_progress_test_head env state g).1 ≠ MPI_SUCCESS) := by
  unfold MPIDI_progress_test_head
  have h0 : ∃ hd0, ext_by g
      (if env.HAVE_SIGNAL = true ∧ g.sigusr1_count > g.my_sigusr1_count then
        call_check_for_failed_procs env { g with my_sigusr1_count := g.sigusr1_count }
      else (MPI_SUCCESS, g)).2 hd0 ∧ quiet hd0 := by
    split_ifs
    · exact ⟨[Event.check_for_failed_procs (env.MPIDI_check_for_failed_procs g.world).1],
        by simp [ext_by, call_check_for_failed_procs, log], trivial⟩
    · exact ⟨[], ext_by_refl g, trivial⟩
  obtain ⟨hd0, e0, q0⟩ := h0
  generalize (if env.HAVE_SIGNAL = true ∧ g.sigusr1_count > g.my_sigusr1_count then
        call_check_for_failed_procs env { g with my_sigusr1_count := g.sigusr1_count }
      else (MPI_SUCCESS, g)) = r0 at e0 ⊢
  simp only []
  by_cases c0 : MPIR_ERR_CHECK r0.1 = true
  · rw [if_pos c0]
    exact ⟨hd0, e0, q0, fun h => absurd h (by simp), fun _ => (MPIR_ERR_CHECK_iff _).1 c0⟩
  · rw [if_neg c0]
    have h1 : ∃ hd1, ext_by r0.2
        (if Int.land state.flag env.MPIDI_PROGRESS_HOOKS ≠ 0 then call_hooks env r0.2
          else r0).2 hd1 ∧ quiet hd1 := by
      split_ifs
      · exact ⟨[Event.hook_exec_all (env.MPIR_Progress_hook_exec_all r0.2.world).1],
          by simp [ext_by, call_hooks, log], trivial⟩
      · exact ⟨[], ext_by_refl _, trivial⟩
    obtain ⟨hd1, e1, q1⟩ := h1
    generalize (if Int.land state.flag env.MPIDI_PROGRESS_HOOKS ≠ 0 then call_hooks env r0.2
          else r0) = r1 at e1 ⊢
    by_cases c1 : MPIR_ERR_CHECK r1.1 = true
    · rw [if_pos c1]
      exact ⟨_, ext_by_trans e0 e1, quiet_append _ _ q0 q1, fun h => absurd h (by simp),
        fun _ => (MPIR_ERR_CHECK_iff _).1 c1⟩
    · rw [if_neg c1]
      have h2 : ∃ hd2, ext_by r1.2
          (if env.MPIDI_CH4_USE_WORK_QUEUES = true then call_workq env r1.2 else r1).2 hd2 ∧
          quiet hd2 := by
        split_ifs
        · exact ⟨[Event.workq_vci_progress (env.MPIDI_workq_vci_progress r1.2.world).1],
            by simp [ext_by, call_workq, log], trivial⟩
        · exact ⟨[], ext_by_refl _, trivial⟩
      obtain ⟨hd2, e2, q2⟩ := h2
      generalize (if env.MPIDI_CH4_USE_WORK_QUEUES = true then call_workq env r1.2 else r1)
        = r2 at e2 ⊢
      by_cases c2 : MPIR_ERR_CHECK r2.1 = true
      · rw [if_pos c2]
        exact ⟨_, ext_by_trans (ext_by_trans e0 e1) e2,
          quiet_append _ _ (quiet_append _ _ q0 q1) q2, fun h => absurd h (by simp),
          fun _ => (MPIR_ERR_CHECK_iff _).1 c2⟩
      · rw [if_neg c2]
        exact ⟨_, ext_by_trans (ext_by_trans e0 e1) e2,
          quiet_append _ _ (quiet_append _ _ q0 q1) q2, fun _ => MPIR_ERR_CHECK_false _ c2,
          fun h => absurd h (by simp)⟩

theorem do_global_fst_congr (env : Env W) (g g2 : Machine W)
    (h : g2.global_vci_poll_count = g.global_vci_poll_count) :
    (MPIDI_do_global_progress env g2).1 = (MPIDI_do_global_progress env g).1 := by
  unfold MPIDI_do_global_progress
  split_ifs <;> simp_all

theorem do_global_ext (env : Env W) (g : Machine W) :
    (MPIDI_do_global_progress env g).2.trace = g.trace ∧
    (MPIDI_do_global_progress env g).2.world = g.world ∧
    (MPIDI_do_global_progress env g).2.sigusr1_count = g.sigusr1_count := by
  unfold MPIDI_do_global_progress
  split_ifs <;> simp

theorem check_idx_frame (env : Env W) (g : Machine W) (st : MPID_Progress_state) (i : Nat) :
    (MPIDI_check_progress_made_idx env g st i).flag = st.flag ∧
    (MPIDI_check_progress_made_idx env g st i).vci = st.vci ∧
    (MPIDI_check_progress_made_idx env g st i).vci_count = st.vci_count := by
  unfold MPIDI_check_progress_made_idx
  simp only []
  split_ifs <;> simp

theorem check_vci_loop_frame (env : Env W) (g : Machine W) (v : Nat) (l : List Nat)
    (st : MPID_Progress_state) :
    (MPIDI_check_progress_made_vci_loop env g v l st).flag = st.flag ∧
    (MPIDI_check_progress_made_vci_loop env g v l st).vci = st.vci ∧
    (MPIDI_check_progress_made_vci_loop env g v l st).vci_count = st.vci_count := by
  induction l with
  | nil => simp [MPIDI_check_progress_made_vci_loop]
  | cons i rest ih =>
    simp only [MPIDI_check_progress_made_vci_loop]
    split_ifs <;> first | exact ih | simp

theorem check_vci_frame (env : Env W) (g : Machine W) (st : MPID_Progress_state) (v : Nat) :
    (MPIDI_check_progress_made_vci env g st v).flag = st.flag ∧
    (MPIDI_check_progress_made_vci env g st v).vci = st.vci ∧
    (MPIDI_check_progress_made_vci env g st v).vci_count = st.vci_count :=
  check_vci_loop_frame env g v _ st

theorem progress_test_shape (env : Env W) (state : MPID_Progress_state) (wait : Int)
    (g : Machine W) :
    ∃ new, (MPIDI_progress_test env state wait g).2.2.trace = g.trace ++ new ∧
      lock_run none new = some none ∧
      fail_last (MPIDI_progress_test env state wait g).1 new ∧
      (env.MPIDI_CH4_MAX_VCIS ≠ 1 →
        ∃ k, k ≤ (sweep_list env state g).length ∧
          visited new = (sweep_list env state g).take k) := by
  obtain ⟨hd, hext, hq, herr, _⟩ := head_shape env state g
  unfold MPIDI_progress_test
  simp only []
  by_cases hf : (MPIDI_progress_test_head env state g).2.1 = true
  · rw [if_pos hf]
    refine ⟨hd, hext.1, quiet_lock_run _ hq _, ?_, fun _ => ⟨0, Nat.zero_le _, ?_⟩⟩
    · have := quiet_no_fail _ hq
      simpa using fail_last_append _ hd [] this trivial
    · simpa using quiet_visited _ hq
  · rw [if_neg hf]
    have herr0 := herr (by simpa using hf)
    rw [herr0]
    by_cases hmax : env.MPIDI_CH4_MAX_VCIS = 1
    · rw [if_pos hmax]
      obtain ⟨polls, pext, pshape⟩ := MPIDI_PROGRESS_shape env state 0 MPI_SUCCESS
        (log (Event.cs_enter 0) (MPIDI_progress_test_head env state g).2.2)
      have hlock := poll_shape_lock _ _ _ _ pshape
      have hfail := poll_shape_fail _ _ _ pshape
      have hall := ext_by_trans hext (ext_by_trans (ext_by_log (Event.cs_enter 0) _)
        (ext_by_trans pext (ext_by_log (Event.cs_exit 0) _)))
      refine ⟨_, hall.1, ?_, ?_, fun h => absurd hmax h⟩
      · rw [lock_run_append, quiet_lock_run _ hq]
        simpa using hlock.1
      · apply fail_last_append _ _ _ (quiet_no_fail _ hq)
        simpa using hfail.1
    · rw [if_neg hmax]
      have hd1 := do_global_fst_congr env g (MPIDI_progress_test_head env state g).2.2 hext.2.1
      have hd2 := do_global_ext env (MPIDI_progress_test_head env state g).2.2
      by_cases hg : (MPIDI_do_global_progress env (MPIDI_progress_test_head env state g).2.2).1 ≠ 0
      · rw [if_pos hg, global_sweep_eq]
        obtain ⟨new, e2, l2, f2, _, k, hk, v2⟩ := sweep_loop_trace env wait (fun _ v => v)
          (fun g st v => MPIDI_check_progress_made_vci env g st v) (fun _ _ _ _ => rfl)
          (List.range env.n_vcis) state
          (MPIDI_do_global_progress env (MPIDI_progress_test_head env state g).2.2).2
        refine ⟨hd ++ new, ?_, ?_, ?_, fun _ => ⟨k, ?_, ?_⟩⟩
        · rw [e2.1, hd2.1, hext.1, List.append_assoc]
        · rw [lock_run_append, quiet_lock_run _ hq]
          simpa using l2
        · exact fail_last_append _ _ _ (quiet_no_fail _ hq) f2
        · rw [hd1] at hg
          simpa [sweep_list, hg] using hk
        · rw [hd1] at hg
          rw [visited_append, quiet_visited _ hq, v2]
          simp [sweep_list, hg]
      · rw [if_neg hg, targeted_sweep_eq]
        obtain ⟨new, e2, l2, f2, _, k, hk, v2⟩ := sweep_loop_trace env wait (fun st i => st.vci i)
          (fun g st i => MPIDI_check_progress_made_idx env g st i)
          (fun g st i j => congrFun (check_idx_frame env g st i).2.1 j)
          (List.range state.vci_count) state
          (MPIDI_do_global_progress env (MPIDI_progress_test_head env state g).2.2).2
        refine ⟨hd ++ new, ?_, ?_, ?_, fun _ => ⟨k, ?_, ?_⟩⟩
        · rw [e2.1, hd2.1, hext.1, List.append_assoc]
        · rw [lock_run_append, quiet_lock_run _ hq]
          simpa using l2
        · exact fail_last_append _ _ _ (quiet_no_fail _ hq) f2
        · rw [hd1] at hg
          simpa [sweep_list, hg] using hk
        · rw [hd1] at hg
          rw [visited_append, quiet_visited _ hq, v2]
          simp [sweep_list, hg, List.map_take]

theorem lock_run_locks_after (tr : List Event) (h h2 : Option Nat)
    (hr : lock_run h tr = some h2) :
    locks_after h.toList tr = h2.toList ∧
    ∀ p e s, tr = p ++ e :: s →
      (locks_after h.toList (p ++ [e])).length ≤ 1 ∧
      ∀ v rc, (e = Event.nm_progress v rc ∨ e = Event.shm_progress v rc) →
        locks_after h.toList p = [v] := by
  induction tr generalizing h with
  | nil =>
    simp only [lock_run, Option.some.injEq] at hr
    subst hr
    refine ⟨rfl, ?_⟩
    intro p e s hsplit
    cases p <;> simp at hsplit
  | cons x t ih =>
    have hlen : h.toList.length ≤ 1 := by cases h <;> simp
    cases x with
    | cs_enter v =>
      simp only [lock_run] at hr
      split_ifs at hr with hh
      subst hh
      obtain ⟨i1, i2⟩ := ih (some v) hr
      refine ⟨by simpa [locks_after] using i1, ?_⟩
      intro p e s hsplit
      cases p with
      | nil =>
        simp only [List.nil_append, List.cons.injEq] at hsplit
        obtain ⟨he, _⟩ := hsplit
        subst he
        simp [locks_after]
      | cons y p2 =>
        simp only [List.cons_append, List.cons.injEq] at hsplit
        obtain ⟨hy, ht⟩ := hsplit
        subst hy
        simpa [locks_after] using i2 p2 e s ht
    | cs_exit v =>
      simp only [lock_run] at hr
      split_ifs at hr with hh
      subst hh
      obtain ⟨i1, i2⟩ := ih none hr
      refine ⟨by simpa [locks_after] using i1, ?_⟩
      intro p e s hsplit
      cases p with
      | nil =>
        simp only [List.nil_append, List.cons.injEq] at hsplit
        obtain ⟨he, _⟩ := hsplit
        subst he
        simp [locks_after]
      | cons y p2 =>
        simp only [List.cons_append, List.cons.injEq] at hsplit
        obtain ⟨hy, ht⟩ := hsplit
        subst hy
        simpa [locks_after] using i2 p2 e s ht
    | nm_progress v rc =>
      simp only [lock_run] at hr
      split_ifs at hr with hh
      subst hh
      obtain ⟨i1, i2⟩ := ih (some v) hr
      refine ⟨by simpa [locks_after] using i1, ?_⟩
      intro p e s hsplit
      cases p with
      | nil =>
        simp only [List.nil_append, List.cons.injEq] at hsplit
        obtain ⟨he, _⟩ := hsplit
        subst he
        simp [locks_after]
      | cons y p2 =>
        simp only [List.cons_append, List.cons.injEq] at hsplit
        obtain ⟨hy, ht⟩ := hsplit
        subst hy
        simpa [locks_after] using i2 p2 e s ht
    | shm_progress v rc =>
      simp only [lock_run] at hr
      split_ifs at hr with hh
      subst hh
      obtain ⟨i1, i2⟩ := ih (some v) hr
      refine ⟨by simpa [locks_after] using i1, ?_⟩
      intro p e s hsplit
      cases p with
      | nil =>
        simp only [List.nil_append, List.cons.injEq] at hsplit
        obtain ⟨he, _⟩ := hsplit
        subst he
        simp [locks_after]
      | cons y p2 =>
        simp only [List.cons_append, List.cons.injEq] at hsplit
        obtain ⟨hy, ht⟩ := hsplit
        subst hy
        simpa [locks_after] using i2 p2 e s ht
    | hook_exec_all rc =>
      simp only [lock_run] at hr
      obtain ⟨i1, i2⟩ := ih h hr
      refine ⟨by simpa [locks_after] using i1, ?_⟩
      intro p e s hsplit
      cases p with
      | nil =>
        simp only [List.nil_append, List.cons.injEq] at hsplit
        obtain ⟨he, _⟩ := hsplit
        subst he
        simpa [locks_after] using hlen
      | cons y p2 =>
        simp only [List.cons_append, List.cons.injEq] at hsplit
        obtain ⟨hy, ht⟩ := hsplit
        subst hy
        simpa [locks_after] using i2 p2 e s ht
    | check_for_failed_procs rc =>
      simp only [lock_run] at hr
      obtain ⟨i1, i2⟩ := ih h hr
      refine ⟨by simpa [locks_after] using i1, ?_⟩
      intro p e s hsplit
      cases p with
      | nil =>
        simp only [List.nil_append, List.cons.injEq] at hsplit
        obtain ⟨he, _⟩ := hsplit
        subst he
        simpa [locks_after] using hlen
      | cons y p2 =>
        simp only [List.cons_append, List.cons.injEq] at hsplit
        obtain ⟨hy, ht⟩ := hsplit
        subst hy
        simpa [locks_after] using i2 p2 e s ht
    | workq_vci_progress rc =>
      simp only [lock_run] at hr
      obtain ⟨i1, i2⟩ := ih h hr
      refine ⟨by simpa [locks_after] using i1, ?_⟩
      intro p e s hsplit
      cases p with
      | nil =>
        simp only [List.nil_append, List.cons.injEq] at hsplit
        obtain ⟨he, _⟩ := hsplit
        subst he
        simpa [locks_after] using hlen
      | cons y p2 =>
        simp only [List.cons_append, List.cons.injEq] at hsplit
        obtain ⟨hy, ht⟩ := hsplit
        subst hy
        simpa [locks_after] using i2 p2 e s ht
    | thread_yield =>
      simp only [lock_run] at hr
      obtain ⟨i1, i2⟩ := ih h hr
      refine ⟨by simpa [locks_after] using i1, ?_⟩
      intro p e s hsplit
      cases p with
      | nil =>
        simp only [List.nil_append, List.cons.injEq] at hsplit
        obtain ⟨he, _⟩ := hsplit
        subst he
        simpa [locks_after] using hlen
      | cons y p2 =>
        simp only [List.cons_append, List.cons.injEq] at hsplit
        obtain ⟨hy, ht⟩ := hsplit
        subst hy
        simpa [locks_after] using i2 p2 e s ht

theorem fail_last_split (err : Int) (tr : List Event) (hf : fail_last err tr)
    (p s : List Event) (ev : Event) (v : Nat) (rc : Int) (hsplit : tr = p ++ ev :: s)
    (hev : ev = Event.nm_progress v rc ∨ ev = Event.shm_progress v rc)
    (hrc : rc ≠ MPI_SUCCESS) : err = rc ∧ s = [Event.cs_exit v] := by
  induction p generalizing tr with
  | nil =>
    simp only [List.nil_append] at hsplit
    subst hsplit
    rcases hev with hev | hev <;> subst hev <;> exact hf.1 hrc
  | cons y p2 ih =>
    simp only [List.cons_append] at hsplit
    subst hsplit
    apply ih (p2 ++ ev :: s) _ rfl
    cases y <;> simp only [fail_last] at hf <;> first | exact hf.2 | exact hf

theorem lock_run_last (p : List Event) (h : Option Nat) (v : Nat)
    (hr : lock_run h p = some (some v)) :
    (visited p).getLast? = some v ∨ (visited p = [] ∧ h = some v) := by
  induction p generalizing h with
  | nil =>
    simp only [lock_run, Option.some.injEq] at hr
    exact Or.inr ⟨rfl, hr⟩
  | cons x t ih =>
    cases x with
    | cs_enter u =>
      simp only [lock_run] at hr
      split_ifs at hr with hh
      rcases ih (some u) hr with h1 | ⟨h1, h2⟩
      · left
        simp only [visited]
        rw [List.getLast?_cons]
        rw [h1]
        rfl
      · left
        simp only [visited, h1]
        simpa using h2
    | cs_exit u =>
      simp only [lock_run] at hr
      split_ifs at hr with hh
      rcases ih none hr with h1 | ⟨_, h2⟩
      · left; simpa [visited] using h1
      · exact absurd h2 (by simp)
    | nm_progress u rc =>
      simp only [lock_run] at hr
      split_ifs at hr with hh
      rcases ih h hr with h1 | h1
      · left; simpa [visited] using h1
      · right; simpa [visited] using h1
    | shm_progress u rc =>
      simp only [lock_run] at hr
      split_ifs at hr with hh
      rcases ih h hr with h1 | h1
      · left; simpa [visited] using h1
      · right; simpa [visited] using h1
    | hook_exec_all rc =>
      simp only [lock_run] at hr
      rcases ih h hr with h1 | h1
      · left; simpa [visited] using h1
      · right; simpa [visited] using h1
    | check_for_failed_procs rc =>
      simp only [lock_run] at hr
      rcases ih h hr with h1 | h1
      · left; simpa [visited] using h1
      · right; simpa [visited] using h1
    | workq_vci_progress rc =>
      simp only [lock_run] at hr
      rcases ih h hr with h1 | h1
      · left; simpa [visited] using h1
      · right; simpa [visited] using h1
    | thread_yield =>
      simp only [lock_run] at hr
      rcases ih h hr with h1 | h1
      · left; simpa [visited] using h1
      · right; simpa [visited] using h1

/-! ## Failure propagation -/

/-- C7: in a multi-context build, for every snapshot, wait flag and behaviour
of the collaborators: if the trace of one `MPIDI_progress_test` call contains a
transport poll of context `v` (network or shared memory) that returned a
failure code `rc`, then the call returns exactly `rc`, the only event after the
failing poll is the release of the lock of `v` (so the shared-memory transport
is not polled after a network failure, and no other context is polled), and the
contexts visited by the call are exactly those at sweep positions `0..j` of the
sweep list, where position `j` holds `v`. -/
theorem MPIDI_progress_test_first_failure (env : Env W) (state : MPID_Progress_state)
    (wait : Int) (g : Machine W) (p s : List Event) (ev : Event) (v : Nat) (rc : Int)
    (hmax : env.MPIDI_CH4_MAX_VCIS ≠ 1)
    (htrace : (MPIDI_progress_test env state wait g).2.2.trace = g.trace ++ (p ++ ev :: s))
    (hev : ev = Event.nm_progress v rc ∨ ev = Event.shm_progress v rc)
    (hrc : rc ≠ MPI_SUCCESS) :
    (MPIDI_progress_test env state wait g).1 = rc ∧
    s = [Event.cs_exit v] ∧
    ∃ j, j < (sweep_list env state g).length ∧
      (sweep_list env state g)[j]? = some v ∧
      visited (p ++ ev :: s) = (sweep_list env state g).take (j + 1) := by
  obtain ⟨new, h1, h2, h3, h4⟩ := progress_test_shape env state wait g
  obtain ⟨k, hk, hv⟩ := h4 hmax
  have hnew : new = p ++ ev :: s := by
    rw [h1] at htrace
    exact List.append_cancel_left htrace
  obtain ⟨herr, hs⟩ := fail_last_split _ _ h3 p s ev v rc hnew hev hrc
  refine ⟨herr, hs, ?_⟩
  rw [hnew, lock_run_append] at h2
  cases hp : lock_run none p with
  | none => rw [hp] at h2; simp at h2
  | some h =>
    rw [hp] at h2
    simp only [Option.some_bind] at h2
    have hh : h = some v := by
      rcases hev with hev | hev <;> subst hev <;> simp only [lock_run] at h2 <;>
        split_ifs at h2 with hx <;> exact hx
    subst hh
    have hlast : (visited p).getLast? = some v := by
      rcases lock_run_last p none v hp with hl | ⟨_, hl⟩
      · exact hl
      · exact absurd hl (by simp)
    have hvp : visited (p ++ ev :: s) = visited p := by
      rw [visited_append, hs]
      rcases hev with hev | hev <;> subst hev <;> simp [visited]
    rw [hnew, hvp] at hv
    rw [hv, List.getLast?_take] at hlast
    have hk0 : k ≠ 0 := by
      intro hk0
      simp [hk0] at hlast
    rw [if_neg hk0] at hlast
    have hk1 : k - 1 < (sweep_list env state g).length := by omega
    rw [List.getElem?_eq_getElem hk1] at hlast
    simp only [Option.or_some] at hlast
    refine ⟨k - 1, hk1, ?_, ?_⟩
    · rw [List.getElem?_eq_getElem hk1]
      exact hlast
    · rw [hvp, hv]
      congr 1
      omega

/-- Witness of C7: network failure 77 on context 1 during a targeted sweep of
four contexts. -/
theorem MPIDI_progress_test_first_failure_witness :
    (MPIDI_progress_test exEnvFail exSnapshot 1 (exMachine 0)).1 = 77 ∧
    [Event.cs_exit 1] = [Event.cs_exit 1] ∧
    ∃ j, j < (sweep_list exEnvFail exSnapshot (exMachine 0)).length ∧
      (sweep_list exEnvFail exSnapshot (exMachine 0))[j]? = some 1 ∧
      visited ([Event.hook_exec_all 0, Event.cs_enter 0, Event.nm_progress 0 0,
          Event.shm_progress 0 0, Event.cs_exit 0, Event.cs_enter 1]
        ++ Event.nm_progress 1 77 :: [Event.cs_exit 1])
        = (sweep_list exEnvFail exSnapshot (exMachine 0)).take (j + 1) :=
  MPIDI_progress_test_first_failure exEnvFail exSnapshot 1 (exMachine 0)
    [Event.hook_exec_all 0, Event.cs_enter 0, Event.nm_progress 0 0,
      Event.shm_progress 0 0, Event.cs_exit 0, Event.cs_enter 1]
    [Event.cs_exit 1] (Event.nm_progress 1 77) 1 77 (by decide) (by decide)
    (Or.inl rfl) (by decide)

/-! ## Lock discipline -/

/-- C8: for every snapshot, wait flag and behaviour of the collaborators, the
events `new` appended by one `MPIDI_progress_test` call satisfy, counting locks
from "none held" at the start of the call: no lock is held at the end; after
every event at most one context lock is held; and immediately before every
transport poll of a context `v` the locks held are exactly the lock of `v`.
The statement covers the success path and every failure path. -/
theorem MPIDI_progress_test_lock_discipline (env : Env W) (state : MPID_Progress_state)
    (wait : Int) (g : Machine W) :
    ∃ new, (MPIDI_progress_test env state wait g).2.2.trace = g.trace ++ new ∧
      locks_after [] new = [] ∧
      ∀ p e s, new = p ++ e :: s →
        (locks_after [] (p ++ [e])).length ≤ 1 ∧
        ∀ v rc, (e = Event.nm_progress v rc ∨ e = Event.shm_progress v rc) →
          locks_after [] p = [v] := by
  obtain ⟨new, h1, h2, _, _⟩ := progress_test_shape env state wait g
  obtain ⟨h3, h4⟩ := lock_run_locks_after new none none h2
  exact ⟨new, h1, by simpa using h3, by simpa using h4⟩

/-! ## Sweeps without detection and without failures -/

theorem MPI_SUCCESS_eq : MPI_SUCCESS = 0 := rfl

theorem MPIDI_PROGRESS_ok (env : Env W) (hok : all_succeed env) (state : MPID_Progress_state)
    (v : Nat) (g : Machine W) :
    (MPIDI_PROGRESS env state v MPI_SUCCESS g).1 = MPI_SUCCESS ∧
    ext_by (log (Event.cs_enter v) g)
      (log (Event.cs_exit v)
        (MPIDI_PROGRESS env state v MPI_SUCCESS (log (Event.cs_enter v) g)).2)
      ((visit_ok env state.flag v).tail) := by
  obtain ⟨hnm, hshm, _, _, _⟩ := hok
  unfold MPIDI_PROGRESS visit_ok
  by_cases c1 : Int.land state.flag env.MPIDI_PROGRESS_NM ≠ 0 <;>
    by_cases c2 : env.MPIDI_CH4_DIRECT_NETMOD = true <;>
    by_cases c3 : Int.land state.flag env.MPIDI_PROGRESS_SHM ≠ 0 <;>
    simp [c1, c2, c3, call_nm, call_shm, hnm, hshm, ext_by, log, MPI_SUCCESS_eq]

theorem sweep_loop_ok (env : Env W) (hok : all_succeed env)
    (ctx : MPID_Progress_state → Nat → Nat)
    (check : Machine W → MPID_Progress_state → Nat → MPID_Progress_state)
    (l : List Nat) (state : MPID_Progress_state) (g : Machine W) :
    (sweep_loop env 0 ctx check l state MPI_SUCCESS g).1 = MPI_SUCCESS ∧
    (sweep_loop env 0 ctx check l state MPI_SUCCESS g).2.1 = state ∧
    ext_by g (sweep_loop env 0 ctx check l state MPI_SUCCESS g).2.2
      (l.flatMap (fun i => visit_ok env state.flag (ctx state i))) := by
  induction l generalizing g with
  | nil => exact ⟨rfl, rfl, ext_by_refl g⟩
  | cons i rest ih =>
    obtain ⟨p1, p2⟩ := MPIDI_PROGRESS_ok env hok state (ctx state i) g
    have hc : ¬ MPIR_ERR_CHECK (MPIDI_PROGRESS env state (ctx state i) MPI_SUCCESS
        (log (Event.cs_enter (ctx state i)) g)).1 = true := by
      rw [(MPIDI_PROGRESS_ok env hok state (ctx state i) _).1]
      simp [MPIR_ERR_CHECK]
    simp only [sweep_loop, ne_eq, not_true_eq_false, if_false, false_and, hc]
    rw [(MPIDI_PROGRESS_ok env hok state (ctx state i) _).1]
    obtain ⟨i1, i2, i3⟩ := ih (log (Event.cs_exit (ctx state i))
      (MPIDI_PROGRESS env state (ctx state i) MPI_SUCCESS
        (log (Event.cs_enter (ctx state i)) g)).2)
    refine ⟨i1, i2, ?_⟩
    have h := ext_by_trans (ext_by_trans (ext_by_log (Event.cs_enter (ctx state i)) g) p2) i3
    have hv : [Event.cs_enter (ctx state i)] ++ (visit_ok env state.flag (ctx state i)).tail
        = visit_ok env state.flag (ctx state i) := by
      simp [visit_ok]
    rw [hv] at h
    simpa [List.flatMap_cons] using h

theorem head_all_succeed (env : Env W) (hok : all_succeed env) (state : MPID_Progress_state)
    (g : Machine W) :
    (MPIDI_progress_test_head env state g).1 = MPI_SUCCESS ∧
    (MPIDI_progress_test_head env state g).2.1 = false ∧
    ext_by g (MPIDI_progress_test_head env state g).2.2 (head_ok env state g) := by
  obtain ⟨_, _, hh, hc, hw⟩ := hok
  unfold MPIDI_progress_test_head head_ok
  by_cases c1 : env.HAVE_SIGNAL = true ∧ g.sigusr1_count > g.my_sigusr1_count <;>
    by_cases c2 : Int.land state.flag env.MPIDI_PROGRESS_HOOKS ≠ 0 <;>
    by_cases c3 : env.MPIDI_CH4_USE_WORK_QUEUES = true <;>
    simp [c1, c2, c3, call_check_for_failed_procs, call_hooks, call_workq, hh, hc, hw,
      ext_by, log, MPIR_ERR_CHECK, MPI_SUCCESS_eq]

theorem visited_visit_ok (env : Env W) (flag : Int) (v : Nat) :
    visited (visit_ok env flag v) = [v] := by
  unfold visit_ok
  split_ifs <;> simp [visited]

theorem visited_flatMap_visit_ok (env : Env W) (flag : Int) (l : List Nat) :
    visited (l.flatMap (visit_ok env flag)) = l := by
  induction l with
  | nil => rfl
  | cons v rest ih =>
    rw [List.flatMap_cons, visited_append, visited_visit_ok, ih]
    rfl

theorem visited_head_ok (env : Env W) (state : MPID_Progress_state) (g : Machine W) :
    visited (head_ok env state g) = [] := by
  unfold head_ok
  split_ifs <;> simp [visited]

theorem progress_test_ok (env : Env W) (state : MPID_Progress_state) (g : Machine W)
    (hmax : env.MPIDI_CH4_MAX_VCIS ≠ 1) (hok : all_succeed env) :
    (MPIDI_progress_test env state 0 g).1 = MPI_SUCCESS ∧
    (MPIDI_progress_test env state 0 g).2.1 = state ∧
    (MPIDI_progress_test env state 0 g).2.2.trace =
      g.trace ++ (head_ok env state g ++
        (sweep_list env state g).flatMap (visit_ok env state.flag)) ∧
    (MPIDI_progress_test env state 0 g).2.2.global_vci_poll_count =
      (MPIDI_do_global_progress env g).2.global_vci_poll_count := by
  obtain ⟨h1, h2, h3⟩ := head_all_succeed env hok state g
  have hd1 := do_global_fst_congr env g (MPIDI_progress_test_head env state g).2.2 h3.2.1
  have hd2 := do_global_ext env (MPIDI_progress_test_head env state g).2.2
  have hd3 : (MPIDI_do_global_progress env (MPIDI_progress_test_head env state g).2.2).2.global_vci_poll_count
      = (MPIDI_do_global_progress env g).2.global_vci_poll_count := by
    unfold MPIDI_do_global_progress
    split_ifs <;> simp [h3.2.1]
  unfold MPIDI_progress_test
  simp only [h2, Bool.false_eq_true, if_false, hmax, h1]
  by_cases hg : (MPIDI_do_global_progress env (MPIDI_progress_test_head env state g).2.2).1 ≠ 0
  · rw [if_pos hg, global_sweep_eq]
    obtain ⟨s1, s2, s3⟩ := sweep_loop_ok env hok (fun _ v => v)
      (fun g st v => MPIDI_check_progress_made_vci env g st v) (List.range env.n_vcis) state
      (MPIDI_do_global_progress env (MPIDI_progress_test_head env state g).2.2).2
    rw [hd1] at hg
    refine ⟨s1, s2, ?_, ?_⟩
    · rw [s3.1, hd2.1, h3.1]
      simp [sweep_list, hg]
    · rw [s3.2.1, hd3]
  · rw [if_neg hg, targeted_sweep_eq]
    obtain ⟨s1, s2, s3⟩ := sweep_loop_ok env hok (fun st i => st.vci i)
      (fun g st i => MPIDI_check_progress_made_idx env g st i) (List.range state.vci_count)
      state (MPIDI_do_global_progress env (MPIDI_progress_test_head env state g).2.2).2
    rw [hd1] at hg
    refine ⟨s1, s2, ?_, ?_⟩
    · rw [s3.1, hd2.1, h3.1]
      simp [sweep_list, hg, List.flatMap_map]
    · rw [s3.2.1, hd3]

/-! ## Order of the sweep -/

/-- C1: for every snapshot and every poll-counter value, with more than one
context (within the table capacity), detection disabled (`wait = 0`) and every
collaborator call succeeding, `MPIDI_progress_test` returns `MPI_SUCCESS` and
the events it appends to the trace are the collaborator calls of lines 99-116
followed by one visit (lock, the transports selected by the flag, unlock) of
each context of the sweep list, in order: contexts `0, 1, ..., n_vcis-1` when
`MPIDI_do_global_progress` returns true for this call, and
`state->vci[0], ..., state->vci[vci_count-1]` otherwise.  In both cases the
contexts locked by the call, in order, are exactly that list.  (The decision
depends only on the poll counter, which lines 99-116 leave unchanged, so it is
taken here on the machine state at entry.) -/
theorem MPIDI_progress_test_sweep_order (env : Env W) (state : MPID_Progress_state)
    (g : Machine W) (hn : 1 < env.n_vcis) (hcap : env.n_vcis ≤ env.MPIDI_CH4_MAX_VCIS)
    (hok : all_succeed env) :
    (MPIDI_progress_test env state 0 g).1 = MPI_SUCCESS ∧
    ((MPIDI_do_global_progress env g).1 ≠ 0 →
      (MPIDI_progress_test env state 0 g).2.2.trace =
        g.trace ++ (head_ok env state g ++
          (List.range env.n_vcis).flatMap (visit_ok env state.flag)) ∧
      visited (head_ok env state g ++
          (List.range env.n_vcis).flatMap (visit_ok env state.flag))
        = List.range env.n_vcis) ∧
    ((MPIDI_do_global_progress env g).1 = 0 →
      (MPIDI_progress_test env state 0 g).2.2.trace =
        g.trace ++ (head_ok env state g ++
          ((List.range state.vci_count).map state.vci).flatMap (visit_ok env state.flag)) ∧
      visited (head_ok env state g ++
          ((List.range state.vci_count).map state.vci).flatMap (visit_ok env state.flag))
        = (List.range state.vci_count).map state.vci) := by
  have hmax : env.MPIDI_CH4_MAX_VCIS ≠ 1 := by omega
  obtain ⟨h1, _, h3, _⟩ := progress_test_ok env state g hmax hok
  refine ⟨h1, ?_, ?_⟩
  · intro hg
    rw [h3]
    simp only [sweep_list, hg, ne_eq, not_false_eq_true, if_true]
    refine ⟨trivial, ?_⟩
    rw [visited_append, visited_head_ok, visited_flatMap_visit_ok]
    rfl
  · intro hg
    rw [h3]
    simp only [sweep_list, hg, ne_eq, not_true_eq_false, if_false]
    refine ⟨trivial, ?_⟩
    rw [visited_append, visited_head_ok, visited_flatMap_visit_ok]
    rfl

/-- Witness of C1: the four-context example with poll counter 255, where the
call is a global sweep, on a snapshot watching only contexts 2 and 1. -/
theorem MPIDI_progress_test_sweep_order_witness :
    (1 < exEnv.n_vcis ∧ exEnv.n_vcis ≤ exEnv.MPIDI_CH4_MAX_VCIS) ∧
    (MPIDI_progress_test exEnv exWatch21 0 (exMachine 255)).1 = MPI_SUCCESS ∧
    (MPIDI_progress_test exEnv exWatch21 0 (exMachine 255)).2.2.trace =
      [Event.hook_exec_all 0,
       Event.cs_enter 0, Event.nm_progress 0 0, Event.shm_progress 0 0, Event.cs_exit 0,
       Event.cs_enter 1, Event.nm_progress 1 0, Event.shm_progress 1 0, Event.cs_exit 1,
       Event.cs_enter 2, Event.nm_progress 2 0, Event.shm_progress 2 0, Event.cs_exit 2,
       Event.cs_enter 3, Event.nm_progress 3 0, Event.shm_progress 3 0, Event.cs_exit 3] ∧
    (MPIDI_progress_test exEnv exWatch21 0 (exMachine 0)).2.2.trace =
      [Event.hook_exec_all 0,
       Event.cs_enter 2, Event.nm_progress 2 0, Event.shm_progress 2 0, Event.cs_exit 2,
       Event.cs_enter 1, Event.nm_progress 1 0, Event.shm_progress 1 0, Event.cs_exit 1] :=
  ⟨⟨by decide, by decide⟩,
   (MPIDI_progress_test_sweep_order exEnv exWatch21 (exMachine 255) (by decide) (by decide)
      ⟨fun _ _ => rfl, fun _ _ => rfl, fun _ => rfl, fun _ => rfl, fun _ => rfl⟩).1,
   ((MPIDI_progress_test_sweep_order exEnv exWatch21 (exMachine 255) (by decide) (by decide)
      ⟨fun _ _ => rfl, fun _ _ => rfl, fun _ => rfl, fun _ => rfl, fun _ => rfl⟩).2.1
      (by decide)).1,
   ((MPIDI_progress_test_sweep_order exEnv exWatch21 (exMachine 0) (by decide) (by decide)
      ⟨fun _ _ => rfl, fun _ _ => rfl, fun _ => rfl, fun _ => rfl, fun _ => rfl⟩).2.2
      (by decide)).1⟩

/-! ## Early exit on detection -/

theorem progress_test_eq_sweep_upto (env : Env W) (state : MPID_Progress_state) (wait : Int)
    (g : Machine W) (hmax : env.MPIDI_CH4_MAX_VCIS ≠ 1)
    (hhead : (MPIDI_progress_test_head env state g).2.1 = false) (k : Nat)
    (hk : (sweep_list env state g).length ≤ k) :
    MPIDI_progress_test env state wait g =
      sweep_upto env state wait k (MPIDI_progress_test_head env state g).2.2 := by
  obtain ⟨hd, hext, hq, herr, _⟩ := head_shape env state g
  have hd1 := do_global_fst_congr env g (MPIDI_progress_test_head env state g).2.2 hext.2.1
  unfold MPIDI_progress_test sweep_upto
  simp only [hhead, Bool.false_eq_true, if_false, hmax, herr hhead]
  by_cases hg : (MPIDI_do_global_progress env (MPIDI_progress_test_head env state g).2.2).1 ≠ 0
  · rw [if_pos hg, if_pos hg]
    rw [hd1] at hg
    simp only [sweep_list, hg, ne_eq, not_false_eq_true, if_true, List.length_range] at hk
    rw [List.take_of_length_le (by simpa using hk)]
  · rw [if_neg hg, if_neg hg]
    rw [hd1] at hg
    simp only [sweep_list, hg, if_false, List.length_map, List.length_range] at hk
    rw [List.take_of_length_le (by simpa using hk)]

theorem sweep_loop_stops_take (env : Env W) (wait : Int)
    (ctx : MPID_Progress_state → Nat → Nat)
    (check : Machine W → MPID_Progress_state → Nat → MPID_Progress_state)
    (l : List Nat) (j : Nat) (hj : j < l.length) (state : MPID_Progress_state)
    (g : Machine W)
    (hstop : sweep_stops wait (sweep_loop env wait ctx check (l.take (j + 1)) state MPI_SUCCESS g)) :
    sweep_loop env wait ctx check l state MPI_SUCCESS g =
      sweep_loop env wait ctx check (l.take (j + 1)) state MPI_SUCCESS g := by
  have hne : l.take (j + 1) ≠ [] := by
    intro h
    have := congrArg List.length h
    simp only [List.length_take, List.length_nil] at this
    omega
  conv_lhs => rw [← List.take_append_drop (j + 1) l]
  rw [sweep_loop_append env wait ctx check _ _ hne, if_pos hstop]

/-- C5: in a multi-context build with detection enabled (`wait ≠ 0`), once
lines 99-116 have succeeded: if `progress_made` is set when the sweep (global or
targeted) has polled and checked the context at sweep position `j`, the call
does exactly what the sweep cut after position `j` does (same return code,
snapshot, world and trace), and the contexts it locks are those of the first
`k` sweep positions for some `k ≤ j + 1`; no context at a later sweep position
is polled in that call. -/
theorem MPIDI_progress_test_early_exit (env : Env W) (state : MPID_Progress_state)
    (wait : Int) (g : Machine W) (j : Nat) (hw : wait ≠ 0)
    (hmax : env.MPIDI_CH4_MAX_VCIS ≠ 1)
    (hhead : (MPIDI_progress_test_head env state g).2.1 = false)
    (hj : j < (sweep_list env state g).length)
    (hpm : (sweep_upto env state wait (j + 1)
      (MPIDI_progress_test_head env state g).2.2).2.1.progress_made ≠ 0) :
    MPIDI_progress_test env state wait g =
      sweep_upto env state wait (j + 1) (MPIDI_progress_test_head env state g).2.2 ∧
    ∃ new k, k ≤ j + 1 ∧
      (MPIDI_progress_test env state wait g).2.2.trace = g.trace ++ new ∧
      visited new = (sweep_list env state g).take k := by
  have hstop : sweep_stops wait
      (sweep_upto env state wait (j + 1) (MPIDI_progress_test_head env state g).2.2) :=
    Or.inr ⟨hw, hpm⟩
  obtain ⟨hd, hext, hq, herr, _⟩ := head_shape env state g
  have hd1 := do_global_fst_congr env g (MPIDI_progress_test_head env state g).2.2 hext.2.1
  have hd2 := do_global_ext env (MPIDI_progress_test_head env state g).2.2
  rw [progress_test_eq_sweep_upto env state wait g hmax hhead _ (le_refl _)]
  unfold sweep_upto at hstop ⊢
  simp only [] at hstop ⊢
  by_cases hg : (MPIDI_do_global_progress env (MPIDI_progress_test_head env state g).2.2).1 ≠ 0
  · rw [if_pos hg] at hstop ⊢
    rw [if_pos hg]
    have hg2 := hg
    rw [hd1] at hg2
    simp only [sweep_list, hg2, ne_eq, not_false_eq_true, if_true, List.length_range] at hj ⊢
    rw [List.take_of_length_le (by simp)]
    rw [global_sweep_eq] at hstop ⊢
    rw [global_sweep_eq]
    have heq := sweep_loop_stops_take env wait (fun _ v => v)
      (fun g st v => MPIDI_check_progress_made_vci env g st v) (List.range env.n_vcis) j
      (by simpa using hj) state _ hstop
    refine ⟨heq, ?_⟩
    rw [heq]
    obtain ⟨new, e2, _, _, _, k, hk, v2⟩ := sweep_loop_trace env wait (fun _ v => v)
      (fun g st v => MPIDI_check_progress_made_vci env g st v) (fun _ _ _ _ => rfl)
      ((List.range env.n_vcis).take (j + 1)) state
      (MPIDI_do_global_progress env (MPIDI_progress_test_head env state g).2.2).2
    refine ⟨hd ++ new, k, ?_, ?_, ?_⟩
    · simp only [List.length_take, List.length_range] at hk
      omega
    · rw [e2.1, hd2.1, hext.1, List.append_assoc]
    · rw [visited_append, quiet_visited _ hq, v2]
      simp only [List.length_take, List.length_range] at hk
      simp only [List.map_id', List.nil_append, List.take_take]
      congr 1
      omega
  · rw [if_neg hg] at hstop ⊢
    rw [if_neg hg]
    have hg2 := hg
    rw [hd1] at hg2
    simp only [sweep_list, hg2, if_false, List.length_map, List.length_range] at hj ⊢
    rw [List.take_of_length_le (by simp)]
    rw [targeted_sweep_eq] at hstop ⊢
    rw [targeted_sweep_eq]
    have heq := sweep_loop_stops_take env wait (fun st i => st.vci i)
      (fun g st i => MPIDI_check_progress_made_idx env g st i) (List.range state.vci_count) j
      (by simpa using hj) state _ hstop
    refine ⟨heq, ?_⟩
    rw [heq]
    obtain ⟨new, e2, _, _, _, k, hk, v2⟩ := sweep_loop_trace env wait (fun st i => st.vci i)
      (fun g st i => MPIDI_check_progress_made_idx env g st i)
      (fun g st i j => congrFun (check_idx_frame env g st i).2.1 j)
      ((List.range state.vci_count).take (j + 1)) state
      (MPIDI_do_global_progress env (MPIDI_progress_test_head env state g).2.2).2
    refine ⟨hd ++ new, k, ?_, ?_, ?_⟩
    · simp only [List.length_take, List.length_range] at hk
      omega
    · rw [e2.1, hd2.1, hext.1, List.append_assoc]
    · rw [visited_append, quiet_visited _ hq, v2]
      simp only [List.length_take, List.length_range] at hk
      simp only [List.nil_append, List.take_take, ← List.map_take]
      congr 2
      omega

/-! ## Targeted isolation -/

theorem MPIDI_PROGRESS_inv (env : Env W) (Inv : W → Prop)
    (hnm : ∀ v w, Inv w → Inv (env.MPIDI_NM_progress v w).2)
    (hshm : ∀ v w, Inv w → Inv (env.MPIDI_SHM_progress v w).2)
    (state : MPID_Progress_state) (v : Nat) (e : Int) (g : Machine W) (hg : Inv g.world) :
    Inv (MPIDI_PROGRESS env state v e g).2.world := by
  unfold MPIDI_PROGRESS
  simp only []
  split_ifs <;> simp only [call_nm, call_shm, log] <;>
    first
    | exact hg
    | exact hnm _ _ hg
    | exact hshm _ _ hg
    | exact hshm _ _ (hnm _ _ hg)

theorem head_inv (env : Env W) (Inv : W → Prop)
    (hhook : ∀ w, Inv w → Inv (env.MPIR_Progress_hook_exec_all w).2)
    (hcheck : ∀ w, Inv w → Inv (env.MPIDI_check_for_failed_procs w).2)
    (hworkq : ∀ w, Inv w → Inv (env.MPIDI_workq_vci_progress w).2)
    (state : MPID_Progress_state) (g : Machine W) (hg : Inv g.world) :
    Inv (MPIDI_progress_test_head env state g).2.2.world := by
  unfold MPIDI_progress_test_head
  simp only []
  split_ifs <;> simp only [call_check_for_failed_procs, call_hooks, call_workq, log] <;>
    first
    | exact hg
    | exact hhook _ hg
    | exact hcheck _ hg
    | exact hworkq _ hg
    | exact hhook _ (hcheck _ hg)
    | exact hworkq _ (hcheck _ hg)
    | exact hworkq _ (hhook _ hg)
    | exact hworkq _ (hhook _ (hcheck _ hg))

theorem sweep_loop_unchanged (env : Env W) (wait : Int) (Inv : W → Prop)
    (hnm : ∀ v w, Inv w → Inv (env.MPIDI_NM_progress v w).2)
    (hshm : ∀ v w, Inv w → Inv (env.MPIDI_SHM_progress v w).2)
    (ctx : MPID_Progress_state → Nat → Nat)
    (check : Machine W → MPID_Progress_state → Nat → MPID_Progress_state)
    (state : MPID_Progress_state) (l : List Nat)
    (hchk : ∀ g i, i ∈ l → Inv g.world → check g state i = state)
    (e : Int) (g : Machine W) (hg : Inv g.world) :
    (sweep_loop env wait ctx check l state e g).2.1 = state := by
  induction l generalizing e g with
  | nil => rfl
  | cons i rest ih =>
    have hp := MPIDI_PROGRESS_inv env Inv hnm hshm state (ctx state i) e
      (log (Event.cs_enter (ctx state i)) g) hg
    have hc := hchk (MPIDI_PROGRESS env state (ctx state i) e
      (log (Event.cs_enter (ctx state i)) g)).2 i (List.mem_cons_self _ _) hp
    have hst : (if wait ≠ 0 then check (MPIDI_PROGRESS env state (ctx state i) e
        (log (Event.cs_enter (ctx state i)) g)).2 state i else state) = state := by
      split_ifs
      · exact hc
      · rfl
    simp only [sweep_loop]
    rw [hst]
    split_ifs
    · rfl
    · rfl
    · exact ih (fun g i hi => hchk g i (List.mem_cons_of_mem _ hi)) _ _ hp

theorem check_idx_same (env : Env W) (g : Machine W) (state : MPID_Progress_state) (i : Nat)
    (h : env.progress_count g.world (state.vci i) = state.progress_counts i) :
    MPIDI_check_progress_made_idx env g state i = state := by
  unfold MPIDI_check_progress_made_idx
  simp [h]

theorem check_vci_loop_same (env : Env W) (g : Machine W) (state : MPID_Progress_state)
    (v : Nat) (l : List Nat)
    (h : ∀ i, i ∈ l → env.progress_count g.world (state.vci i) = state.progress_counts i) :
    MPIDI_check_progress_made_vci_loop env g v l state = state := by
  induction l with
  | nil => rfl
  | cons i rest ih =>
    simp only [MPIDI_check_progress_made_vci_loop]
    split_ifs with h1 h2
    · exact absurd (h i (List.mem_cons_self _ _)).symm h2
    · rfl
    · exact ih (fun j hj => h j (List.mem_cons_of_mem _ hj))

/-- C6: targeted isolation.  Let `Inv` be any property of the world that holds
when the call starts, that every collaborator call preserves, and under which
the live counter of every watched context `state->vci[i]` (`i < vci_count`)
equals its saved count; the counters of unwatched contexts are unconstrained.
Then, in a multi-context build and for every wait flag and poll-counter value
(so in a targeted sweep and in a global sweep alike), `MPIDI_progress_test`
leaves the snapshot unchanged; in particular `progress_made` is still false
after the call if it was false before. -/
theorem MPIDI_progress_test_targeted_isolation (env : Env W) (state : MPID_Progress_state)
    (wait : Int) (g : Machine W) (Inv : W → Prop)
    (hmax : env.MPIDI_CH4_MAX_VCIS ≠ 1)
    (hinit : Inv g.world)
    (hnm : ∀ v w, Inv w → Inv (env.MPIDI_NM_progress v w).2)
    (hshm : ∀ v w, Inv w → Inv (env.MPIDI_SHM_progress v w).2)
    (hhook : ∀ w, Inv w → Inv (env.MPIR_Progress_hook_exec_all w).2)
    (hcheck : ∀ w, Inv w → Inv (env.MPIDI_check_for_failed_procs w).2)
    (hworkq : ∀ w, Inv w → Inv (env.MPIDI_workq_vci_progress w).2)
    (hsame : ∀ w, Inv w → ∀ i, i < state.vci_count →
      env.progress_count w (state.vci i) = state.progress_counts i) :
    (MPIDI_progress_test env state wait g).2.1 = state ∧
    (state.progress_made = 0 →
      (MPIDI_progress_test env state wait g).2.1.progress_made = 0) := by
  have hmain : (MPIDI_progress_test env state wait g).2.1 = state := by
    have hh := head_inv env Inv hhook hcheck hworkq state g hinit
    have hd2 := do_global_ext env (MPIDI_progress_test_head env state g).2.2
    have hdw : Inv (MPIDI_do_global_progress env
        (MPIDI_progress_test_head env state g).2.2).2.world := by
      rw [hd2.2.1]
      exact hh
    unfold MPIDI_progress_test
    simp only [hmax, if_false]
    split_ifs
    · rfl
    · rw [global_sweep_eq]
      apply sweep_loop_unchanged env wait Inv hnm hshm _ _ state _ _ _ _ hdw
      intro g2 v _ hg2
      apply check_vci_loop_same
      intro i hi
      exact hsame _ hg2 i (by simpa using hi)
    · rw [targeted_sweep_eq]
      apply sweep_loop_unchanged env wait Inv hnm hshm _ _ state _ _ _ _ hdw
      intro g2 i hi hg2
      apply check_idx_same
      exact hsame _ hg2 i (by simpa using hi)
  exact ⟨hmain, fun h => by rw [hmain]; exact h⟩

/-- Witness of C6: six contexts, a snapshot watching contexts 2 and 5, a global
sweep (poll counter 255 on entry) with detection enabled during which the
network poll of the unwatched context 3 bumps its counter. -/
theorem MPIDI_progress_test_targeted_isolation_witness :
    (MPIDI_do_global_progress exEnv6 (exMachine 255)).1 = 1 ∧
    exEnv6.progress_count (MPIDI_progress_test exEnv6 exWatch25 1 (exMachine 255)).2.2.world 3
      = 11 ∧
    (MPIDI_progress_test exEnv6 exWatch25 1 (exMachine 255)).2.1 = exWatch25 ∧
    (exWatch25.progress_made = 0 →
      (MPIDI_progress_test exEnv6 exWatch25 1 (exMachine 255)).2.1.progress_made = 0) :=
  ⟨by decide, by decide,
   MPIDI_progress_test_targeted_isolation exEnv6 exWatch25 1 (exMachine 255)
    (fun w => w.counters 2 = 10 ∧ w.counters 5 = 10) (by decide) ⟨rfl, rfl⟩
    (fun v w h => by
      by_cases hv : v = 3
      · subst hv
        simpa [exEnv6, exEnv] using h
      · simpa [exEnv6, exEnv, hv] using h)
    (fun _ _ h => h) (fun _ h => h) (fun _ h => h) (fun _ h => h)
    (fun w h i hi => by
      have hi2 : i < 2 := hi
      interval_cases i
      · exact h.1
      · exact h.2)⟩

/-- Witness of C5: four contexts all watched, detection enabled; the network
poll of context 2 bumps its counter, so `progress_made` is set at sweep
position 2 and context 3 is not polled. -/
theorem MPIDI_progress_test_early_exit_witness :
    MPIDI_progress_test exEnv exSnapshot 1 (exMachine 0) =
      sweep_upto exEnv exSnapshot 1 (2 + 1)
        (MPIDI_progress_test_head exEnv exSnapshot (exMachine 0)).2.2 ∧
    ∃ new k, k ≤ 2 + 1 ∧
      (MPIDI_progress_test exEnv exSnapshot 1 (exMachine 0)).2.2.trace
        = (exMachine 0).trace ++ new ∧
      visited new = (sweep_list exEnv exSnapshot (exMachine 0)).take k :=
  MPIDI_progress_test_early_exit exEnv exSnapshot 1 (exMachine 0) 2 (by decide) (by decide)
    (by decide) (by decide) (by decide)

/-! ## The wait loop -/

theorem wait_call_shift (env : Env W) (state : MPID_Progress_state) (g : Machine W) (k : Nat) :
    wait_call env state g (k + 1) =
      wait_call env (MPIDI_progress_test env state 1 g).2.1
        (MPIDI_PROGRESS_YIELD env (MPIDI_progress_test env state 1 g).2.2) k := by
  induction k with
  | zero => rfl
  | succ k ih =>
    rw [wait_call, ih]
    rfl

theorem wait_exits_iff (r : Int × MPID_Progress_state × Machine W) :
    ¬ wait_exits r ↔ (¬ MPIR_ERR_CHECK r.1 = true ∧ ¬ r.2.1.progress_made ≠ 0) := by
  unfold wait_exits
  rw [MPIR_ERR_CHECK_iff]
  tauto

theorem wait_loop_none (env : Env W) (n : Nat) (state : MPID_Progress_state) (g : Machine W)
    (h : ∀ j, j < n → ¬ wait_exits (wait_call env state g j)) :
    MPID_Progress_wait_loop env n state g = none := by
  induction n generalizing state g with
  | zero => rfl
  | succ n ih =>
    have h0 := (wait_exits_iff _).1 (h 0 (Nat.succ_pos n))
    simp only [wait_call] at h0
    simp only [MPID_Progress_wait_loop]
    rw [if_neg h0.1, if_neg h0.2]
    apply ih
    intro j hj
    rw [← wait_call_shift]
    exact h (j + 1) (by omega)

theorem wait_loop_some (env : Env W) (n k : Nat) (hk : k < n) (state : MPID_Progress_state)
    (g : Machine W) (hex : wait_exits (wait_call env state g k))
    (h : ∀ j, j < k → ¬ wait_exits (wait_call env state g j)) :
    MPID_Progress_wait_loop env n state g = some (wait_call env state g k) := by
  induction n generalizing state g k with
  | zero => omega
  | succ n ih =>
    cases k with
    | zero =>
      simp only [wait_call] at hex
      simp only [MPID_Progress_wait_loop, wait_call]
      by_cases h1 : MPIR_ERR_CHECK (MPIDI_progress_test env state 1 g).1 = true
      · rw [if_pos h1]
      · rw [if_neg h1]
        have h2 : (MPIDI_progress_test env state 1 g).2.1.progress_made ≠ 0 := by
          rcases hex with hex | hex
          · exact absurd ((MPIR_ERR_CHECK_iff _).2 hex) h1
          · exact hex
        rw [if_pos h2]
    | succ k =>
      have h0 := (wait_exits_iff _).1 (h 0 (Nat.succ_pos k))
      simp only [wait_call] at h0
      simp only [MPID_Progress_wait_loop]
      rw [if_neg h0.1, if_neg h0.2, wait_call_shift]
      apply ih k (by omega)
      · rw [← wait_call_shift]
        exact hex
      · intro j hj
        rw [← wait_call_shift]
        exact h (j + 1) (by omega)

theorem wait_loop_result (env : Env W) (n : Nat) (state : MPID_Progress_state) (g : Machine W)
    (r : Int × MPID_Progress_state × Machine W)
    (hr : MPID_Progress_wait_loop env n state g = some r) :
    ∃ k, k < n ∧ r = wait_call env state g k ∧ wait_exits r ∧
      ∀ j, j < k → ¬ wait_exits (wait_call env state g j) := by
  by_cases hall : ∀ j, j < n → ¬ wait_exits (wait_call env state g j)
  · rw [wait_loop_none env n state g hall] at hr
    exact absurd hr (by simp)
  · have hex : ∃ j, j < n ∧ wait_exits (wait_call env state g j) := by
      by_contra hc
      apply hall
      intro j hj hw
      exact hc ⟨j, hj, hw⟩
    classical
    let k := Nat.find hex
    have hk : k < n ∧ wait_exits (wait_call env state g k) := Nat.find_spec hex
    have hmin : ∀ j, j < k → ¬ wait_exits (wait_call env state g j) := by
      intro j hj hw
      exact Nat.find_min hex hj ⟨by omega, hw⟩
    have := wait_loop_some env n k hk.1 state g hk.2 hmin
    rw [this] at hr
    have hr2 : wait_call env state g k = r := Option.some.inj hr
    exact ⟨k, hk.1, hr2.symm, hr2 ▸ hk.2, hmin⟩

/-- C2 (amended): in the build without work queues, for every snapshot and
every behaviour of the collaborators, `MPID_Progress_wait` resets
`progress_made` and then makes driver calls with detection enabled, yielding
between them.  (1) Whatever it returns is the result of one of these driver
calls, so at least one call is made even if `progress_made` was set on entry.
(2) It returns success after driver call number `k + 1` (it returns with `k + 1`
calls allowed and not with `k`) exactly when that call is the first after which
`progress_made` is set and neither that call nor any earlier call failed.
(3) `progress_made` is set whenever it returns success.  (4) Allowing more
calls never changes a result. -/
theorem MPID_Progress_wait_returns (env : Env W) (state : MPID_Progress_state)
    (g : Machine W) (hwq : env.MPIDI_CH4_USE_WORK_QUEUES = false) :
    (∀ fuel r, MPID_Progress_wait env fuel state g = some r →
      ∃ k, k < fuel ∧ r = wait_call env { state with progress_made := 0 } g k) ∧
    (∀ k,
      ((∃ r, MPID_Progress_wait env (k + 1) state g = some r ∧ r.1 = MPI_SUCCESS) ∧
        MPID_Progress_wait env k state g = none) ↔
      ((wait_call env { state with progress_made := 0 } g k).2.1.progress_made ≠ 0 ∧
        (∀ j, j < k →
          (wait_call env { state with progress_made := 0 } g j).2.1.progress_made = 0) ∧
        (∀ j, j ≤ k →
          (wait_call env { state with progress_made := 0 } g j).1 = MPI_SUCCESS))) ∧
    (∀ fuel r, MPID_Progress_wait env fuel state g = some r → r.1 = MPI_SUCCESS →
      r.2.1.progress_made ≠ 0) ∧
    (∀ fuel fuel2 r, fuel ≤ fuel2 → MPID_Progress_wait env fuel state g = some r →
      MPID_Progress_wait env fuel2 state g = some r) := by
  have hw : ∀ fuel, MPID_Progress_wait env fuel state g =
      MPID_Progress_wait_loop env fuel { state with progress_made := 0 } g := by
    intro fuel
    simp [MPID_Progress_wait, hwq]
  refine ⟨?_, ?_, ?_, ?_⟩
  · intro fuel r hr
    rw [hw] at hr
    obtain ⟨k, hk, hrk, _, _⟩ := wait_loop_result env fuel _ g r hr
    exact ⟨k, hk, hrk⟩
  · intro k
    rw [hw, hw]
    constructor
    · rintro ⟨⟨r, hr, hr0⟩, hnone⟩
      obtain ⟨k2, hk2, hrk, hex, hmin⟩ := wait_loop_result env (k + 1) _ g r hr
      have hkk : k2 = k := by
        by_contra hne
        have hlt : k2 < k := by omega
        rw [wait_loop_some env k k2 hlt _ g (hrk ▸ hex) hmin] at hnone
        exact absurd hnone (by simp)
      subst hkk
      subst hrk
      refine ⟨?_, ?_, ?_⟩
      · rcases hex with hex | hex
        · exact absurd hr0 hex
        · exact hex
      · intro j hj
        by_contra hc
        exact hmin j hj (Or.inr hc)
      · intro j hj
        by_cases hjk : j = k2
        · rw [hjk]; exact hr0
        · by_contra hc
          exact hmin j (by omega) (Or.inl hc)
    · rintro ⟨hpm, hprev, hok⟩
      have hmin : ∀ j, j < k → ¬ wait_exits (wait_call env { state with progress_made := 0 } g j) := by
        intro j hj hex
        rcases hex with hex | hex
        · exact hex (hok j (by omega))
        · exact hex (hprev j hj)
      refine ⟨⟨_, wait_loop_some env (k + 1) k (by omega) _ g (Or.inr hpm) hmin,
        hok k (le_refl k)⟩, wait_loop_none env k _ g hmin⟩
  · intro fuel r hr hr0
    rw [hw] at hr
    obtain ⟨k, _, _, hex, _⟩ := wait_loop_result env fuel _ g r hr
    rcases hex with hex | hex
    · exact absurd hr0 hex
    · exact hex
  · intro fuel fuel2 r hle hr
    rw [hw] at hr ⊢
    obtain ⟨k, hk, hrk, hex, hmin⟩ := wait_loop_result env fuel _ g r hr
    rw [hrk]
    exact wait_loop_some env fuel2 k (by omega) _ g (hrk ▸ hex) hmin

/-- Witness of C2 (amended): in the four-context example the wait returns
success after its first driver call, in which the network poll of context 2
bumps the counter of context 2. -/
theorem MPID_Progress_wait_returns_witness :
    exEnv.MPIDI_CH4_USE_WORK_QUEUES = false ∧
    (∃ r, MPID_Progress_wait exEnv (0 + 1) exSnapshot (exMachine 0) = some r ∧
      r.1 = MPI_SUCCESS) ∧
    MPID_Progress_wait exEnv 0 exSnapshot (exMachine 0) = none :=
  ⟨rfl, ((MPID_Progress_wait_returns exEnv exSnapshot (exMachine 0) rfl).2.1 0).2
    ⟨by decide, by decide, by decide⟩⟩

/-- Counterexample to C2 as stated: in the four-context example whose network
poll of context 0 bumps the counter and then fails with code 77, driver call 1
is the first call after which `progress_made` is set and no earlier call
failed, yet `MPID_Progress_wait` does not return success after call 1: call 1
returns 77 with `progress_made = 1`, and the wait returns that failure. -/
theorem MPID_Progress_wait_returns_counterexample :
    (wait_call exEnvBumpFail { exSnapshot with progress_made := 0 } (exMachine 0) 0).1 = 77 ∧
    (wait_call exEnvBumpFail { exSnapshot with progress_made := 0 }
      (exMachine 0) 0).2.1.progress_made = 1 ∧
    ¬ (((∃ r, MPID_Progress_wait exEnvBumpFail (0 + 1) exSnapshot (exMachine 0) = some r ∧
          r.1 = MPI_SUCCESS) ∧
        MPID_Progress_wait exEnvBumpFail 0 exSnapshot (exMachine 0) = none) ↔
      ((wait_call exEnvBumpFail { exSnapshot with progress_made := 0 }
          (exMachine 0) 0).2.1.progress_made ≠ 0 ∧
        (∀ j, j < 0 →
          (wait_call exEnvBumpFail { exSnapshot with progress_made := 0 }
            (exMachine 0) j).2.1.progress_made = 0) ∧
        (∀ j, j < 0 →
          (wait_call exEnvBumpFail { exSnapshot with progress_made := 0 }
            (exMachine 0) j).1 = MPI_SUCCESS))) := by
  refine ⟨by decide, by decide, ?_⟩
  intro h
  obtain ⟨⟨r, hr, hr0⟩, _⟩ := h.2 ⟨by decide, fun j hj => absurd hj (Nat.not_lt_zero j),
    fun j hj => absurd hj (Nat.not_lt_zero j)⟩
  have hw : MPID_Progress_wait exEnvBumpFail (0 + 1) exSnapshot (exMachine 0) =
      MPID_Progress_wait_loop exEnvBumpFail (0 + 1) { exSnapshot with progress_made := 0 }
        (exMachine 0) := rfl
  rw [hw] at hr
  obtain ⟨k, hk, hrk, _, _⟩ := wait_loop_result exEnvBumpFail (0 + 1) _ _ r hr
  have hk0 : k = 0 := by omega
  subst hk0
  rw [hrk] at hr0
  revert hr0
  decide

/-! ## Waiting on a single context -/

theorem check_idx_world (env : Env W) (g g2 : Machine W) (h : g2.world = g.world)
    (s : MPID_Progress_state) (i : Nat) :
    MPIDI_check_progress_made_idx env g2 s i = MPIDI_check_progress_made_idx env g s i := by
  unfold MPIDI_check_progress_made_idx
  rw [h]

theorem check_idx_made (env : Env W) (g : Machine W) (s : MPID_Progress_state) (i : Nat)
    (hpm : s.progress_made = 0) :
    ((MPIDI_check_progress_made_idx env g s i).progress_made ≠ 0 ↔
      env.progress_count g.world (s.vci i) ≠ s.progress_counts i) ∧
    (env.progress_count g.world (s.vci i) = s.progress_counts i →
      MPIDI_check_progress_made_idx env g s i = s) := by
  unfold MPIDI_check_progress_made_idx
  simp only []
  by_cases h : s.progress_counts i = env.progress_count g.world (s.vci i)
  · simp [h, hpm]
  · have h2 : env.progress_count g.world (s.vci i) ≠ s.progress_counts i := fun hc => h hc.symm
    simp [h, h2]

theorem single_ctx_call (env : Env W) (hn : env.n_vcis = 1) (hok : all_succeed env)
    (s : MPID_Progress_state) (hv : s.vci 0 = 0) (hc : s.vci_count = 1) (g : Machine W) :
    (MPIDI_progress_test env s 1 g).1 = MPI_SUCCESS ∧
    (MPIDI_progress_test env s 1 g).2.1 =
      MPIDI_check_progress_made_idx env (MPIDI_progress_test env s 1 g).2.2 s 0 := by
  obtain ⟨h1, h2, _⟩ := head_all_succeed env hok s g
  have hone : (1 : Int) ≠ 0 := by decide
  unfold MPIDI_progress_test
  simp only [h2, Bool.false_eq_true, if_false, h1, hone, ne_eq, not_false_eq_true, if_true]
  by_cases hmax : env.MPIDI_CH4_MAX_VCIS = 1
  · simp only [hmax, if_true]
    refine ⟨(MPIDI_PROGRESS_ok env hok s 0 _).1, ?_⟩
    exact (check_idx_world env _ _ rfl s 0).symm
  · simp only [hmax, if_false]
    have hd : MPIDI_do_global_progress env (MPIDI_progress_test_head env s g).2.2 =
        (0, (MPIDI_progress_test_head env s g).2.2) := by
      simp [MPIDI_do_global_progress, hn]
    rw [hd]
    simp only [not_true_eq_false, if_false, hc]
    have hr : List.range 1 = [0] := rfl
    rw [hr]
    simp only [targeted_sweep, hv, hone, ne_eq, not_false_eq_true, if_true, true_and]
    have hp := (MPIDI_PROGRESS_ok env hok s 0
      (log (Event.cs_enter 0) (MPIDI_progress_test_head env s g).2.2)).1
    have hchk : ¬ MPIR_ERR_CHECK (MPIDI_PROGRESS env s 0 MPI_SUCCESS
        (log (Event.cs_enter 0) (MPIDI_progress_test_head env s g).2.2)).1 = true := by
      rw [hp]
      simp [MPIR_ERR_CHECK]
    rw [if_neg hchk]
    split_ifs
    · exact ⟨hp, (check_idx_world env _ _ rfl s 0).symm⟩
    · exact ⟨hp, (check_idx_world env _ _ rfl s 0).symm⟩

theorem single_ctx_calls (env : Env W) (hn : env.n_vcis = 1) (hok : all_succeed env)
    (s : MPID_Progress_state) (hv : s.vci 0 = 0) (hc : s.vci_count = 1)
    (hpm : s.progress_made = 0) (g : Machine W) (k : Nat)
    (hprev : ∀ j, j < k →
      env.progress_count (wait_call env s g j).2.2.world 0 = s.progress_counts 0) :
    (wait_call env s g k).1 = MPI_SUCCESS ∧
    ((wait_call env s g k).2.1.progress_made ≠ 0 ↔
      env.progress_count (wait_call env s g k).2.2.world 0 ≠ s.progress_counts 0) ∧
    (env.progress_count (wait_call env s g k).2.2.world 0 = s.progress_counts 0 →
      (wait_call env s g k).2.1 = s) := by
  have hstep : ∀ g2 : Machine W,
      (MPIDI_progress_test env s 1 g2).1 = MPI_SUCCESS ∧
      ((MPIDI_progress_test env s 1 g2).2.1.progress_made ≠ 0 ↔
        env.progress_count (MPIDI_progress_test env s 1 g2).2.2.world 0 ≠ s.progress_counts 0) ∧
      (env.progress_count (MPIDI_progress_test env s 1 g2).2.2.world 0 = s.progress_counts 0 →
        (MPIDI_progress_test env s 1 g2).2.1 = s) := by
    intro g2
    obtain ⟨c1, c2⟩ := single_ctx_call env hn hok s hv hc g2
    have hm := check_idx_made env (MPIDI_progress_test env s 1 g2).2.2 s 0 hpm
    rw [hv] at hm
    rw [c2]
    refine ⟨c1, ?_, ?_⟩
    · rw [← c2]
      rw [← c2] at hm
      exact hm.1
    · rw [← c2]
      rw [← c2] at hm
      exact hm.2
  induction k with
  | zero => exact hstep g
  | succ k ih =>
    have ihk := ih (fun j hj => hprev j (by omega))
    have hs := ihk.2.2 (hprev k (by omega))
    rw [wait_call, hs]
    exact hstep _

theorem start_single (env : Env W) (hn : env.n_vcis = 1) (g0 : Machine W)
    (state0 : MPID_Progress_state) :
    (MPID_Progress_start env g0 state0).vci 0 = 0 ∧
    (MPID_Progress_start env g0 state0).vci_count = 1 ∧
    (MPID_Progress_start env g0 state0).progress_made = 0 ∧
    (MPID_Progress_start env g0 state0).progress_counts 0 = env.progress_count g0.world 0 ∧
    { MPID_Progress_start env g0 state0 with progress_made := 0 } =
      MPID_Progress_start env g0 state0 := by
  have hv := foldl_vci env.n_vcis
    { state0 with flag := env.MPIDI_PROGRESS_ALL, progress_made := 0 }
  obtain ⟨_, v2, _, _, v5, _⟩ := hv
  have hpm : (MPID_Progress_start env g0 state0).progress_made = 0 := by
    unfold MPID_Progress_start MPIDI_progress_state_init_count
    split_ifs
    · simpa [MPIDI_progress_state_init] using v2
    · rw [(foldl_counts _ _ _).2.1]
      simpa [MPIDI_progress_state_init] using v2
  refine ⟨?_, ?_, hpm, ?_, ?_⟩
  · unfold MPID_Progress_start MPIDI_progress_state_init_count
    split_ifs
    · simpa [MPIDI_progress_state_init] using v5 0 (by omega)
    · rw [(foldl_counts _ _ _).2.2.2.1]
      simpa [MPIDI_progress_state_init] using v5 0 (by omega)
  · unfold MPID_Progress_start MPIDI_progress_state_init_count
    split_ifs
    · simp [MPIDI_progress_state_init, hn]
    · rw [(foldl_counts _ _ _).2.2.1]
      simp [MPIDI_progress_state_init, hn]
  · unfold MPID_Progress_start MPIDI_progress_state_init_count
    split_ifs
    · simp
    · exact (foldl_counts _ _ _).2.2.2.2 0 (by omega)
  · revert hpm
    generalize MPID_Progress_start env g0 state0 = s
    intro hpm
    cases s
    simp only [MPID_Progress_state.mk.injEq, and_true, true_and] at hpm ⊢
    exact hpm.symm

theorem single_ctx_no_exit (env : Env W) (hn : env.n_vcis = 1) (hok : all_succeed env)
    (s : MPID_Progress_state) (hv : s.vci 0 = 0) (hc : s.vci_count = 1)
    (hpm : s.progress_made = 0) (g : Machine W) (k : Nat)
    (hmin : ∀ j, j < k → ¬ wait_exits (wait_call env s g j)) :
    ∀ j, j < k →
      env.progress_count (wait_call env s g j).2.2.world 0 = s.progress_counts 0 := by
  induction k with
  | zero => intro j hj; omega
  | succ k ih =>
    have ihk := ih (fun j hj => hmin j (by omega))
    intro j hj
    by_cases hjk : j < k
    · exact ihk j hjk
    · have hjk2 : j = k := by omega
      subst hjk2
      obtain ⟨_, c2, _⟩ := single_ctx_calls env hn hok s hv hc hpm g j ihk
      by_contra hne
      exact hmin j hj (Or.inr (c2.2 hne))

/-- C3 (amended): with exactly one context, in the build without work queues,
a snapshot initialised by `MPID_Progress_start` and collaborators (transports,
progress hooks, failed-process detection) that never fail,
`MPID_Progress_wait` returns after its driver call number `k + 1` (it returns
with `k + 1` calls allowed and not with `k`) if and only if that call is the
first at which the counter of context 0 read after polling differs from the
value saved by `MPID_Progress_start`; and whenever it returns, it returns
success with `progress_made` set. -/
theorem MPID_Progress_wait_single_context (env : Env W) (g0 : Machine W)
    (state0 : MPID_Progress_state) (g : Machine W) (k : Nat)
    (hn : env.n_vcis = 1) (hwq : env.MPIDI_CH4_USE_WORK_QUEUES = false)
    (hok : all_succeed env) :
    (((∃ r, MPID_Progress_wait env (k + 1) (MPID_Progress_start env g0 state0) g = some r) ∧
        MPID_Progress_wait env k (MPID_Progress_start env g0 state0) g = none) ↔
      (env.progress_count (wait_call env (MPID_Progress_start env g0 state0) g k).2.2.world 0
          ≠ env.progress_count g0.world 0 ∧
        ∀ j, j < k →
          env.progress_count (wait_call env (MPID_Progress_start env g0 state0) g j).2.2.world 0
            = env.progress_count g0.world 0)) ∧
    (∀ fuel r, MPID_Progress_wait env fuel (MPID_Progress_start env g0 state0) g = some r →
      r.1 = MPI_SUCCESS ∧ r.2.1.progress_made ≠ 0) := by
  obtain ⟨hv, hc, hpm, hsaved, hs0⟩ := start_single env hn g0 state0
  have hw : ∀ fuel, MPID_Progress_wait env fuel (MPID_Progress_start env g0 state0) g =
      MPID_Progress_wait_loop env fuel (MPID_Progress_start env g0 state0) g := by
    intro fuel
    simp only [MPID_Progress_wait, hwq, Bool.false_eq_true, if_false]
    rw [hs0]
  rw [← hsaved]
  generalize MPID_Progress_start env g0 state0 = s at hv hc hpm hw ⊢
  refine ⟨?_, ?_⟩
  · rw [hw, hw]
    constructor
    · rintro ⟨⟨r, hr⟩, hnone⟩
      obtain ⟨k2, hk2, hrk, hex, hmin⟩ := wait_loop_result env (k + 1) s g r hr
      have hkk : k2 = k := by
        by_contra hne
        have hlt : k2 < k := by omega
        rw [wait_loop_some env k k2 hlt s g (hrk ▸ hex) hmin] at hnone
        exact absurd hnone (by simp)
      subst hkk
      subst hrk
      have hprev := single_ctx_no_exit env hn hok s hv hc hpm g k2 hmin
      obtain ⟨c1, c2, _⟩ := single_ctx_calls env hn hok s hv hc hpm g k2 hprev
      refine ⟨?_, hprev⟩
      rcases hex with hex | hex
      · exact absurd c1 hex
      · exact c2.1 hex
    · rintro ⟨hne, hprev⟩
      obtain ⟨_, c2, _⟩ := single_ctx_calls env hn hok s hv hc hpm g k hprev
      have hmin : ∀ j, j < k → ¬ wait_exits (wait_call env s g j) := by
        intro j hj hex
        obtain ⟨d1, d2, _⟩ := single_ctx_calls env hn hok s hv hc hpm g j
          (fun i hi => hprev i (by omega))
        rcases hex with hex | hex
        · exact hex d1
        · exact d2.1 hex (hprev j hj)
      exact ⟨⟨_, wait_loop_some env (k + 1) k (by omega) s g (Or.inr (c2.2 hne)) hmin⟩,
        wait_loop_none env k s g hmin⟩
  · intro fuel r hr
    rw [hw] at hr
    obtain ⟨k2, _, hrk, hex, hmin⟩ := wait_loop_result env fuel s g r hr
    subst hrk
    have hprev := single_ctx_no_exit env hn hok s hv hc hpm g k2 hmin
    obtain ⟨c1, _, _⟩ := single_ctx_calls env hn hok s hv hc hpm g k2 hprev
    refine ⟨c1, ?_⟩
    rcases hex with hex | hex
    · exact absurd c1 hex
    · exact hex

/-- Witness of C3 (amended): one context in a multi-context build; the counter
of context 0 is bumped during the second driver call, and the wait returns
after exactly two driver calls. -/
theorem MPID_Progress_wait_single_context_witness :
    (exEnvOne.n_vcis = 1 ∧ exEnvOne.MPIDI_CH4_USE_WORK_QUEUES = false) ∧
    (∃ r, MPID_Progress_wait exEnvOne (1 + 1)
      (MPID_Progress_start exEnvOne (exMachine 0) exGarbage) (exMachine 0) = some r) ∧
    MPID_Progress_wait exEnvOne 1
      (MPID_Progress_start exEnvOne (exMachine 0) exGarbage) (exMachine 0) = none :=
  ⟨⟨rfl, rfl⟩,
   ((MPID_Progress_wait_single_context exEnvOne (exMachine 0) exGarbage (exMachine 0) 1 rfl rfl
      ⟨fun _ _ => rfl, fun _ _ => rfl, fun _ => rfl, fun _ => rfl, fun _ => rfl⟩).1).2
    ⟨by decide, by decide⟩⟩

/-- Counterexample to C3 as stated: one context, transports that never fail and
never change the counter, progress hooks that fail with code 5.
`MPID_Progress_wait` returns after its first driver call (with the failure)
although the counter read at that call equals the value saved by
`MPID_Progress_start`. -/
theorem MPID_Progress_wait_single_context_counterexample :
    exEnvHookFail.n_vcis = 1 ∧
    (∀ v w, (exEnvHookFail.MPIDI_NM_progress v w).1 = MPI_SUCCESS) ∧
    (∀ v w, (exEnvHookFail.MPIDI_SHM_progress v w).1 = MPI_SUCCESS) ∧
    ¬ (((∃ r, MPID_Progress_wait exEnvHookFail (0 + 1)
            (MPID_Progress_start exEnvHookFail (exMachine 0) exGarbage) (exMachine 0)
              = some r) ∧
          MPID_Progress_wait exEnvHookFail 0
            (MPID_Progress_start exEnvHookFail (exMachine 0) exGarbage) (exMachine 0) = none) ↔
        (exEnvHookFail.progress_count
            (wait_call exEnvHookFail (MPID_Progress_start exEnvHookFail (exMachine 0) exGarbage)
              (exMachine 0) 0).2.2.world 0
            ≠ exEnvHookFail.progress_count (exMachine 0).world 0 ∧
          ∀ j, j < 0 →
            exEnvHookFail.progress_count
              (wait_call exEnvHookFail
                (MPID_Progress_start exEnvHookFail (exMachine 0) exGarbage)
                (exMachine 0) j).2.2.world 0
              = exEnvHookFail.progress_count (exMachine 0).world 0)) := by
  refine ⟨rfl, fun _ _ => rfl, fun _ _ => rfl, ?_⟩
  intro h
  have hsome : (MPID_Progress_wait exEnvHookFail (0 + 1)
      (MPID_Progress_start exEnvHookFail (exMachine 0) exGarbage) (exMachine 0)).isSome
        = true := by decide
  have hl := h.1 ⟨Option.isSome_iff_exists.1 hsome, rfl⟩
  exact hl.1 (by decide)

/-! ## Periodicity of the global sweep -/

theorem MPID_Progress_test_eq (env : Env W) (s : Option MPID_Progress_state) (g : Machine W) :
    (MPID_Progress_test env s g).1 = (MPIDI_progress_test env (test_snapshot env s) 0 g).1 ∧
    (MPID_Progress_test env s g).2.2 =
      (MPIDI_progress_test env (test_snapshot env s) 0 g).2.2 := by
  cases s <;> exact ⟨rfl, rfl⟩

theorem do_global_counter (env : Env W) (g : Machine W) (hn : env.n_vcis ≠ 1) :
    (MPIDI_do_global_progress env g).2.global_vci_poll_count =
      int_incr g.global_vci_poll_count ∧
    ((MPIDI_do_global_progress env g).1 ≠ 0 ↔ int_incr g.global_vci_poll_count % 2 ^ 8 = 0) := by
  simp only [MPIDI_do_global_progress, hn, if_false, land_mask_eq_emod]
  refine ⟨trivial, ?_⟩
  by_cases h0 : int_incr g.global_vci_poll_count % 256 = 0
  · simp only [h0, if_true]
    constructor
    · intro _; omega
    · intro _; decide
  · simp only [h0, if_false]
    constructor
    · intro h; exact absurd rfl h
    · intro h; omega

theorem test_seq_counter (env : Env W) (hmax : env.MPIDI_CH4_MAX_VCIS ≠ 1)
    (hn : env.n_vcis ≠ 1) (hok : all_succeed env) (l : List (Option MPID_Progress_state))
    (g : Machine W) :
    (MPID_Progress_test_seq env l g).global_vci_poll_count =
      int_incr^[l.length] g.global_vci_poll_count := by
  induction l generalizing g with
  | nil => rfl
  | cons s rest ih =>
    simp only [MPID_Progress_test_seq, List.length_cons, Function.iterate_succ_apply]
    rw [ih, (MPID_Progress_test_eq env s g).2,
      (progress_test_ok env (test_snapshot env s) g hmax hok).2.2.2,
      (do_global_counter env g hn).1]

theorem iterate_int_incr_emod (k : Nat) (c : Int) :
    int_incr^[k] c % 256 = (c + k) % 256 := by
  induction k with
  | zero => simp
  | succ k ih =>
    rw [Function.iterate_succ_apply', int_incr_emod]
    push_cast
    omega

/-- C10: for every starting poll-counter value and every number of earlier
calls, with more than one context and no failing collaborator: call number
`m + 1` of a run of consecutive `MPID_Progress_test` calls (the arguments of the
`m` earlier calls being `earlier`) returns success, leaves the poll counter at
the `(m + 1)`-fold `int` increment of the starting value, takes the global
branch exactly when the low 8 bits of that counter are zero, and then sweeps
all contexts `0..n_vcis-1`, while on every other call it sweeps exactly the
watch list of its snapshot.  The low 8 bits after `k` calls are those of the
starting value plus `k`, and among any 256 consecutive calls exactly one takes
the global branch. -/
theorem MPID_Progress_test_periodicity (env : Env W) (g : Machine W)
    (hn : 1 < env.n_vcis) (hcap : env.n_vcis ≤ env.MPIDI_CH4_MAX_VCIS)
    (hok : all_succeed env) :
    (∀ (earlier : List (Option MPID_Progress_state)) (s : Option MPID_Progress_state),
      (MPID_Progress_test env s (MPID_Progress_test_seq env earlier g)).1 = MPI_SUCCESS ∧
      (MPID_Progress_test env s
          (MPID_Progress_test_seq env earlier g)).2.2.global_vci_poll_count
        = int_incr^[earlier.length + 1] g.global_vci_poll_count ∧
      ((MPIDI_do_global_progress env (MPID_Progress_test_seq env earlier g)).1 ≠ 0 ↔
        int_incr^[earlier.length + 1] g.global_vci_poll_count % 2 ^ 8 = 0) ∧
      (MPID_Progress_test env s (MPID_Progress_test_seq env earlier g)).2.2.trace =
        (MPID_Progress_test_seq env earlier g).trace ++
          (head_ok env (test_snapshot env s) (MPID_Progress_test_seq env earlier g) ++
            (if int_incr^[earlier.length + 1] g.global_vci_poll_count % 2 ^ 8 = 0
              then List.range env.n_vcis
              else (List.range (test_snapshot env s).vci_count).map
                (test_snapshot env s).vci).flatMap
              (visit_ok env (test_snapshot env s).flag))) ∧
    (∀ k : Nat, int_incr^[k] g.global_vci_poll_count % 2 ^ 8
      = (g.global_vci_poll_count + k) % 2 ^ 8) ∧
    (∀ (earlier window : List (Option MPID_Progress_state)), window.length = 256 →
      ((Finset.range 256).filter (fun i =>
        (MPIDI_do_global_progress env
          (MPID_Progress_test_seq env (earlier ++ window.take i) g)).1 ≠ 0)).card = 1) := by
  have hmax : env.MPIDI_CH4_MAX_VCIS ≠ 1 := by omega
  have hn1 : env.n_vcis ≠ 1 := by omega
  have hglob : ∀ l : List (Option MPID_Progress_state),
      ((MPIDI_do_global_progress env (MPID_Progress_test_seq env l g)).1 ≠ 0 ↔
        int_incr^[l.length + 1] g.global_vci_poll_count % 2 ^ 8 = 0) := by
    intro l
    rw [(do_global_counter env _ hn1).2, test_seq_counter env hmax hn1 hok,
      Function.iterate_succ_apply']
  refine ⟨?_, ?_, ?_⟩
  · intro earlier s
    obtain ⟨e1, e2⟩ := MPID_Progress_test_eq env s (MPID_Progress_test_seq env earlier g)
    obtain ⟨p1, _, p3, p4⟩ := progress_test_ok env (test_snapshot env s)
      (MPID_Progress_test_seq env earlier g) hmax hok
    refine ⟨by rw [e1]; exact p1, ?_, hglob earlier, ?_⟩
    · rw [e2, p4, (do_global_counter env _ hn1).1, test_seq_counter env hmax hn1 hok,
        Function.iterate_succ_apply']
    · rw [e2, p3]
      congr 2
      unfold sweep_list
      by_cases hg : (MPIDI_do_global_progress env (MPID_Progress_test_seq env earlier g)).1 ≠ 0
      · rw [if_pos hg, if_pos ((hglob earlier).1 hg)]
      · rw [if_neg hg, if_neg (fun h => hg ((hglob earlier).2 h))]
  · intro k
    have := iterate_int_incr_emod k g.global_vci_poll_count
    norm_num
    exact this
  · intro earlier window hlen
    rw [Finset.card_eq_one]
    refine ⟨((256 - (g.global_vci_poll_count + earlier.length + 1) % 256) % 256).toNat, ?_⟩
    ext i
    simp only [Finset.mem_filter, Finset.mem_range, Finset.mem_singleton]
    constructor
    · rintro ⟨hi, hg⟩
      have h1 := (hglob (earlier ++ window.take i)).1 hg
      have h2 := iterate_int_incr_emod ((earlier ++ window.take i).length + 1)
        g.global_vci_poll_count
      simp only [List.length_append, List.length_take, hlen] at h1 h2
      have hmin : min i 256 = i := by omega
      rw [hmin] at h1 h2
      push_cast at h2
      omega
    · intro hi
      have hlt : i < 256 := by omega
      refine ⟨hlt, (hglob (earlier ++ window.take i)).2 ?_⟩
      have h2 := iterate_int_incr_emod ((earlier ++ window.take i).length + 1)
        g.global_vci_poll_count
      simp only [List.length_append, List.length_take, hlen] at h2 ⊢
      have hmin : min i 256 = i := by omega
      rw [hmin] at h2 ⊢
      push_cast at h2
      omega

/-- Witness of C10: in the four-context example started with poll counter 254,
the first `MPID_Progress_test(NULL)` is not a global call and the second one
is. -/
theorem MPID_Progress_test_periodicity_witness :
    (1 < exEnv.n_vcis ∧ exEnv.n_vcis ≤ exEnv.MPIDI_CH4_MAX_VCIS) ∧
    ¬ (MPIDI_do_global_progress exEnv (MPID_Progress_test_seq exEnv [] (exMachine 254))).1
        ≠ 0 ∧
    (MPIDI_do_global_progress exEnv (MPID_Progress_test_seq exEnv [none] (exMachine 254))).1
      ≠ 0 :=
  ⟨⟨by decide, by decide⟩,
   fun h => absurd (((MPID_Progress_test_periodicity exEnv (exMachine 254) (by decide)
      (by decide) ⟨fun _ _ => rfl, fun _ _ => rfl, fun _ => rfl, fun _ => rfl,
        fun _ => rfl⟩).1 [] none).2.2.1.1 h) (by decide),
   ((MPID_Progress_test_periodicity exEnv (exMachine 254) (by decide) (by decide)
      ⟨fun _ _ => rfl, fun _ _ => rfl, fun _ => rfl, fun _ => rfl, fun _ => rfl⟩).1
      [none] none).2.2.1.2 (by decide)⟩

/-! ## The detection step -/

theorem check_vci_loop_find (env : Env W) (g : Machine W) (v : Nat) (l : List Nat)
    (state : MPID_Progress_state) :
    MPIDI_check_progress_made_vci_loop env g v l state =
      match l.find? (fun i => decide (v = state.vci i)) with
      | none => state
      | some i => MPIDI_check_progress_made_idx env g state i := by
  induction l with
  | nil => rfl
  | cons i rest ih =>
    simp only [MPIDI_check_progress_made_vci_loop, List.find?_cons]
    by_cases h : v = state.vci i
    · simp only [h, if_true, decide_True]
      rfl
    · simp only [h, if_false, decide_False]
      exact ih

/-- C19: `MPIDI_check_progress_made_idx(state, idx)` compares
`progress_counts[idx]` with the live counter of context `state->vci[idx]`.
When they differ it sets `progress_made` to 1 and overwrites
`progress_counts[idx]` with the live counter, touching nothing else; when they
are equal it changes nothing; it never clears `progress_made`.  Hence after it
runs `progress_counts[idx]` equals the live counter, and running it again (on
any machine state with the same live counter) after `progress_made` has been
reset changes nothing, so `progress_made` stays 0.  The same holds for two
successive runs of `MPIDI_check_progress_made_vci(state, vci)`. -/
theorem MPIDI_check_progress_made_idx_consumes (env : Env W) (g : Machine W)
    (state : MPID_Progress_state) (idx : Nat) :
    (state.progress_counts idx ≠ env.progress_count g.world (state.vci idx) →
      (MPIDI_check_progress_made_idx env g state idx).progress_made = 1 ∧
      (MPIDI_check_progress_made_idx env g state idx).progress_counts idx =
        env.progress_count g.world (state.vci idx) ∧
      (∀ j, j ≠ idx →
        (MPIDI_check_progress_made_idx env g state idx).progress_counts j =
          state.progress_counts j) ∧
      (MPIDI_check_progress_made_idx env g state idx).flag = state.flag ∧
      (MPIDI_check_progress_made_idx env g state idx).vci = state.vci ∧
      (MPIDI_check_progress_made_idx env g state idx).vci_count = state.vci_count) ∧
    (state.progress_counts idx = env.progress_count g.world (state.vci idx) →
      MPIDI_check_progress_made_idx env g state idx = state) ∧
    (state.progress_made ≠ 0 →
      (MPIDI_check_progress_made_idx env g state idx).progress_made ≠ 0) ∧
    (MPIDI_check_progress_made_idx env g state idx).progress_counts idx =
      env.progress_count g.world (state.vci idx) ∧
    (∀ g2 : Machine W,
      env.progress_count g2.world (state.vci idx) =
        env.progress_count g.world (state.vci idx) →
      MPIDI_check_progress_made_idx env g2
          { MPIDI_check_progress_made_idx env g state idx with progress_made := 0 } idx =
        { MPIDI_check_progress_made_idx env g state idx with progress_made := 0 }) ∧
    (∀ (g2 : Machine W) (vci : Nat),
      (∀ i, env.progress_count g2.world (state.vci i) =
        env.progress_count g.world (state.vci i)) →
      MPIDI_check_progress_made_vci env g2
          { MPIDI_check_progress_made_vci env g state vci with progress_made := 0 } vci =
        { MPIDI_check_progress_made_vci env g state vci with progress_made := 0 }) := by
  have hlive : ∀ (s : MPID_Progress_state) (i : Nat) (ga : Machine W),
      (MPIDI_check_progress_made_idx env ga s i).progress_counts i =
        env.progress_count ga.world (s.vci i) := by
    intro s i ga
    unfold MPIDI_check_progress_made_idx
    simp only []
    split_ifs with h
    · simp
    · simpa using h
  have hagain : ∀ (s : MPID_Progress_state) (i : Nat) (ga gb : Machine W),
      env.progress_count gb.world (s.vci i) = env.progress_count ga.world (s.vci i) →
      MPIDI_check_progress_made_idx env gb
          { MPIDI_check_progress_made_idx env ga s i with progress_made := 0 } i =
        { MPIDI_check_progress_made_idx env ga s i with progress_made := 0 } := by
    intro s i ga gb hsame
    apply check_idx_same
    show env.progress_count gb.world ((MPIDI_check_progress_made_idx env ga s i).vci i) =
      (MPIDI_check_progress_made_idx env ga s i).progress_counts i
    rw [(check_idx_frame env ga s i).2.1, hlive, hsame]
  refine ⟨?_, ?_, ?_, hlive state idx g, hagain state idx g, ?_⟩
  · intro h
    unfold MPIDI_check_progress_made_idx
    simp only [h, ne_eq, not_false_eq_true, if_true]
    refine ⟨trivial, by simp, ?_, trivial, trivial, trivial⟩
    intro j hj
    simp [Function.update_noteq hj]
  · intro h
    exact check_idx_same env g state idx h.symm
  · intro h
    unfold MPIDI_check_progress_made_idx
    simp only []
    split_ifs
    · simp
    · exact h
  · intro g2 vci hsame
    unfold MPIDI_check_progress_made_vci
    rw [check_vci_loop_find env g vci _ state]
    cases hf : (List.range state.vci_count).find? (fun i => decide (vci = state.vci i)) with
    | none =>
      simp only []
      rw [check_vci_loop_find]
      simp only [hf]
    | some i =>
      simp only []
      rw [check_vci_loop_find]
      have h := hagain state i g g2 (hsame i)
      simp only [(check_idx_frame env g state i).2.1, (check_idx_frame env g state i).2.2, hf]
      simpa only [(check_idx_frame env g state i).2.1, (check_idx_frame env g state i).2.2]
        using h

/-- Witness of C19: on a snapshot whose saved count of position 1 is -4 while
the live counter of its context is 10, the check sets `progress_made` and
stores the live counter. -/
theorem MPIDI_check_progress_made_idx_consumes_witness :
    exGarbage.progress_counts 1 ≠ exEnv.progress_count (exMachine 0).world (exGarbage.vci 1) ∧
    (MPIDI_check_progress_made_idx exEnv (exMachine 0) exGarbage 1).progress_made = 1 ∧
    (MPIDI_check_progress_made_idx exEnv (exMachine 0) exGarbage 1).progress_counts 1 = 10 :=
  ⟨by decide,
   ((MPIDI_check_progress_made_idx_consumes exEnv (exMachine 0) exGarbage 1).1
      (by decide)).1,
   ((MPIDI_check_progress_made_idx_consumes exEnv (exMachine 0) exGarbage 1).1
      (by decide)).2.1⟩

/-! ## Frame of the driver -/

theorem sweep_loop_frame (env : Env W) (wait : Int) (ctx : MPID_Progress_state → Nat → Nat)
    (check : Machine W → MPID_Progress_state → Nat → MPID_Progress_state)
    (hchk : ∀ g st i, (check g st i).flag = st.flag ∧ (check g st i).vci = st.vci ∧
      (check g st i).vci_count = st.vci_count)
    (l : List Nat) (state : MPID_Progress_state) (e : Int) (g : Machine W) :
    (sweep_loop env wait ctx check l state e g).2.1.flag = state.flag ∧
    (sweep_loop env wait ctx check l state e g).2.1.vci = state.vci ∧
    (sweep_loop env wait ctx check l state e g).2.1.vci_count = state.vci_count := by
  induction l generalizing state e g with
  | nil => exact ⟨rfl, rfl, rfl⟩
  | cons i rest ih =>
    simp only [sweep_loop]
    generalize (MPIDI_PROGRESS env state (ctx state i) e (log (Event.cs_enter (ctx state i)) g))
      = r
    have hst : (if wait ≠ 0 then check r.2 state i else state).flag = state.flag ∧
        (if wait ≠ 0 then check r.2 state i else state).vci = state.vci ∧
        (if wait ≠ 0 then check r.2 state i else state).vci_count = state.vci_count := by
      split_ifs
      · exact hchk _ _ _
      · exact ⟨rfl, rfl, rfl⟩
    generalize (if wait ≠ 0 then check r.2 state i else state) = st1 at hst
    split_ifs
    · exact hst
    · exact hst
    · obtain ⟨i1, i2, i3⟩ := ih st1 r.1 (log (Event.cs_exit (ctx state i)) r.2)
      exact ⟨i1.trans hst.1, i2.trans hst.2.1, i3.trans hst.2.2⟩

theorem sweep_loop_nowait (env : Env W) (ctx : MPID_Progress_state → Nat → Nat)
    (check : Machine W → MPID_Progress_state → Nat → MPID_Progress_state)
    (l : List Nat) (state : MPID_Progress_state) (e : Int) (g : Machine W) :
    (sweep_loop env 0 ctx check l state e g).2.1 = state := by
  induction l generalizing e g with
  | nil => rfl
  | cons i rest ih =>
    simp only [sweep_loop, ne_eq, not_true_eq_false, if_false, false_and]
    split_ifs
    · rfl
    · exact ih _ _

theorem progress_test_frame (env : Env W) (state : MPID_Progress_state) (wait : Int)
    (g : Machine W) :
    (MPIDI_progress_test env state wait g).2.1.flag = state.flag ∧
    (MPIDI_progress_test env state wait g).2.1.vci = state.vci ∧
    (MPIDI_progress_test env state wait g).2.1.vci_count = state.vci_count := by
  unfold MPIDI_progress_test
  simp only []
  by_cases h1 : (MPIDI_progress_test_head env state g).2.1 = true
  · rw [if_pos h1]
    exact ⟨rfl, rfl, rfl⟩
  · rw [if_neg h1]
    by_cases h2 : env.MPIDI_CH4_MAX_VCIS = 1
    · rw [if_pos h2]
      by_cases h3 : wait ≠ 0
      · simp only [h3, ne_eq, not_false_eq_true, if_true]
        exact check_idx_frame env _ state 0
      · simp only [h3, if_false]
        exact ⟨trivial, trivial, trivial⟩
    · rw [if_neg h2]
      by_cases h3 : (MPIDI_do_global_progress env
          (MPIDI_progress_test_head env state g).2.2).1 ≠ 0
      · rw [if_pos h3, global_sweep_eq]
        exact sweep_loop_frame env wait _ _ (fun g st v => check_vci_frame env g st v) _ _ _ _
      · rw [if_neg h3, targeted_sweep_eq]
        exact sweep_loop_frame env wait _ _ (fun g st i => check_idx_frame env g st i) _ _ _ _

theorem progress_test_nowait (env : Env W) (state : MPID_Progress_state) (g : Machine W) :
    (MPIDI_progress_test env state 0 g).2.1 = state := by
  unfold MPIDI_progress_test
  simp only [ne_eq, not_true_eq_false, if_false]
  by_cases h1 : (MPIDI_progress_test_head env state g).2.1 = true
  · rw [if_pos h1]
  · rw [if_neg h1]
    by_cases h2 : env.MPIDI_CH4_MAX_VCIS = 1
    · rw [if_pos h2]
    · rw [if_neg h2]
      by_cases h3 : (MPIDI_do_global_progress env
          (MPIDI_progress_test_head env state g).2.2).1 = 0
      · rw [if_neg (not_not.2 h3), targeted_sweep_eq]
        exact sweep_loop_nowait env _ _ _ _ _ _
      · rw [if_pos h3, global_sweep_eq]
        exact sweep_loop_nowait env _ _ _ _ _ _

/-- C17: for every snapshot, wait flag, machine state and behaviour of the
collaborators, `MPIDI_progress_test` leaves the snapshot's `flag`, `vci` list and
`vci_count` unchanged; with detection disabled (`wait = 0`) it returns the whole
snapshot unchanged, `progress_made` and every saved count included, and so does
`MPID_Progress_test(state)`. -/
theorem MPIDI_progress_test_frame (env : Env W) (state : MPID_Progress_state) (wait : Int)
    (g : Machine W) :
    (MPIDI_progress_test env state wait g).2.1.flag = state.flag ∧
    (MPIDI_progress_test env state wait g).2.1.vci = state.vci ∧
    (MPIDI_progress_test env state wait g).2.1.vci_count = state.vci_count ∧
    (MPIDI_progress_test env state 0 g).2.1 = state ∧
    (MPID_Progress_test env (some state) g).2.1 = some state := by
  obtain ⟨h1, h2, h3⟩ := progress_test_frame env state wait g
  refine ⟨h1, h2, h3, progress_test_nowait env state g, ?_⟩
  show some (MPIDI_progress_test env state 0 g).2.1 = some state
  rw [progress_test_nowait]

/-! ## Global and targeted sweeps on the default snapshot -/

theorem check_vci_loop_id (env : Env W) (g : Machine W) (state : MPID_Progress_state)
    (v : Nat) (l : List Nat) (h : ∀ i, i ∈ l → state.vci i = i) (hv : v ∈ l) :
    MPIDI_check_progress_made_vci_loop env g v l state =
      MPIDI_check_progress_made_idx env g state v := by
  induction l with
  | nil => exact absurd hv (List.not_mem_nil v)
  | cons i rest ih =>
    simp only [MPIDI_check_progress_made_vci_loop]
    have hi := h i (List.mem_cons_self _ _)
    by_cases hvi : v = i
    · subst hvi
      simp only [hi, if_true]
      unfold MPIDI_check_progress_made_idx
      simp only [hi]
    · have hne : ¬ v = state.vci i := by rw [hi]; exact hvi
      rw [if_neg hne]
      apply ih (fun j hj => h j (List.mem_cons_of_mem _ hj))
      rcases List.mem_cons.1 hv with h1 | h1
      · exact absurd h1 hvi
      · exact h1

theorem sweep_loop_congr (env : Env W) (wait : Int)
    (ctx1 ctx2 : MPID_Progress_state → Nat → Nat)
    (check1 check2 : Machine W → MPID_Progress_state → Nat → MPID_Progress_state)
    (P : MPID_Progress_state → Prop)
    (hP : ∀ g st i, P st → P (check1 g st i))
    (l : List Nat)
    (hctx : ∀ st i, P st → i ∈ l → ctx1 st i = ctx2 st i)
    (hchk : ∀ g st i, P st → i ∈ l → check1 g st i = check2 g st i)
    (state : MPID_Progress_state) (hst : P state) (e : Int) (g : Machine W) :
    sweep_loop env wait ctx1 check1 l state e g =
      sweep_loop env wait ctx2 check2 l state e g := by
  induction l generalizing state e g with
  | nil => rfl
  | cons i rest ih =>
    simp only [sweep_loop]
    rw [← hctx state i hst (List.mem_cons_self _ _)]
    rw [← hchk _ state i hst (List.mem_cons_self _ _)]
    generalize (MPIDI_PROGRESS env state (ctx1 state i) e
      (log (Event.cs_enter (ctx1 state i)) g)) = r
    have hP1 : P (if wait ≠ 0 then check1 r.2 state i else state) := by
      split_ifs
      · exact hP _ _ _ hst
      · exact hst
    generalize (if wait ≠ 0 then check1 r.2 state i else state) = st1 at hP1
    split_ifs
    · rfl
    · rfl
    · exact ih (fun st j h hj => hctx st j h (List.mem_cons_of_mem _ hj))
        (fun g st j h hj => hchk g st j h (List.mem_cons_of_mem _ hj)) st1 hP1 _ _

theorem global_eq_targeted (env : Env W) (wait : Int) (state : MPID_Progress_state)
    (hc : state.vci_count = env.n_vcis) (hv : ∀ i, i < env.n_vcis → state.vci i = i)
    (e : Int) (g : Machine W) :
    global_sweep env wait (List.range env.n_vcis) state e g =
      targeted_sweep env wait (List.range state.vci_count) state e g := by
  rw [global_sweep_eq, targeted_sweep_eq, hc]
  apply sweep_loop_congr env wait _ _ _ _
    (fun st => st.vci_count = env.n_vcis ∧ ∀ i, i < env.n_vcis → st.vci i = i)
  · intro g2 st i hst
    obtain ⟨_, f2, f3⟩ := check_vci_frame env g2 st i
    exact ⟨f3.trans hst.1, fun j hj => by rw [f2]; exact hst.2 j hj⟩
  · intro st i hst hi
    exact (hst.2 i (List.mem_range.1 hi)).symm
  · intro g2 st i hst hi
    unfold MPIDI_check_progress_made_vci
    apply check_vci_loop_id
    · intro j hj
      rw [hst.1] at hj
      exact hst.2 j (List.mem_range.1 hj)
    · rw [hst.1]
      exact hi
  · exact ⟨hc, hv⟩

theorem call_nm_set_count (env : Env W) (v : Nat) (c : Int) (g : Machine W) :
    call_nm env v (set_count c g) =
      ((call_nm env v g).1, set_count c (call_nm env v g).2) := rfl

theorem call_shm_set_count (env : Env W) (v : Nat) (c : Int) (g : Machine W) :
    call_shm env v (set_count c g) =
      ((call_shm env v g).1, set_count c (call_shm env v g).2) := rfl

theorem MPIDI_PROGRESS_set_count (env : Env W) (state : MPID_Progress_state) (v : Nat)
    (e c : Int) (g : Machine W) :
    MPIDI_PROGRESS env state v e (set_count c g) =
      ((MPIDI_PROGRESS env state v e g).1, set_count c (MPIDI_PROGRESS env state v e g).2) := by
  unfold MPIDI_PROGRESS
  by_cases c1 : Int.land state.flag env.MPIDI_PROGRESS_NM ≠ 0
  · simp only [c1, ne_eq, not_false_eq_true, if_true, call_nm_set_count]
    by_cases c2 : env.MPIDI_CH4_DIRECT_NETMOD = true
    · simp only [c2, if_true]
    · simp only [c2, Bool.false_eq_true, if_false]
      by_cases c3 : ¬Int.land state.flag env.MPIDI_PROGRESS_SHM = 0 ∧
          (call_nm env v g).1 = MPI_SUCCESS
      · rw [if_pos c3, if_pos c3, call_shm_set_count]
      · rw [if_neg c3, if_neg c3]
  · simp only [c1, if_false]
    by_cases c2 : env.MPIDI_CH4_DIRECT_NETMOD = true
    · simp only [c2, if_true]
    · simp only [c2, Bool.false_eq_true, if_false]
      by_cases c3 : Int.land state.flag env.MPIDI_PROGRESS_SHM ≠ 0 ∧ e = MPI_SUCCESS
      · rw [if_pos c3, if_pos c3, call_shm_set_count]
      · rw [if_neg c3, if_neg c3]

theorem sweep_loop_set_count (env : Env W) (wait : Int)
    (ctx : MPID_Progress_state → Nat → Nat)
    (check : Machine W → MPID_Progress_state → Nat → MPID_Progress_state)
    (hchk : ∀ c g st i, check (set_count c g) st i = check g st i)
    (c : Int) (l : List Nat) (state : MPID_Progress_state) (e : Int) (g : Machine W) :
    sweep_loop env wait ctx check l state e (set_count c g) =
      ((sweep_loop env wait ctx check l state e g).1,
       (sweep_loop env wait ctx check l state e g).2.1,
       set_count c (sweep_loop env wait ctx check l state e g).2.2) := by
  induction l generalizing state e g with
  | nil => rfl
  | cons i rest ih =>
    simp only [sweep_loop]
    have h1 : log (Event.cs_enter (ctx state i)) (set_count c g) =
        set_count c (log (Event.cs_enter (ctx state i)) g) := rfl
    rw [h1, MPIDI_PROGRESS_set_count]
    simp only [hchk]
    generalize (MPIDI_PROGRESS env state (ctx state i) e
      (log (Event.cs_enter (ctx state i)) g)) = r
    generalize (if wait ≠ 0 then check r.2 state i else state) = st1
    have h2 : log (Event.cs_exit (ctx state i)) (set_count c r.2) =
        set_count c (log (Event.cs_exit (ctx state i)) r.2) := rfl
    rw [h2]
    split_ifs
    · rfl
    · rfl
    · exact ih _ _ _

theorem head_set_count (env : Env W) (state : MPID_Progress_state) (c : Int)
    (g : Machine W) :
    MPIDI_progress_test_head env state (set_count c g) =
      ((MPIDI_progress_test_head env state g).1, (MPIDI_progress_test_head env state g).2.1,
       set_count c (MPIDI_progress_test_head env state g).2.2) := by
  unfold MPIDI_progress_test_head
  simp only [set_count, call_check_for_failed_procs, call_hooks, call_workq, log]
  split_ifs <;> rfl

theorem do_global_set_count (env : Env W) (g : Machine W) :
    ∃ k, (MPIDI_do_global_progress env g).2 = set_count k g := by
  unfold MPIDI_do_global_progress
  split_ifs
  · exact ⟨g.global_vci_poll_count, rfl⟩
  · exact ⟨int_incr g.global_vci_poll_count, rfl⟩

theorem check_idx_set_count (env : Env W) (c : Int) (g : Machine W)
    (st : MPID_Progress_state) (i : Nat) :
    MPIDI_check_progress_made_idx env (set_count c g) st i =
      MPIDI_check_progress_made_idx env g st i := rfl

theorem progress_test_targeted_set_count (env : Env W) (state : MPID_Progress_state)
    (wait : Int) (c : Int) (g : Machine W) :
    progress_test_targeted env state wait (set_count c g) =
      ((progress_test_targeted env state wait g).1,
       (progress_test_targeted env state wait g).2.1,
       set_count c (progress_test_targeted env state wait g).2.2) := by
  unfold progress_test_targeted
  simp only [head_set_count]
  by_cases h1 : (MPIDI_progress_test_head env state g).2.1 = true
  · simp only [h1, if_true]
  · simp only [h1, Bool.false_eq_true, if_false]
    by_cases h2 : env.MPIDI_CH4_MAX_VCIS = 1
    · simp only [h2, if_true]
      have hl : log (Event.cs_enter 0) (set_count c (MPIDI_progress_test_head env state g).2.2)
          = set_count c (log (Event.cs_enter 0) (MPIDI_progress_test_head env state g).2.2) :=
        rfl
      rw [hl, MPIDI_PROGRESS_set_count]
      simp only [check_idx_set_count]
      rfl
    · simp only [h2, if_false]
      rw [targeted_sweep_eq, targeted_sweep_eq]
      exact sweep_loop_set_count env wait (fun st i => st.vci i)
        (fun g st i => MPIDI_check_progress_made_idx env g st i)
        (fun c g st i => check_idx_set_count env c g st i) c _ _ _ _

theorem progress_test_default_form (env : Env W) (state : MPID_Progress_state) (wait : Int)
    (hc : state.vci_count = env.n_vcis) (hv : ∀ i, i < env.n_vcis → state.vci i = i)
    (g : Machine W) :
    ∃ k, MPIDI_progress_test env state wait g =
      ((progress_test_targeted env state wait g).1,
       (progress_test_targeted env state wait g).2.1,
       set_count k (progress_test_targeted env state wait g).2.2) := by
  unfold MPIDI_progress_test progress_test_targeted
  simp only []
  by_cases h1 : (MPIDI_progress_test_head env state g).2.1 = true
  · simp only [h1, if_true]
    exact ⟨(MPIDI_progress_test_head env state g).2.2.global_vci_poll_count, rfl⟩
  · simp only [h1, Bool.false_eq_true, if_false]
    by_cases h2 : env.MPIDI_CH4_MAX_VCIS = 1
    · simp only [h2, if_true]
      exact ⟨_, rfl⟩
    · simp only [h2, if_false]
      obtain ⟨k, hk⟩ := do_global_set_count env (MPIDI_progress_test_head env state g).2.2
      refine ⟨k, ?_⟩
      have ht : ∀ m : Machine W,
          targeted_sweep env wait (List.range state.vci_count) state
              (MPIDI_progress_test_head env state g).1 (set_count k m) =
            ((targeted_sweep env wait (List.range state.vci_count) state
                (MPIDI_progress_test_head env state g).1 m).1,
             (targeted_sweep env wait (List.range state.vci_count) state
                (MPIDI_progress_test_head env state g).1 m).2.1,
             set_count k (targeted_sweep env wait (List.range state.vci_count) state
                (MPIDI_progress_test_head env state g).1 m).2.2) := by
        intro m
        rw [targeted_sweep_eq, targeted_sweep_eq]
        exact sweep_loop_set_count env wait (fun st i => st.vci i)
          (fun g st i => MPIDI_check_progress_made_idx env g st i)
          (fun c g st i => check_idx_set_count env c g st i) k _ _ _ _
      rw [hk]
      split_ifs
      · rw [global_eq_targeted env wait state hc hv]
        exact ht _
      · exact ht _

/-- C18: for a snapshot in the default all-contexts form (`vci_count = n_vcis`
and `vci[i] = i` for every `i < n_vcis`), for every wait flag and every
behaviour of the collaborators: the global sweep and the targeted sweep of
`MPIDI_progress_test`, started from the same snapshot, `mpi_errno` and machine
state, give the same result: same return code, same final snapshot and same
machine state, so the same sequence of lock/poll/unlock events.  Hence the
value of the poll counter does not affect the outcome of a call: replacing the
poll counter by any value `c` changes neither the return code, nor the final
snapshot, nor the trace, nor the world. -/
theorem MPIDI_progress_test_default_snapshot (env : Env W) (state : MPID_Progress_state)
    (wait : Int) (hc : state.vci_count = env.n_vcis)
    (hv : ∀ i, i < env.n_vcis → state.vci i = i) :
    (∀ (e : Int) (g : Machine W),
      global_sweep env wait (List.range env.n_vcis) state e g =
        targeted_sweep env wait (List.range state.vci_count) state e g) ∧
    (∀ (c : Int) (g : Machine W),
      (MPIDI_progress_test env state wait (set_count c g)).1 =
        (MPIDI_progress_test env state wait g).1 ∧
      (MPIDI_progress_test env state wait (set_count c g)).2.1 =
        (MPIDI_progress_test env state wait g).2.1 ∧
      (MPIDI_progress_test env state wait (set_count c g)).2.2.trace =
        (MPIDI_progress_test env state wait g).2.2.trace ∧
      (MPIDI_progress_test env state wait (set_count c g)).2.2.world =
        (MPIDI_progress_test env state wait g).2.2.world) := by
  refine ⟨fun e g => global_eq_targeted env wait state hc hv e g, ?_⟩
  intro c g
  obtain ⟨k1, h1⟩ := progress_test_default_form env state wait hc hv (set_count c g)
  obtain ⟨k2, h2⟩ := progress_test_default_form env state wait hc hv g
  rw [h1, h2, progress_test_targeted_set_count]
  exact ⟨rfl, rfl, rfl, rfl⟩

/-- Witness of C18: the snapshot made by `MPID_Progress_start` in the
four-context example, with detection enabled; poll counter 255 (a global call)
against poll counter 0 (a targeted call). -/
theorem MPIDI_progress_test_default_snapshot_witness :
    (exSnapshot.vci_count = exEnv.n_vcis ∧ ∀ i, i < exEnv.n_vcis → exSnapshot.vci i = i) ∧
    (MPIDI_do_global_progress exEnv (set_count 255 (exMachine 0))).1 = 1 ∧
    (MPIDI_do_global_progress exEnv (exMachine 0)).1 = 0 ∧
    (MPIDI_progress_test exEnv exSnapshot 1 (set_count 255 (exMachine 0))).2.2.trace =
      (MPIDI_progress_test exEnv exSnapshot 1 (exMachine 0)).2.2.trace :=
  ⟨⟨by decide, by decide⟩, by decide, by decide,
   ((MPIDI_progress_test_default_snapshot exEnv exSnapshot 1 (by decide) (by decide)).2
      255 (exMachine 0)).2.2.1⟩

/-! ## The poll counter across one driver call -/

theorem progress_test_counter (env : Env W) (state : MPID_Progress_state) (wait : Int)
    (g : Machine W) (hmax : env.MPIDI_CH4_MAX_VCIS ≠ 1) :
    ((MPIDI_progress_test_head env state g).2.1 = false →
      (MPIDI_progress_test env state wait g).2.2.global_vci_poll_count =
        (MPIDI_do_global_progress env g).2.global_vci_poll_count) ∧
    ((MPIDI_progress_test_head env state g).2.1 = true →
      (MPIDI_progress_test env state wait g).2.2.global_vci_poll_count =
        g.global_vci_poll_count ∧
      (MPIDI_progress_test env state wait g).1 ≠ MPI_SUCCESS) := by
  obtain ⟨hd, hext, _, herr, hfail⟩ := head_shape env state g
  have hd3 : (MPIDI_do_global_progress env
      (MPIDI_progress_test_head env state g).2.2).2.global_vci_poll_count
      = (MPIDI_do_global_progress env g).2.global_vci_poll_count := by
    unfold MPIDI_do_global_progress
    split_ifs <;> simp [hext.2.1]
  constructor
  · intro hh
    unfold MPIDI_progress_test
    simp only [hh, Bool.false_eq_true, if_false, hmax, herr hh]
    split_ifs
    · rw [global_sweep_eq]
      obtain ⟨new, e2, _⟩ := sweep_loop_trace env wait (fun _ v => v)
        (fun g st v => MPIDI_check_progress_made_vci env g st v) (fun _ _ _ _ => rfl)
        (List.range env.n_vcis) state
        (MPIDI_do_global_progress env (MPIDI_progress_test_head env state g).2.2).2
      rw [e2.2.1, hd3]
    · rw [targeted_sweep_eq]
      obtain ⟨new, e2, _⟩ := sweep_loop_trace env wait (fun st i => st.vci i)
        (fun g st i => MPIDI_check_progress_made_idx env g st i)
        (fun g st i j => congrFun (check_idx_frame env g st i).2.1 j)
        (List.range state.vci_count) state
        (MPIDI_do_global_progress env (MPIDI_progress_test_head env state g).2.2).2
      rw [e2.2.1, hd3]
  · intro hh
    unfold MPIDI_progress_test
    simp only [hh, if_true]
    exact ⟨hext.2.1, hfail hh⟩

/-- C16 (amended): for every snapshot, wait flag and behaviour of the
collaborators, one call of `MPIDI_progress_test` with more than one context
leaves the poll counter equal to its `int` increment (the previous value plus
one whenever that does not overflow) when failed-process detection, the
progress hooks and the work-queue progress of lines 99-116 do not fail,
whatever the transports do; when one of those calls fails, the driver returns
that failure before the global-progress decision and the poll counter is
unchanged.  The counter is never reset. -/
theorem MPIDI_progress_test_poll_counter (env : Env W) (state : MPID_Progress_state)
    (wait : Int) (g : Machine W) (hn : 1 < env.n_vcis)
    (hcap : env.n_vcis ≤ env.MPIDI_CH4_MAX_VCIS) :
    ((MPIDI_progress_test_head env state g).2.1 = false →
      (MPIDI_progress_test env state wait g).2.2.global_vci_poll_count =
        int_incr g.global_vci_poll_count ∧
      (-2 ^ 31 ≤ g.global_vci_poll_count → g.global_vci_poll_count < 2 ^ 31 - 1 →
        (MPIDI_progress_test env state wait g).2.2.global_vci_poll_count =
          g.global_vci_poll_count + 1)) ∧
    ((MPIDI_progress_test_head env state g).2.1 = true →
      (MPIDI_progress_test env state wait g).2.2.global_vci_poll_count =
        g.global_vci_poll_count ∧
      (MPIDI_progress_test env state wait g).1 ≠ MPI_SUCCESS) := by
  have hmax : env.MPIDI_CH4_MAX_VCIS ≠ 1 := by omega
  have hn1 : env.n_vcis ≠ 1 := by omega
  obtain ⟨h1, h2⟩ := progress_test_counter env state wait g hmax
  refine ⟨?_, h2⟩
  intro hh
  have h3 := h1 hh
  rw [(do_global_counter env g hn1).1] at h3
  refine ⟨h3, ?_⟩
  intro ha hb
  rw [h3]
  exact int_incr_of_lt _ ha hb

/-- Witness of C16 (amended): a call in the four-context example, where no
collaborator fails, moves the poll counter from 41 to 42. -/
theorem MPIDI_progress_test_poll_counter_witness :
    (1 < exEnv.n_vcis ∧ exEnv.n_vcis ≤ exEnv.MPIDI_CH4_MAX_VCIS) ∧
    (MPIDI_progress_test exEnv exSnapshot 1 (exMachine 41)).2.2.global_vci_poll_count =
      41 + 1 :=
  ⟨⟨by decide, by decide⟩,
   ((MPIDI_progress_test_poll_counter exEnv exSnapshot 1 (exMachine 41) (by decide)
      (by decide)).1 (by decide)).2 (by decide) (by decide)⟩

/-- Counterexample to C16 as stated: four contexts, progress hooks that fail
with code 5.  The driver returns 5 from line 109, before
`MPIDI_do_global_progress` is reached, and the poll counter is still 41, not
42. -/
theorem MPIDI_progress_test_poll_counter_counterexample :
    1 < exEnvHookFail4.n_vcis ∧
    (MPIDI_progress_test exEnvHookFail4 exSnapshot 1 (exMachine 41)).1 = 5 ∧
    (MPIDI_progress_test exEnvHookFail4 exSnapshot 1 (exMachine 41)).2.2.global_vci_poll_count
      = 41 ∧
    ¬ ((MPIDI_progress_test exEnvHookFail4 exSnapshot 1
        (exMachine 41)).2.2.global_vci_poll_count
      = (exMachine 41).global_vci_poll_count + 1) := by
  refine ⟨by decide, by decide, by decide, by decide⟩

/-! ## Source selection by the flag -/

theorem respects_flag_append (env : Env W) (flag : Int) (a b : List Event)
    (ha : respects_flag env flag a) (hb : respects_flag env flag b) :
    respects_flag env flag (a ++ b) := by
  induction a with
  | nil => simpa using hb
  | cons x t ih =>
    cases x <;> simp only [List.cons_append, respects_flag] at ha ⊢ <;>
      first
      | exact ih ha
      | exact ⟨ha.1, ih ha.2⟩

theorem respects_flag_mem (env : Env W) (flag : Int) (l : List Event)
    (h : respects_flag env flag l) :
    (∀ v rc, Event.nm_progress v rc ∈ l → Int.land flag env.MPIDI_PROGRESS_NM ≠ 0) ∧
    (∀ v rc, Event.shm_progress v rc ∈ l →
      Int.land flag env.MPIDI_PROGRESS_SHM ≠ 0 ∧ env.MPIDI_CH4_DIRECT_NETMOD = false) ∧
    (∀ rc, Event.hook_exec_all rc ∈ l → Int.land flag env.MPIDI_PROGRESS_HOOKS ≠ 0) := by
  induction l with
  | nil => simp
  | cons x t ih =>
    cases x with
    | nm_progress u c =>
      simp only [respects_flag] at h
      obtain ⟨i1, i2, i3⟩ := ih h.2
      refine ⟨fun v rc _ => h.1, fun v rc hm => i2 v rc ?_, fun rc hm => i3 rc ?_⟩
      · simpa using hm
      · simpa using hm
    | shm_progress u c =>
      simp only [respects_flag] at h
      obtain ⟨i1, i2, i3⟩ := ih h.2
      refine ⟨fun v rc hm => i1 v rc ?_, fun v rc _ => h.1, fun rc hm => i3 rc ?_⟩
      · simpa using hm
      · simpa using hm
    | hook_exec_all c =>
      simp only [respects_flag] at h
      obtain ⟨i1, i2, i3⟩ := ih h.2
      refine ⟨fun v rc hm => i1 v rc ?_, fun v rc hm => i2 v rc ?_, fun rc _ => h.1⟩
      · simpa using hm
      · simpa using hm
    | cs_enter u =>
      simp only [respects_flag] at h
      obtain ⟨i1, i2, i3⟩ := ih h
      refine ⟨fun v rc hm => i1 v rc ?_, fun v rc hm => i2 v rc ?_, fun rc hm => i3 rc ?_⟩ <;>
        simpa using hm
    | cs_exit u =>
      simp only [respects_flag] at h
      obtain ⟨i1, i2, i3⟩ := ih h
      refine ⟨fun v rc hm => i1 v rc ?_, fun v rc hm => i2 v rc ?_, fun rc hm => i3 rc ?_⟩ <;>
        simpa using hm
    | check_for_failed_procs c =>
      simp only [respects_flag] at h
      obtain ⟨i1, i2, i3⟩ := ih h
      refine ⟨fun v rc hm => i1 v rc ?_, fun v rc hm => i2 v rc ?_, fun rc hm => i3 rc ?_⟩ <;>
        simpa using hm
    | workq_vci_progress c =>
      simp only [respects_flag] at h
      obtain ⟨i1, i2, i3⟩ := ih h
      refine ⟨fun v rc hm => i1 v rc ?_, fun v rc hm => i2 v rc ?_, fun rc hm => i3 rc ?_⟩ <;>
        simpa using hm
    | thread_yield =>
      simp only [respects_flag] at h
      obtain ⟨i1, i2, i3⟩ := ih h
      refine ⟨fun v rc hm => i1 v rc ?_, fun v rc hm => i2 v rc ?_, fun rc hm => i3 rc ?_⟩ <;>
        simpa using hm

theorem MPIDI_PROGRESS_flag (env : Env W) (state : MPID_Progress_state) (v : Nat)
    (e : Int) (g : Machine W) :
    ∃ polls, ext_by g (MPIDI_PROGRESS env state v e g).2 polls ∧
      respects_flag env state.flag polls := by
  unfold MPIDI_PROGRESS
  by_cases hnm : Int.land state.flag env.MPIDI_PROGRESS_NM ≠ 0
  · simp only [hnm, if_true, ne_eq, not_false_eq_true]
    by_cases hd : env.MPIDI_CH4_DIRECT_NETMOD = true
    · simp only [hd, if_true]
      exact ⟨_, call_nm_ext env v g, ⟨hnm, trivial⟩⟩
    · simp only [hd, Bool.false_eq_true, if_false]
      by_cases hs : ¬Int.land state.flag env.MPIDI_PROGRESS_SHM = 0 ∧
          (call_nm env v g).1 = MPI_SUCCESS
      · rw [if_pos hs]
        refine ⟨_, ext_by_trans (call_nm_ext env v g) (call_shm_ext env v _), ?_⟩
        exact ⟨hnm, ⟨hs.1, by simpa using hd⟩, trivial⟩
      · rw [if_neg hs]
        exact ⟨_, call_nm_ext env v g, ⟨hnm, trivial⟩⟩
  · simp only [hnm, if_false]
    by_cases hd : env.MPIDI_CH4_DIRECT_NETMOD = true
    · simp only [hd, if_true]
      exact ⟨[], ext_by_refl g, trivial⟩
    · simp only [hd, Bool.false_eq_true, if_false]
      by_cases hs : Int.land state.flag env.MPIDI_PROGRESS_SHM ≠ 0 ∧ e = MPI_SUCCESS
      · rw [if_pos hs]
        exact ⟨_, call_shm_ext env v g, ⟨⟨hs.1, by simpa using hd⟩, trivial⟩⟩
      · rw [if_neg hs]
        exact ⟨[], ext_by_refl g, trivial⟩

theorem sweep_loop_flag (env : Env W) (wait : Int) (ctx : MPID_Progress_state → Nat → Nat)
    (check : Machine W → MPID_Progress_state → Nat → MPID_Progress_state)
    (hchk : ∀ g st i, (check g st i).flag = st.flag)
    (l : List Nat) (state : MPID_Progress_state) (e : Int) (g : Machine W) :
    ∃ new, ext_by g (sweep_loop env wait ctx check l state e g).2.2 new ∧
      respects_flag env state.flag new := by
  induction l generalizing state e g with
  | nil => exact ⟨[], ext_by_refl g, trivial⟩
  | cons i rest ih =>
    obtain ⟨polls, pext, pflag⟩ := MPIDI_PROGRESS_flag env state (ctx state i) e
      (log (Event.cs_enter (ctx state i)) g)
    simp only [sweep_loop]
    generalize (MPIDI_PROGRESS env state (ctx state i) e
      (log (Event.cs_enter (ctx state i)) g)) = r at pext
    have hfl : (if wait ≠ 0 then check r.2 state i else state).flag = state.flag := by
      split_ifs
      · exact hchk _ _ _
      · rfl
    generalize (if wait ≠ 0 then check r.2 state i else state) = st1 at hfl
    have hvisit : ext_by g (log (Event.cs_exit (ctx state i)) r.2)
        ([Event.cs_enter (ctx state i)] ++ (polls ++ [Event.cs_exit (ctx state i)])) :=
      ext_by_trans (ext_by_log (Event.cs_enter (ctx state i)) g)
        (ext_by_trans pext (ext_by_log (Event.cs_exit (ctx state i)) r.2))
    have hvf : respects_flag env state.flag
        ([Event.cs_enter (ctx state i)] ++ (polls ++ [Event.cs_exit (ctx state i)])) := by
      apply respects_flag_append env state.flag [Event.cs_enter (ctx state i)] _
        (by simp [respects_flag])
      exact respects_flag_append env state.flag polls [Event.cs_exit (ctx state i)] pflag
        (by simp [respects_flag])
    split_ifs
    · exact ⟨_, hvisit, hvf⟩
    · exact ⟨_, hvisit, hvf⟩
    · obtain ⟨new2, e2, f2⟩ := ih st1 r.1 (log (Event.cs_exit (ctx state i)) r.2)
      rw [hfl] at f2
      exact ⟨_, ext_by_trans hvisit e2, respects_flag_append _ _ _ _ hvf f2⟩

theorem head_flag (env : Env W) (state : MPID_Progress_state) (g : Machine W) :
    ∃ hd, ext_by g (MPIDI_progress_test_head env state g).2.2 hd ∧
      respects_flag env state.flag hd := by
  unfold MPIDI_progress_test_head
  have h0 : ∃ hd0, ext_by g
      (if env.HAVE_SIGNAL = true ∧ g.sigusr1_count > g.my_sigusr1_count then
        call_check_for_failed_procs env { g with my_sigusr1_count := g.sigusr1_count }
      else (MPI_SUCCESS, g)).2 hd0 ∧ respects_flag env state.flag hd0 := by
    split_ifs
    · exact ⟨[Event.check_for_failed_procs (env.MPIDI_check_for_failed_procs g.world).1],
        by simp [ext_by, call_check_for_failed_procs, log], by simp [respects_flag]⟩
    · exact ⟨[], ext_by_refl g, trivial⟩
  obtain ⟨hd0, e0, q0⟩ := h0
  generalize (if env.HAVE_SIGNAL = true ∧ g.sigusr1_count > g.my_sigusr1_count then
        call_check_for_failed_procs env { g with my_sigusr1_count := g.sigusr1_count }
      else (MPI_SUCCESS, g)) = r0 at e0 ⊢
  simp only []
  by_cases c0 : MPIR_ERR_CHECK r0.1 = true
  · rw [if_pos c0]
    exact ⟨hd0, e0, q0⟩
  · rw [if_neg c0]
    have h1 : ∃ hd1, ext_by r0.2
        (if Int.land state.flag env.MPIDI_PROGRESS_HOOKS ≠ 0 then call_hooks env r0.2
          else r0).2 hd1 ∧ respects_flag env state.flag hd1 := by
      split_ifs with hh
      · exact ⟨[Event.hook_exec_all (env.MPIR_Progress_hook_exec_all r0.2.world).1],
          by simp [ext_by, call_hooks, log], by simpa [respects_flag] using hh⟩
      · exact ⟨[], ext_by_refl _, trivial⟩
    obtain ⟨hd1, e1, q1⟩ := h1
    generalize (if Int.land state.flag env.MPIDI_PROGRESS_HOOKS ≠ 0 then call_hooks env r0.2
          else r0) = r1 at e1 ⊢
    by_cases c1 : MPIR_ERR_CHECK r1.1 = true
    · rw [if_pos c1]
      exact ⟨_, ext_by_trans e0 e1, respects_flag_append _ _ _ _ q0 q1⟩
    · rw [if_neg c1]
      have h2 : ∃ hd2, ext_by r1.2
          (if env.MPIDI_CH4_USE_WORK_QUEUES = true then call_workq env r1.2 else r1).2 hd2 ∧
          respects_flag env state.flag hd2 := by
        split_ifs
        · exact ⟨[Event.workq_vci_progress (env.MPIDI_workq_vci_progress r1.2.world).1],
            by simp [ext_by, call_workq, log], by simp [respects_flag]⟩
        · exact ⟨[], ext_by_refl _, trivial⟩
      obtain ⟨hd2, e2, q2⟩ := h2
      generalize (if env.MPIDI_CH4_USE_WORK_QUEUES = true then call_workq env r1.2 else r1)
        = r2 at e2 ⊢
      have hall : respects_flag env state.flag (hd0 ++ hd1 ++ hd2) :=
        respects_flag_append _ _ _ _ (respects_flag_append _ _ _ _ q0 q1) q2
      split_ifs
      · exact ⟨_, ext_by_trans (ext_by_trans e0 e1) e2, hall⟩
      · exact ⟨_, ext_by_trans (ext_by_trans e0 e1) e2, hall⟩

theorem progress_test_flag (env : Env W) (state : MPID_Progress_state) (wait : Int)
    (g : Machine W) :
    ∃ new, (MPIDI_progress_test env state wait g).2.2.trace = g.trace ++ new ∧
      respects_flag env state.flag new := by
  obtain ⟨hd, hext, hq⟩ := head_flag env state g
  have hd2 := do_global_ext env (MPIDI_progress_test_head env state g).2.2
  unfold MPIDI_progress_test
  simp only []
  by_cases h1 : (MPIDI_progress_test_head env state g).2.1 = true
  · rw [if_pos h1]
    exact ⟨hd, hext.1, hq⟩
  · rw [if_neg h1]
    by_cases h2 : env.MPIDI_CH4_MAX_VCIS = 1
    · rw [if_pos h2]
      obtain ⟨polls, pext, pflag⟩ := MPIDI_PROGRESS_flag env state 0
        (MPIDI_progress_test_head env state g).1
        (log (Event.cs_enter 0) (MPIDI_progress_test_head env state g).2.2)
      have hall := ext_by_trans hext (ext_by_trans (ext_by_log (Event.cs_enter 0) _)
        (ext_by_trans pext (ext_by_log (Event.cs_exit 0) _)))
      refine ⟨_, hall.1, ?_⟩
      apply respects_flag_append _ _ _ _ hq
      apply respects_flag_append env state.flag [Event.cs_enter 0] _ (by simp [respects_flag])
      exact respects_flag_append env state.flag polls [Event.cs_exit 0] pflag
        (by simp [respects_flag])
    · rw [if_neg h2]
      by_cases h3 : (MPIDI_do_global_progress env
          (MPIDI_progress_test_head env state g).2.2).1 ≠ 0
      · rw [if_pos h3, global_sweep_eq]
        obtain ⟨new, e2, f2⟩ := sweep_loop_flag env wait (fun _ v => v)
          (fun g st v => MPIDI_check_progress_made_vci env g st v)
          (fun g st v => (check_vci_frame env g st v).1)
          (List.range env.n_vcis) state (MPIDI_progress_test_head env state g).1
          (MPIDI_do_global_progress env (MPIDI_progress_test_head env state g).2.2).2
        refine ⟨hd ++ new, ?_, respects_flag_append _ _ _ _ hq f2⟩
        rw [e2.1, hd2.1, hext.1, List.append_assoc]
      · rw [if_neg h3, targeted_sweep_eq]
        obtain ⟨new, e2, f2⟩ := sweep_loop_flag env wait (fun st i => st.vci i)
          (fun g st i => MPIDI_check_progress_made_idx env g st i)
          (fun g st i => (check_idx_frame env g st i).1)
          (List.range state.vci_count) state (MPIDI_progress_test_head env state g).1
          (MPIDI_do_global_progress env (MPIDI_progress_test_head env state g).2.2).2
        refine ⟨hd ++ new, ?_, respects_flag_append _ _ _ _ hq f2⟩
        rw [e2.1, hd2.1, hext.1, List.append_assoc]

theorem MPIDI_PROGRESS_nosource (env : Env W) (state : MPID_Progress_state) (v : Nat)
    (e : Int) (g : Machine W)
    (hN : Int.land state.flag env.MPIDI_PROGRESS_NM = 0)
    (hS : Int.land state.flag env.MPIDI_PROGRESS_SHM = 0) :
    MPIDI_PROGRESS env state v e g = (e, g) := by
  unfold MPIDI_PROGRESS
  simp [hN, hS]

theorem sweep_loop_nosource (env : Env W) (wait : Int)
    (ctx : MPID_Progress_state → Nat → Nat)
    (check : Machine W → MPID_Progress_state → Nat → MPID_Progress_state)
    (hchk : ∀ g st i, (check g st i).flag = st.flag)
    (l : List Nat) (state : MPID_Progress_state) (g : Machine W)
    (hN : Int.land state.flag env.MPIDI_PROGRESS_NM = 0)
    (hS : Int.land state.flag env.MPIDI_PROGRESS_SHM = 0) :
    (sweep_loop env wait ctx check l state MPI_SUCCESS g).1 = MPI_SUCCESS := by
  induction l generalizing state g with
  | nil => rfl
  | cons i rest ih =>
    simp only [sweep_loop, MPIDI_PROGRESS_nosource env state _ _ _ hN hS]
    have hfl : (if wait ≠ 0 then check (log (Event.cs_enter (ctx state i)) g) state i
        else state).flag = state.flag := by
      split_ifs
      · exact hchk _ _ _
      · rfl
    generalize (if wait ≠ 0 then check (log (Event.cs_enter (ctx state i)) g) state i
        else state) = st1 at hfl
    split_ifs
    · rfl
    · rfl
    · exact ih st1 _ (by rw [hfl]; exact hN) (by rw [hfl]; exact hS)

theorem head_nosource (env : Env W) (state : MPID_Progress_state) (g : Machine W)
    (hH : Int.land state.flag env.MPIDI_PROGRESS_HOOKS = 0)
    (hcheck : ∀ w, (env.MPIDI_check_for_failed_procs w).1 = MPI_SUCCESS)
    (hworkq : ∀ w, (env.MPIDI_workq_vci_progress w).1 = MPI_SUCCESS) :
    (MPIDI_progress_test_head env state g).1 = MPI_SUCCESS ∧
    (MPIDI_progress_test_head env state g).2.1 = false := by
  unfold MPIDI_progress_test_head
  by_cases c1 : env.HAVE_SIGNAL = true ∧ g.sigusr1_count > g.my_sigusr1_count <;>
    by_cases c3 : env.MPIDI_CH4_USE_WORK_QUEUES = true <;>
    simp [c1, c3, hH, call_check_for_failed_procs, call_workq, hcheck, hworkq,
      MPIR_ERR_CHECK, MPI_SUCCESS_eq]

theorem progress_test_nosource (env : Env W) (state : MPID_Progress_state) (wait : Int)
    (g : Machine W)
    (hN : Int.land state.flag env.MPIDI_PROGRESS_NM = 0)
    (hS : Int.land state.flag env.MPIDI_PROGRESS_SHM = 0)
    (hH : Int.land state.flag env.MPIDI_PROGRESS_HOOKS = 0)
    (hcheck : ∀ w, (env.MPIDI_check_for_failed_procs w).1 = MPI_SUCCESS)
    (hworkq : ∀ w, (env.MPIDI_workq_vci_progress w).1 = MPI_SUCCESS) :
    (MPIDI_progress_test env state wait g).1 = MPI_SUCCESS := by
  obtain ⟨h1, h2⟩ := head_nosource env state g hH hcheck hworkq
  unfold MPIDI_progress_test
  simp only [h2, Bool.false_eq_true, if_false, h1]
  by_cases hm : env.MPIDI_CH4_MAX_VCIS = 1
  · rw [if_pos hm, MPIDI_PROGRESS_nosource env state _ _ _ hN hS]
  · rw [if_neg hm]
    split_ifs
    · rw [global_sweep_eq]
      exact sweep_loop_nosource env wait _ _ (fun g st v => (check_vci_frame env g st v).1)
        _ _ _ hN hS
    · rw [targeted_sweep_eq]
      exact sweep_loop_nosource env wait _ _ (fun g st i => (check_idx_frame env g st i).1)
        _ _ _ hN hS

theorem state_init_form (env : Env W) (state : MPID_Progress_state) :
    (MPIDI_progress_state_init env state).flag = env.MPIDI_PROGRESS_ALL ∧
    (MPIDI_progress_state_init env state).progress_made = 0 ∧
    (MPIDI_progress_state_init env state).vci_count = env.n_vcis ∧
    (∀ i, i < env.n_vcis → (MPIDI_progress_state_init env state).vci i = i) := by
  have hv := foldl_vci env.n_vcis
    { state with flag := env.MPIDI_PROGRESS_ALL, progress_made := 0 }
  obtain ⟨v1, v2, _, _, v5, _⟩ := hv
  refine ⟨?_, ?_, ?_, ?_⟩
  · simpa [MPIDI_progress_state_init] using v1
  · simpa [MPIDI_progress_state_init] using v2
  · simp [MPIDI_progress_state_init]
  · intro i hi
    simpa [MPIDI_progress_state_init] using v5 i hi

/-- C15 (amended): for every flag value, wait flag and behaviour of the
collaborators, in the events appended by one `MPIDI_progress_test` call the
network transport is polled only if the network bit of the snapshot's flag is
set, the shared-memory transport only if the shared-memory bit is set (and the
build is not direct-netmod), and the progress hooks are executed only if the
hooks bit is set.  With a flag that selects no source the call therefore polls
no transport and runs no hook, and it returns success provided failed-process
detection and work-queue progress, which run whatever the flag, do not fail.
`MPIDI_Progress_test(flags)` runs the driver with detection disabled on the
all-contexts snapshot whose flag is exactly `flags`. -/
theorem MPIDI_progress_test_flag_selects (env : Env W) (state : MPID_Progress_state)
    (wait : Int) (g : Machine W) :
    (∃ new, (MPIDI_progress_test env state wait g).2.2.trace = g.trace ++ new ∧
      (∀ v rc, Event.nm_progress v rc ∈ new →
        Int.land state.flag env.MPIDI_PROGRESS_NM ≠ 0) ∧
      (∀ v rc, Event.shm_progress v rc ∈ new →
        Int.land state.flag env.MPIDI_PROGRESS_SHM ≠ 0 ∧
          env.MPIDI_CH4_DIRECT_NETMOD = false) ∧
      (∀ rc, Event.hook_exec_all rc ∈ new →
        Int.land state.flag env.MPIDI_PROGRESS_HOOKS ≠ 0)) ∧
    (Int.land state.flag env.MPIDI_PROGRESS_NM = 0 →
      Int.land state.flag env.MPIDI_PROGRESS_SHM = 0 →
      Int.land state.flag env.MPIDI_PROGRESS_HOOKS = 0 →
      (∀ w, (env.MPIDI_check_for_failed_procs w).1 = MPI_SUCCESS) →
      (∀ w, (env.MPIDI_workq_vci_progress w).1 = MPI_SUCCESS) →
      (MPIDI_progress_test env state wait g).1 = MPI_SUCCESS) ∧
    (∀ flags : Int,
      MPIDI_Progress_test env flags g =
        ((MPIDI_progress_test env
            { MPIDI_progress_state_init env env.uninit with flag := flags } 0 g).1,
         (MPIDI_progress_test env
            { MPIDI_progress_state_init env env.uninit with flag := flags } 0 g).2.2) ∧
      ({ MPIDI_progress_state_init env env.uninit with flag := flags }
        : MPID_Progress_state).flag = flags ∧
      ({ MPIDI_progress_state_init env env.uninit with flag := flags }
        : MPID_Progress_state).vci_count = env.n_vcis ∧
      (∀ i, i < env.n_vcis →
        ({ MPIDI_progress_state_init env env.uninit with flag := flags }
          : MPID_Progress_state).vci i = i)) := by
  refine ⟨?_, ?_, ?_⟩
  · obtain ⟨new, h1, h2⟩ := progress_test_flag env state wait g
    obtain ⟨m1, m2, m3⟩ := respects_flag_mem env state.flag new h2
    exact ⟨new, h1, m1, m2, m3⟩
  · intro hN hS hH hcheck hworkq
    exact progress_test_nosource env state wait g hN hS hH hcheck hworkq
  · intro flags
    obtain ⟨_, _, i3, i4⟩ := state_init_form env env.uninit
    exact ⟨rfl, rfl, i3, i4⟩

/-- Witness of C15 (amended): in the four-context example a call with flag 0
returns success. -/
theorem MPIDI_progress_test_flag_selects_witness :
    (Int.land ({ exSnapshot with flag := 0 } : MPID_Progress_state).flag
        exEnv.MPIDI_PROGRESS_NM = 0 ∧
      Int.land ({ exSnapshot with flag := 0 } : MPID_Progress_state).flag
        exEnv.MPIDI_PROGRESS_SHM = 0 ∧
      Int.land ({ exSnapshot with flag := 0 } : MPID_Progress_state).flag
        exEnv.MPIDI_PROGRESS_HOOKS = 0) ∧
    (MPIDI_progress_test exEnv { exSnapshot with flag := 0 } 1 exMachineSig).1
      = MPI_SUCCESS :=
  ⟨⟨by decide, by decide, by decide⟩,
   (MPIDI_progress_test_flag_selects exEnv { exSnapshot with flag := 0 } 1 exMachineSig).2.1
    (by decide) (by decide) (by decide) (fun _ => rfl) (fun _ => rfl)⟩

/-- Counterexample to C15 as stated: a build with signals, one failure signal
pending, a failed-process detection that fails with code 9.  The flag 0
selects no source, and `MPIDI_Progress_test(0)` polls nothing, but it returns
9, not success. -/
theorem MPIDI_progress_test_flag_selects_counterexample :
    (Int.land 0 exEnvSigFail.MPIDI_PROGRESS_NM = 0 ∧
      Int.land 0 exEnvSigFail.MPIDI_PROGRESS_SHM = 0 ∧
      Int.land 0 exEnvSigFail.MPIDI_PROGRESS_HOOKS = 0) ∧
    (MPIDI_Progress_test exEnvSigFail 0 exMachineSig).2.trace =
      [Event.check_for_failed_procs 9] ∧
    (MPIDI_Progress_test exEnvSigFail 0 exMachineSig).1 = 9 ∧
    ¬ ((MPIDI_Progress_test exEnvSigFail 0 exMachineSig).1 = MPI_SUCCESS) := by
  refine ⟨⟨by decide, by decide, by decide⟩, by decide, by decide, by decide⟩

/-! ## One opportunistic advance: `MPID_Progress_poke` -/

theorem polled_nm_append (a b : List Event) :
    polled_nm (a ++ b) = polled_nm a ++ polled_nm b := by
  induction a with
  | nil => simp [polled_nm]
  | cons x t ih => cases x <;> simp [polled_nm, ih]

theorem polled_shm_append (a b : List Event) :
    polled_shm (a ++ b) = polled_shm a ++ polled_shm b := by
  induction a with
  | nil => simp [polled_shm]
  | cons x t ih => cases x <;> simp [polled_shm, ih]

theorem released_append (a b : List Event) :
    released (a ++ b) = released a ++ released b := by
  induction a with
  | nil => simp [released]
  | cons x t ih => cases x <;> simp [released, ih]

theorem quiet_polled (a : List Event) (ha : quiet a) :
    polled_nm a = [] ∧ polled_shm a = [] ∧ released a = [] := by
  induction a with
  | nil => exact ⟨rfl, rfl, rfl⟩
  | cons x t ih =>
    cases x <;> simp only [quiet, polled_nm, polled_shm, released] at ha ⊢ <;> exact ih ha

theorem poll_shape_polled (v : Nat) (e : Int) (polls : List Event) (err : Int)
    (h : poll_shape v e polls err) :
    List.Sublist (polled_nm (Event.cs_enter v :: polls ++ [Event.cs_exit v])) [v] ∧
    List.Sublist (polled_shm (Event.cs_enter v :: polls ++ [Event.cs_exit v])) [v] ∧
    released (Event.cs_enter v :: polls ++ [Event.cs_exit v]) = [v] := by
  rcases h with ⟨h, _⟩ | h | ⟨h, _⟩ | h <;> subst h <;>
    simp [polled_nm, polled_shm, released]

theorem sweep_loop_polled (env : Env W) (wait : Int) (ctx : MPID_Progress_state → Nat → Nat)
    (check : Machine W → MPID_Progress_state → Nat → MPID_Progress_state)
    (l : List Nat) (state : MPID_Progress_state) (e : Int) (g : Machine W) :
    ∃ new, ext_by g (sweep_loop env wait ctx check l state e g).2.2 new ∧
      List.Sublist (polled_nm new) (visited new) ∧
      List.Sublist (polled_shm new) (visited new) ∧
      released new = visited new := by
  induction l generalizing state e g with
  | nil => exact ⟨[], ext_by_refl g, List.Sublist.refl _, List.Sublist.refl _, rfl⟩
  | cons i rest ih =>
    obtain ⟨polls, pext, pshape⟩ := MPIDI_PROGRESS_shape env state (ctx state i) e
      (log (Event.cs_enter (ctx state i)) g)
    obtain ⟨s1, s2, s3⟩ := poll_shape_polled _ _ _ _ pshape
    have hv := (poll_shape_lock _ _ _ _ pshape).2
    simp only [sweep_loop]
    generalize (MPIDI_PROGRESS env state (ctx state i) e
      (log (Event.cs_enter (ctx state i)) g)) = r at pext pshape
    generalize (if wait ≠ 0 then check r.2 state i else state) = st1
    have hvisit : ext_by g (log (Event.cs_exit (ctx state i)) r.2)
        (Event.cs_enter (ctx state i) :: polls ++ [Event.cs_exit (ctx state i)]) := by
      have h := ext_by_trans (ext_by_log (Event.cs_enter (ctx state i)) g)
        (ext_by_trans pext (ext_by_log (Event.cs_exit (ctx state i)) r.2))
      simpa using h
    have hstop : ∃ new, ext_by g (log (Event.cs_exit (ctx state i)) r.2) new ∧
        List.Sublist (polled_nm new) (visited new) ∧
        List.Sublist (polled_shm new) (visited new) ∧ released new = visited new :=
      ⟨_, hvisit, by rw [hv]; exact s1, by rw [hv]; exact s2, by rw [hv]; exact s3⟩
    split_ifs
    · exact hstop
    · exact hstop
    · obtain ⟨new2, e2, n2, m2, r2⟩ := ih st1 r.1 (log (Event.cs_exit (ctx state i)) r.2)
      refine ⟨_, ext_by_trans hvisit e2, ?_, ?_, ?_⟩
      · rw [polled_nm_append, visited_append, hv]
        exact List.Sublist.append s1 n2
      · rw [polled_shm_append, visited_append, hv]
        exact List.Sublist.append s2 m2
      · rw [released_append, visited_append, hv, s3, r2]

theorem progress_test_polled (env : Env W) (state : MPID_Progress_state) (wait : Int)
    (g : Machine W) :
    ∃ new, (MPIDI_progress_test env state wait g).2.2.trace = g.trace ++ new ∧
      List.Sublist (polled_nm new) (visited new) ∧
      List.Sublist (polled_shm new) (visited new) ∧
      released new = visited new ∧
      (env.MPIDI_CH4_MAX_VCIS = 1 → List.Sublist (visited new) [0]) := by
  obtain ⟨hd, hext, hq, _, _⟩ := head_shape env state g
  obtain ⟨q1, q2, q3⟩ := quiet_polled hd hq
  have qv := quiet_visited hd hq
  have hd2 := do_global_ext env (MPIDI_progress_test_head env state g).2.2
  unfold MPIDI_progress_test
  simp only []
  by_cases h1 : (MPIDI_progress_test_head env state g).2.1 = true
  · rw [if_pos h1]
    refine ⟨hd, hext.1, ?_, ?_, ?_, fun _ => ?_⟩
    · rw [q1]; exact List.nil_sublist _
    · rw [q2]; exact List.nil_sublist _
    · rw [q3, qv]
    · rw [qv]; exact List.nil_sublist _
  · rw [if_neg h1]
    by_cases h2 : env.MPIDI_CH4_MAX_VCIS = 1
    · rw [if_pos h2]
      obtain ⟨polls, pext, pshape⟩ := MPIDI_PROGRESS_shape env state 0
        (MPIDI_progress_test_head env state g).1
        (log (Event.cs_enter 0) (MPIDI_progress_test_head env state g).2.2)
      obtain ⟨s1, s2, s3⟩ := poll_shape_polled _ _ _ _ pshape
      have hv := (poll_shape_lock _ _ _ _ pshape).2
      have hall := ext_by_trans hext (ext_by_trans (ext_by_log (Event.cs_enter 0) _)
        (ext_by_trans pext (ext_by_log (Event.cs_exit 0) _)))
      have hlist : hd ++ ([Event.cs_enter 0] ++ (polls ++ [Event.cs_exit 0])) =
          hd ++ (Event.cs_enter 0 :: polls ++ [Event.cs_exit 0]) := by simp
      rw [hlist] at hall
      refine ⟨_, hall.1, ?_, ?_, ?_, fun _ => ?_⟩
      · rw [polled_nm_append, visited_append, q1, qv, hv]
        simpa using s1
      · rw [polled_shm_append, visited_append, q2, qv, hv]
        simpa using s2
      · rw [released_append, visited_append, q3, qv, hv, s3]
      · rw [visited_append, qv, hv]
        exact List.Sublist.refl _
    · rw [if_neg h2]
      by_cases h3 : (MPIDI_do_global_progress env
          (MPIDI_progress_test_head env state g).2.2).1 ≠ 0
      · rw [if_pos h3, global_sweep_eq]
        obtain ⟨new, e2, n2, m2, r2⟩ := sweep_loop_polled env wait (fun _ v => v)
          (fun g st v => MPIDI_check_progress_made_vci env g st v)
          (List.range env.n_vcis) state (MPIDI_progress_test_head env state g).1
          (MPIDI_do_global_progress env (MPIDI_progress_test_head env state g).2.2).2
        refine ⟨hd ++ new, ?_, ?_, ?_, ?_, fun h => absurd h h2⟩
        · rw [e2.1, hd2.1, hext.1, List.append_assoc]
        · rw [polled_nm_append, visited_append, q1, qv]
          simpa using n2
        · rw [polled_shm_append, visited_append, q2, qv]
          simpa using m2
        · rw [released_append, visited_append, q3, qv, r2]
      · rw [if_neg h3, targeted_sweep_eq]
        obtain ⟨new, e2, n2, m2, r2⟩ := sweep_loop_polled env wait (fun st i => st.vci i)
          (fun g st i => MPIDI_check_progress_made_idx env g st i)
          (List.range state.vci_count) state (MPIDI_progress_test_head env state g).1
          (MPIDI_do_global_progress env (MPIDI_progress_test_head env state g).2.2).2
        refine ⟨hd ++ new, ?_, ?_, ?_, ?_, fun h => absurd h h2⟩
        · rw [e2.1, hd2.1, hext.1, List.append_assoc]
        · rw [polled_nm_append, visited_append, q1, qv]
          simpa using n2
        · rw [polled_shm_append, visited_append, q2, qv]
          simpa using m2
        · rw [released_append, visited_append, q3, qv, r2]

theorem sweep_list_default (env : Env W) (state : MPID_Progress_state) (g : Machine W)
    (hc : state.vci_count = env.n_vcis) (hv : ∀ i, i < env.n_vcis → state.vci i = i) :
    sweep_list env state g = List.range env.n_vcis := by
  unfold sweep_list
  split_ifs
  · rfl
  · rw [hc]
    have h : List.map state.vci (List.range env.n_vcis) =
        List.map id (List.range env.n_vcis) := by
      apply List.map_congr_left
      intro i hi
      exact hv i (List.mem_range.1 hi)
    rw [h, List.map_id]

theorem progress_test_once (env : Env W) (state : MPID_Progress_state) (wait : Int)
    (g : Machine W) (hc : state.vci_count = env.n_vcis)
    (hv : ∀ i, i < env.n_vcis → state.vci i = i) :
    ∃ new, (MPIDI_progress_test env state wait g).2.2.trace = g.trace ++ new ∧
      lock_run none new = some none ∧
      (visited new).Nodup ∧ (released new).Nodup ∧
      (polled_nm new).Nodup ∧ (polled_shm new).Nodup := by
  obtain ⟨new, h1, h2, h3, h4, h5⟩ := progress_test_polled env state wait g
  obtain ⟨new2, k1, k2, _, k4⟩ := progress_test_shape env state wait g
  have hnew : new2 = new := by
    rw [k1] at h1
    exact List.append_cancel_left h1
  subst hnew
  have hvn : (visited new2).Nodup := by
    by_cases hm : env.MPIDI_CH4_MAX_VCIS = 1
    · exact List.Nodup.sublist (h5 hm) (List.nodup_singleton 0)
    · obtain ⟨k, _, hk⟩ := k4 hm
      rw [hk, sweep_list_default env state g hc hv]
      exact List.Nodup.sublist (List.take_sublist _ _) (List.nodup_range _)
  exact ⟨new2, k1, k2, hvn, by rw [h4]; exact hvn, List.Nodup.sublist h2 hvn,
    List.Nodup.sublist h3 hvn⟩

theorem progress_test_ok_code (env : Env W) (hok : all_succeed env)
    (state : MPID_Progress_state) (g : Machine W) :
    (MPIDI_progress_test env state 0 g).1 = MPI_SUCCESS := by
  by_cases hm : env.MPIDI_CH4_MAX_VCIS = 1
  · obtain ⟨h1, h2, _⟩ := head_all_succeed env hok state g
    unfold MPIDI_progress_test
    simp only [h2, Bool.false_eq_true, if_false, hm, if_true, h1]
    exact (MPIDI_PROGRESS_ok env hok state 0 _).1
  · exact (progress_test_ok env state g hm hok).1

/-- C12: `MPID_Progress_poke` returns exactly the result of
`MPID_Progress_test(NULL)`, which is one driver call with detection disabled
(`wait = 0`) on a transient snapshot initialised by
`MPIDI_progress_state_init` (all sources, `vci_count = n_vcis`, `vci[i] = i`).
In the events the call appends, every context is locked, released and has each
of its transports polled at most once, and the lock automaton accepts them (so
the call is finite and leaves no lock held).  When every collaborator call
succeeds, every call of a run of any number of repeated pokes returns
success. -/
theorem MPID_Progress_poke_spec (env : Env W) (g : Machine W) :
    MPID_Progress_poke env g =
      ((MPID_Progress_test env none g).1, (MPID_Progress_test env none g).2.2) ∧
    MPID_Progress_poke env g =
      ((MPIDI_progress_test env (MPIDI_progress_state_init env env.uninit) 0 g).1,
       (MPIDI_progress_test env (MPIDI_progress_state_init env env.uninit) 0 g).2.2) ∧
    ((MPIDI_progress_state_init env env.uninit).flag = env.MPIDI_PROGRESS_ALL ∧
      (MPIDI_progress_state_init env env.uninit).vci_count = env.n_vcis ∧
      ∀ i, i < env.n_vcis → (MPIDI_progress_state_init env env.uninit).vci i = i) ∧
    (∃ new, (MPID_Progress_poke env g).2.trace = g.trace ++ new ∧
      lock_run none new = some none ∧
      (visited new).Nodup ∧ (released new).Nodup ∧
      (polled_nm new).Nodup ∧ (polled_shm new).Nodup) ∧
    (all_succeed env →
      ∀ n, (MPID_Progress_poke env (MPID_Progress_poke_seq env n g)).1 = MPI_SUCCESS) := by
  obtain ⟨i1, _, i3, i4⟩ := state_init_form env env.uninit
  refine ⟨rfl, rfl, ⟨i1, i3, i4⟩, ?_, ?_⟩
  · exact progress_test_once env (MPIDI_progress_state_init env env.uninit) 0 g i3 i4
  · intro hok n
    exact progress_test_ok_code env hok _ _

/-- Witness of C12: three pokes in a row in the four-context example, the
third of which returns success. -/
theorem MPID_Progress_poke_spec_witness :
    (MPID_Progress_poke exEnv (MPID_Progress_poke_seq exEnv 2 (exMachine 0))).1
      = MPI_SUCCESS :=
  (MPID_Progress_poke_spec exEnv (exMachine 0)).2.2.2.2
    ⟨fun _ _ => rfl, fun _ _ => rfl, fun _ => rfl, fun _ => rfl, fun _ => rfl⟩ 2

/-! ## Progress from inside a context lock: `MPIDI_progress_test_vci` -/

/-- C11: `MPIDI_progress_test_vci(vci)`.  When a global sweep is due
(`MPIDI_do_global_progress` returns true), the events it appends are: the
release of the lock of `vci`, the events `nested` of one
`MPID_Progress_test(NULL)`, the acquisition of the lock of `vci`, in that order,
and it returns the code of the nested test, whatever that code is; inside
`nested` the lock of `vci` is acquired at most once and released at most once;
counting locks from "only the lock of `vci` held" at the call, at most one lock
is held after every event, every transport poll of a context happens with
exactly that context's lock held, and exactly the lock of `vci` is held at the
return.  When no global sweep is due, it appends no lock operation: it polls the
network transport of `vci`, then (unless that failed or the build is
direct-netmod) the shared-memory transport of `vci`, and returns the first
failure, or success. -/
theorem MPIDI_progress_test_vci_spec (env : Env W) (vci : Nat) (g : Machine W) :
    ((MPIDI_do_global_progress env g).1 ≠ 0 →
      ∃ nested,
        (MPID_Progress_test env none
          (log (Event.cs_exit vci) (MPIDI_do_global_progress env g).2)).2.2.trace =
          g.trace ++ [Event.cs_exit vci] ++ nested ∧
        (MPIDI_progress_test_vci env vci g).1 =
          (MPID_Progress_test env none
            (log (Event.cs_exit vci) (MPIDI_do_global_progress env g).2)).1 ∧
        (MPIDI_progress_test_vci env vci g).2.trace =
          g.trace ++ ([Event.cs_exit vci] ++ nested ++ [Event.cs_enter vci]) ∧
        (visited nested).count vci ≤ 1 ∧
        (released nested).count vci ≤ 1 ∧
        locks_after [vci] ([Event.cs_exit vci] ++ nested ++ [Event.cs_enter vci]) = [vci] ∧
        (∀ p e s, [Event.cs_exit vci] ++ nested ++ [Event.cs_enter vci] = p ++ e :: s →
          (locks_after [vci] (p ++ [e])).length ≤ 1 ∧
          ∀ v rc, (e = Event.nm_progress v rc ∨ e = Event.shm_progress v rc) →
            locks_after [vci] p = [v])) ∧
    ((MPIDI_do_global_progress env g).1 = 0 →
      (MPIDI_progress_test_vci env vci g).1 =
        (if (env.MPIDI_NM_progress vci g.world).1 ≠ MPI_SUCCESS ∨
            env.MPIDI_CH4_DIRECT_NETMOD = true
          then (env.MPIDI_NM_progress vci g.world).1
          else (env.MPIDI_SHM_progress vci (env.MPIDI_NM_progress vci g.world).2).1) ∧
      (MPIDI_progress_test_vci env vci g).2.trace =
        g.trace ++ ([Event.nm_progress vci (env.MPIDI_NM_progress vci g.world).1] ++
          (if (env.MPIDI_NM_progress vci g.world).1 ≠ MPI_SUCCESS ∨
              env.MPIDI_CH4_DIRECT_NETMOD = true
            then []
            else [Event.shm_progress vci
              (env.MPIDI_SHM_progress vci (env.MPIDI_NM_progress vci g.world).2).1]))) := by
  have hdt := (do_global_ext env g).1
  constructor
  · intro hg
    obtain ⟨i1, _, i3, i4⟩ := state_init_form env env.uninit
    obtain ⟨nested, n1, n2, n3, n4, _, _⟩ := progress_test_once env
      (MPIDI_progress_state_init env env.uninit) 0
      (log (Event.cs_exit vci) (MPIDI_do_global_progress env g).2) i3 i4
    have htr : (MPID_Progress_test env none
        (log (Event.cs_exit vci) (MPIDI_do_global_progress env g).2)).2.2.trace =
        g.trace ++ [Event.cs_exit vci] ++ nested := by
      show (MPIDI_progress_test env (MPIDI_progress_state_init env env.uninit) 0
        (log (Event.cs_exit vci) (MPIDI_do_global_progress env g).2)).2.2.trace = _
      rw [n1]
      simp [log, hdt]
    have hrun : lock_run (some vci)
        ([Event.cs_exit vci] ++ nested ++ [Event.cs_enter vci]) = some (some vci) := by
      rw [List.append_assoc, lock_run_append]
      simp only [lock_run, if_true, Option.some_bind]
      rw [lock_run_append, n2]
      simp [lock_run]
    obtain ⟨l1, l2⟩ := lock_run_locks_after _ (some vci) (some vci) hrun
    refine ⟨nested, htr, ?_, ?_, ?_, ?_, ?_, ?_⟩
    · simp only [MPIDI_progress_test_vci, hg, ne_eq, not_false_eq_true, if_true]
    · simp only [MPIDI_progress_test_vci, hg, ne_eq, not_false_eq_true, if_true]
      show (MPID_Progress_test env none
        (log (Event.cs_exit vci) (MPIDI_do_global_progress env g).2)).2.2.trace ++
          [Event.cs_enter vci] = _
      rw [htr]
      simp
    · exact List.nodup_iff_count_le_one.1 n3 vci
    · exact List.nodup_iff_count_le_one.1 n4 vci
    · simpa using l1
    · simpa using l2
  · intro hg
    simp only [MPIDI_progress_test_vci, hg, ne_eq, not_true_eq_false, if_false]
    by_cases h1 : (env.MPIDI_NM_progress vci g.world).1 ≠ MPI_SUCCESS
    · have hc : MPIR_ERR_CHECK (call_nm env vci (MPIDI_do_global_progress env g).2).1
          = true := by
        rw [MPIR_ERR_CHECK_iff]
        simpa [call_nm, (do_global_ext env g).2.1] using h1
      rw [if_pos hc]
      simp only [h1, ne_eq, not_false_eq_true, true_or, if_true]
      simp [call_nm, log, hdt, (do_global_ext env g).2.1]
    · have hc : ¬ MPIR_ERR_CHECK (call_nm env vci (MPIDI_do_global_progress env g).2).1
          = true := by
        rw [MPIR_ERR_CHECK_iff]
        simpa [call_nm, (do_global_ext env g).2.1] using h1
      rw [if_neg hc]
      by_cases h2 : env.MPIDI_CH4_DIRECT_NETMOD = true
      · simp only [h2, if_true, or_true]
        simp [call_nm, log, hdt, (do_global_ext env g).2.1]
      · simp only [h2, Bool.false_eq_true, if_false, h1, or_self]
        simp [call_nm, call_shm, log, hdt, (do_global_ext env g).2.1]

/-- Witness of C11: in the four-context example with poll counter 255 a global
sweep is due; called for context 1, the helper releases the lock of context 1,
runs the nested test and takes the lock of context 1 again. -/
theorem MPIDI_progress_test_vci_spec_witness :
    (MPIDI_do_global_progress exEnv (exMachine 255)).1 ≠ 0 ∧
    ∃ nested,
      (MPIDI_progress_test_vci exEnv 1 (exMachine 255)).2.trace =
        (exMachine 255).trace ++ ([Event.cs_exit 1] ++ nested ++ [Event.cs_enter 1]) ∧
      locks_after [1] ([Event.cs_exit 1] ++ nested ++ [Event.cs_enter 1]) = [1] := by
  refine ⟨by decide, ?_⟩
  obtain ⟨nested, _, _, h3, _, _, h6, _⟩ :=
    (MPIDI_progress_test_vci_spec exEnv 1 (exMachine 255)).1 (by decide)
  exact ⟨nested, h3, h6⟩

/-! ## A transport failure during a single-context wait -/

theorem head_succeed (env : Env W) (state : MPID_Progress_state) (g : Machine W)
    (hH : ∀ w, (env.MPIR_Progress_hook_exec_all w).1 = MPI_SUCCESS)
    (hC : ∀ w, (env.MPIDI_check_for_failed_procs w).1 = MPI_SUCCESS)
    (hQ : ∀ w, (env.MPIDI_workq_vci_progress w).1 = MPI_SUCCESS) :
    (MPIDI_progress_test_head env state g).1 = MPI_SUCCESS ∧
    (MPIDI_progress_test_head env state g).2.1 = false := by
  unfold MPIDI_progress_test_head
  by_cases c1 : env.HAVE_SIGNAL = true ∧ g.sigusr1_count > g.my_sigusr1_count <;>
    by_cases c2 : Int.land state.flag env.MPIDI_PROGRESS_HOOKS ≠ 0 <;>
    by_cases c3 : env.MPIDI_CH4_USE_WORK_QUEUES = true <;>
    simp [c1, c2, c3, call_check_for_failed_procs, call_hooks, call_workq, hH, hC, hQ,
      MPIR_ERR_CHECK, MPI_SUCCESS_eq]

theorem single_ctx_state (env : Env W) (hn : env.n_vcis = 1)
    (hH : ∀ w, (env.MPIR_Progress_hook_exec_all w).1 = MPI_SUCCESS)
    (hC : ∀ w, (env.MPIDI_check_for_failed_procs w).1 = MPI_SUCCESS)
    (hQ : ∀ w, (env.MPIDI_workq_vci_progress w).1 = MPI_SUCCESS)
    (s : MPID_Progress_state) (hv : s.vci 0 = 0) (hc : s.vci_count = 1) (g : Machine W) :
    (MPIDI_progress_test env s 1 g).2.1 =
      MPIDI_check_progress_made_idx env (MPIDI_progress_test env s 1 g).2.2 s 0 := by
  obtain ⟨h1, h2⟩ := head_succeed env s g hH hC hQ
  have hone : (1 : Int) ≠ 0 := by decide
  unfold MPIDI_progress_test
  simp only [h2, Bool.false_eq_true, if_false, h1, hone, ne_eq, not_false_eq_true, if_true]
  by_cases hmax : env.MPIDI_CH4_MAX_VCIS = 1
  · simp only [hmax, if_true]
    exact (check_idx_world env _ _ rfl s 0).symm
  · simp only [hmax, if_false]
    have hd : MPIDI_do_global_progress env (MPIDI_progress_test_head env s g).2.2 =
        (0, (MPIDI_progress_test_head env s g).2.2) := by
      simp [MPIDI_do_global_progress, hn]
    rw [hd]
    simp only [not_true_eq_false, if_false, hc]
    have hr : List.range 1 = [0] := rfl
    rw [hr]
    simp only [targeted_sweep, hv, hone, ne_eq, not_false_eq_true, if_true, true_and]
    split_ifs
    · exact (check_idx_world env _ _ rfl s 0).symm
    · exact (check_idx_world env _ _ rfl s 0).symm
    · exact (check_idx_world env _ _ rfl s 0).symm

theorem single_ctx_step (env : Env W) (hn : env.n_vcis = 1)
    (hH : ∀ w, (env.MPIR_Progress_hook_exec_all w).1 = MPI_SUCCESS)
    (hC : ∀ w, (env.MPIDI_check_for_failed_procs w).1 = MPI_SUCCESS)
    (hQ : ∀ w, (env.MPIDI_workq_vci_progress w).1 = MPI_SUCCESS)
    (s : MPID_Progress_state) (hv : s.vci 0 = 0) (hc : s.vci_count = 1)
    (hpm : s.progress_made = 0) (g : Machine W) :
    ((MPIDI_progress_test env s 1 g).2.1.progress_made ≠ 0 ↔
      env.progress_count (MPIDI_progress_test env s 1 g).2.2.world 0 ≠ s.progress_counts 0) ∧
    (env.progress_count (MPIDI_progress_test env s 1 g).2.2.world 0 = s.progress_counts 0 →
      (MPIDI_progress_test env s 1 g).2.1 = s) := by
  have c2 := single_ctx_state env hn hH hC hQ s hv hc g
  have hm := check_idx_made env (MPIDI_progress_test env s 1 g).2.2 s 0 hpm
  rw [hv, ← c2] at hm
  exact hm

theorem single_ctx_prev (env : Env W) (hn : env.n_vcis = 1)
    (hH : ∀ w, (env.MPIR_Progress_hook_exec_all w).1 = MPI_SUCCESS)
    (hC : ∀ w, (env.MPIDI_check_for_failed_procs w).1 = MPI_SUCCESS)
    (hQ : ∀ w, (env.MPIDI_workq_vci_progress w).1 = MPI_SUCCESS)
    (s : MPID_Progress_state) (hv : s.vci 0 = 0) (hc : s.vci_count = 1)
    (hpm : s.progress_made = 0) (g : Machine W) (k : Nat)
    (hprev : ∀ j, j < k →
      env.progress_count (wait_call env s g j).2.2.world 0 = s.progress_counts 0) :
    ((wait_call env s g k).2.1.progress_made ≠ 0 ↔
      env.progress_count (wait_call env s g k).2.2.world 0 ≠ s.progress_counts 0) ∧
    (env.progress_count (wait_call env s g k).2.2.world 0 = s.progress_counts 0 →
      (wait_call env s g k).2.1 = s) := by
  induction k with
  | zero => exact single_ctx_step env hn hH hC hQ s hv hc hpm g
  | succ k ih =>
    have ihk := ih (fun j hj => hprev j (by omega))
    have hs := ihk.2 (hprev k (by omega))
    rw [wait_call, hs]
    exact single_ctx_step env hn hH hC hQ s hv hc hpm _

/-- C13 (amended): single-context registry, build without work queues, a
snapshot watching context 0, progress hooks and failed-process detection that
never fail.  If the first `k` driver calls of `MPID_Progress_wait` succeed
without progress (the counter read after each equals the saved count) and
driver call `k + 1` fails (so a transport failed in it), then the wait returns
exactly the result of that call, the failure, on its loop iteration `k + 1` and
not before; `progress_made` is never set during the first `k` calls; and when
the wait returns the failure, `progress_made` is false if and only if the
counter read after the failing invocation still equals the saved count. -/
theorem MPID_Progress_wait_failure (env : Env W) (s : MPID_Progress_state) (g : Machine W)
    (k : Nat) (hn : env.n_vcis = 1) (hwq : env.MPIDI_CH4_USE_WORK_QUEUES = false)
    (hv : s.vci 0 = 0) (hc : s.vci_count = 1)
    (hH : ∀ w, (env.MPIR_Progress_hook_exec_all w).1 = MPI_SUCCESS)
    (hC : ∀ w, (env.MPIDI_check_for_failed_procs w).1 = MPI_SUCCESS)
    (hQ : ∀ w, (env.MPIDI_workq_vci_progress w).1 = MPI_SUCCESS)
    (hprev : ∀ j, j < k →
      (wait_call env { s with progress_made := 0 } g j).1 = MPI_SUCCESS ∧
      env.progress_count (wait_call env { s with progress_made := 0 } g j).2.2.world 0 =
        s.progress_counts 0)
    (hfail : (wait_call env { s with progress_made := 0 } g k).1 ≠ MPI_SUCCESS) :
    MPID_Progress_wait env (k + 1) s g =
      some (wait_call env { s with progress_made := 0 } g k) ∧
    MPID_Progress_wait env k s g = none ∧
    (∀ j, j < k →
      (wait_call env { s with progress_made := 0 } g j).2.1.progress_made = 0) ∧
    ((wait_call env { s with progress_made := 0 } g k).2.1.progress_made = 0 ↔
      env.progress_count (wait_call env { s with progress_made := 0 } g k).2.2.world 0 =
        s.progress_counts 0) := by
  have hw : ∀ fuel, MPID_Progress_wait env fuel s g =
      MPID_Progress_wait_loop env fuel { s with progress_made := 0 } g := by
    intro fuel
    simp [MPID_Progress_wait, hwq]
  have hcnt : ∀ j, j < k →
      env.progress_count (wait_call env { s with progress_made := 0 } g j).2.2.world 0 =
        ({ s with progress_made := 0 } : MPID_Progress_state).progress_counts 0 :=
    fun j hj => (hprev j hj).2
  have hpmj : ∀ j, j < k →
      (wait_call env { s with progress_made := 0 } g j).2.1.progress_made = 0 := by
    intro j hj
    have h := single_ctx_prev env hn hH hC hQ { s with progress_made := 0 } hv hc rfl g j
      (fun i hi => hcnt i (by omega))
    rw [h.2 (hcnt j hj)]
  have hmin : ∀ j, j < k →
      ¬ wait_exits (wait_call env { s with progress_made := 0 } g j) := by
    intro j hj hex
    rcases hex with hex | hex
    · exact hex (hprev j hj).1
    · exact hex (hpmj j hj)
  have hk := single_ctx_prev env hn hH hC hQ { s with progress_made := 0 } hv hc rfl g k hcnt
  refine ⟨?_, ?_, hpmj, ?_⟩
  · rw [hw]
    exact wait_loop_some env (k + 1) k (by omega) _ g (Or.inl hfail) hmin
  · rw [hw]
    exact wait_loop_none env k _ g hmin
  · constructor
    · intro h0
      by_contra hne
      exact hk.1.2 hne h0
    · intro heq
      by_contra hne
      exact hk.1.1 hne heq

/-- Witness of C13 (amended): the third network invocation fails with code 77
and leaves the counter alone; the wait returns 77 on its third iteration with
`progress_made` false. -/
theorem MPID_Progress_wait_failure_witness :
    MPID_Progress_wait exEnvFail3Quiet (2 + 1)
        (MPID_Progress_start exEnvFail3Quiet (exMachine 0) exGarbage) (exMachine 0) =
      some (wait_call exEnvFail3Quiet
        { MPID_Progress_start exEnvFail3Quiet (exMachine 0) exGarbage with progress_made := 0 }
        (exMachine 0) 2) ∧
    (wait_call exEnvFail3Quiet
      { MPID_Progress_start exEnvFail3Quiet (exMachine 0) exGarbage with progress_made := 0 }
      (exMachine 0) 2).1 = 77 ∧
    (wait_call exEnvFail3Quiet
      { MPID_Progress_start exEnvFail3Quiet (exMachine 0) exGarbage with progress_made := 0 }
      (exMachine 0) 2).2.1.progress_made = 0 :=
  ⟨(MPID_Progress_wait_failure exEnvFail3Quiet
      (MPID_Progress_start exEnvFail3Quiet (exMachine 0) exGarbage) (exMachine 0) 2
      rfl rfl (by decide) (by decide) (fun _ => rfl) (fun _ => rfl) (fun _ => rfl)
      (by decide) (by decide)).1,
   by decide,
   ((MPID_Progress_wait_failure exEnvFail3Quiet
      (MPID_Progress_start exEnvFail3Quiet (exMachine 0) exGarbage) (exMachine 0) 2
      rfl rfl (by decide) (by decide) (fun _ => rfl) (fun _ => rfl) (fun _ => rfl)
      (by decide) (by decide)).2.2.2).2 (by decide)⟩

/-- Counterexample to C13 as stated: single-context registry; the network
transport succeeds without progress on its first two invocations and on its
third invocation bumps the counter of context 0 and fails with code 77.
`MPID_Progress_wait` returns 77 on its third loop iteration, but
`progress_made` is 1, not false, when it returns: the driver checks the counter
(line 123) before the failure is propagated. -/
theorem MPID_Progress_wait_failure_counterexample :
    (∀ j, j < 2 →
      (wait_call exEnvFail3
        { MPID_Progress_start exEnvFail3 (exMachine 0) exGarbage with progress_made := 0 }
        (exMachine 0) j).1 = MPI_SUCCESS ∧
      (wait_call exEnvFail3
        { MPID_Progress_start exEnvFail3 (exMachine 0) exGarbage with progress_made := 0 }
        (exMachine 0) j).2.1.progress_made = 0) ∧
    MPID_Progress_wait exEnvFail3 2
      (MPID_Progress_start exEnvFail3 (exMachine 0) exGarbage) (exMachine 0) = none ∧
    ∃ r, MPID_Progress_wait exEnvFail3 3
        (MPID_Progress_start exEnvFail3 (exMachine 0) exGarbage) (exMachine 0) = some r ∧
      r.1 = 77 ∧ r.2.1.progress_made = 1 ∧ ¬ (r.2.1.progress_made = 0) := by
  have hmin : ∀ j, j < 2 → ¬ wait_exits (wait_call exEnvFail3
      { MPID_Progress_start exEnvFail3 (exMachine 0) exGarbage with progress_made := 0 }
      (exMachine 0) j) := by
    intro j hj
    interval_cases j
    · intro h
      rcases h with h | h
      · exact h (by decide)
      · exact h (by decide)
    · intro h
      rcases h with h | h
      · exact h (by decide)
      · exact h (by decide)
  refine ⟨by decide, ?_, ?_⟩
  · exact wait_loop_none exEnvFail3 2 _ _ hmin
  · refine ⟨_, wait_loop_some exEnvFail3 3 2 (by decide) _ _ (Or.inl (by decide)) hmin,
      by decide, by decide, by decide⟩

/-! ## A counter bump during `MPID_Progress_test` -/

theorem start_form (env : Env W) (g : Machine W) (state : MPID_Progress_state)
    (hcap : env.n_vcis ≤ env.MPIDI_CH4_MAX_VCIS) :
    (MPID_Progress_start env g state).flag = env.MPIDI_PROGRESS_ALL ∧
    (MPID_Progress_start env g state).progress_made = 0 ∧
    (MPID_Progress_start env g state).vci_count = env.n_vcis ∧
    (∀ i, i < env.n_vcis → (MPID_Progress_start env g state).vci i = i) ∧
    (∀ i, i < env.n_vcis →
      (MPID_Progress_start env g state).progress_counts i = env.progress_count g.world i) := by
  obtain ⟨v1, v2, v3, v4⟩ := state_init_form env state
  unfold MPID_Progress_start MPIDI_progress_state_init_count
  by_cases hmax : env.MPIDI_CH4_MAX_VCIS = 1
  · simp only [hmax, if_true]
    refine ⟨v1, v2, v3, v4, ?_⟩
    intro i hi
    have hi0 : i = 0 := by omega
    subst hi0
    simp
  · simp only [hmax, if_false]
    obtain ⟨c1, c2, c3, c4, c5⟩ := foldl_counts (env.progress_count g.world) env.n_vcis
      (MPIDI_progress_state_init env state)
    refine ⟨c1.trans v1, c2.trans v2, c3.trans v3, ?_, c5⟩
    intro i hi
    rw [c4]
    exact v4 i hi

theorem MPIDI_PROGRESS_inv_ctx (env : Env W) (Inv : W → Prop) (v : Nat)
    (hnm : ∀ w, Inv w → Inv (env.MPIDI_NM_progress v w).2)
    (hshm : ∀ w, Inv w → Inv (env.MPIDI_SHM_progress v w).2)
    (state : MPID_Progress_state) (e : Int) (g : Machine W) (hg : Inv g.world) :
    Inv (MPIDI_PROGRESS env state v e g).2.world := by
  unfold MPIDI_PROGRESS
  simp only []
  split_ifs <;> simp only [call_nm, call_shm, log] <;>
    first
    | exact hg
    | exact hnm _ hg
    | exact hshm _ hg
    | exact hshm _ (hnm _ hg)

theorem sweep_loop_quiet (env : Env W) (hok : all_succeed env) (wait : Int)
    (Inv : W → Prop) (ctx : MPID_Progress_state → Nat → Nat)
    (check : Machine W → MPID_Progress_state → Nat → MPID_Progress_state)
    (state : MPID_Progress_state) (l : List Nat)
    (hpoll : ∀ i, i ∈ l →
      (∀ w, Inv w → Inv (env.MPIDI_NM_progress (ctx state i) w).2) ∧
      (∀ w, Inv w → Inv (env.MPIDI_SHM_progress (ctx state i) w).2))
    (hchk : ∀ g i, i ∈ l → Inv g.world → check g state i = state)
    (hpm : state.progress_made = 0) (g : Machine W) (hg : Inv g.world) :
    (sweep_loop env wait ctx check l state MPI_SUCCESS g).1 = MPI_SUCCESS ∧
    (sweep_loop env wait ctx check l state MPI_SUCCESS g).2.1 = state ∧
    Inv (sweep_loop env wait ctx check l state MPI_SUCCESS g).2.2.world := by
  induction l generalizing g with
  | nil => exact ⟨rfl, rfl, hg⟩
  | cons i rest ih =>
    have hp1 := (MPIDI_PROGRESS_ok env hok state (ctx state i)
      (log (Event.cs_enter (ctx state i)) g)).1
    have hi := hpoll i (List.mem_cons_self _ _)
    have hp2 := MPIDI_PROGRESS_inv_ctx env Inv (ctx state i) hi.1 hi.2 state MPI_SUCCESS
      (log (Event.cs_enter (ctx state i)) g) hg
    have hc := hchk (MPIDI_PROGRESS env state (ctx state i) MPI_SUCCESS
      (log (Event.cs_enter (ctx state i)) g)).2 i (List.mem_cons_self _ _) hp2
    have hst : (if wait ≠ 0 then check (MPIDI_PROGRESS env state (ctx state i) MPI_SUCCESS
        (log (Event.cs_enter (ctx state i)) g)).2 state i else state) = state := by
      split_ifs
      · exact hc
      · rfl
    have hchk0 : ¬ MPIR_ERR_CHECK (MPIDI_PROGRESS env state (ctx state i) MPI_SUCCESS
        (log (Event.cs_enter (ctx state i)) g)).1 = true := by
      rw [hp1]
      simp [MPIR_ERR_CHECK]
    simp only [sweep_loop]
    rw [hst, if_neg hchk0, if_neg (fun h => h.2 hpm), hp1]
    exact ih (fun j hj => hpoll j (List.mem_cons_of_mem _ hj))
      (fun g j hj => hchk g j (List.mem_cons_of_mem _ hj)) _ hp2

/-- C14 (amended): registry of 4 contexts, session started by
`MPID_Progress_start` watching all 4.  (1) One `MPID_Progress_test(state)` call
runs the driver with detection disabled: whatever the transports do to the
counters, the snapshot comes back unchanged, so `progress_made` is still false
and every saved count, those of contexts 0, 1 and 3 included, still has the
value captured at start.  (2) Detection is done by a driver call with
detection enabled, as made by `MPID_Progress_wait`: if the call
is not a global-sweep call, no collaborator fails, the counters of contexts 0
and 1 keep their saved values (`Inv` is such an invariant of the world) and the
counter of context 2 differs from its saved value once the transports of
context 2 have been polled, then after the call `progress_made` is 1, the saved
count of context 2 is the live counter, and the saved counts of contexts 0, 1
and 3 are unchanged. -/
theorem MPID_Progress_test_no_detection (env : Env W) (g0 : Machine W)
    (state0 : MPID_Progress_state) (g : Machine W) (hn : env.n_vcis = 4)
    (hcap : env.n_vcis ≤ env.MPIDI_CH4_MAX_VCIS) :
    ((MPID_Progress_test env (some (MPID_Progress_start env g0 state0)) g).2.1 =
        some (MPID_Progress_start env g0 state0) ∧
      (MPID_Progress_start env g0 state0).progress_made = 0 ∧
      ∀ i, i < 4 → (MPID_Progress_start env g0 state0).progress_counts i =
        env.progress_count g0.world i) ∧
    (∀ Inv : W → Prop,
      all_succeed env →
      (MPIDI_do_global_progress env g).1 = 0 →
      Inv g.world →
      (∀ w, Inv w → Inv (env.MPIR_Progress_hook_exec_all w).2) →
      (∀ w, Inv w → Inv (env.MPIDI_check_for_failed_procs w).2) →
      (∀ w, Inv w → Inv (env.MPIDI_workq_vci_progress w).2) →
      (∀ v w, v < 2 → Inv w → Inv (env.MPIDI_NM_progress v w).2) →
      (∀ v w, v < 2 → Inv w → Inv (env.MPIDI_SHM_progress v w).2) →
      (∀ w, Inv w → env.progress_count w 0 = env.progress_count g0.world 0 ∧
        env.progress_count w 1 = env.progress_count g0.world 1) →
      (∀ m : Machine W, Inv m.world →
        env.progress_count
          (MPIDI_PROGRESS env (MPID_Progress_start env g0 state0) 2 MPI_SUCCESS m).2.world 2
          ≠ env.progress_count g0.world 2) →
      (MPIDI_progress_test env (MPID_Progress_start env g0 state0) 1 g).1 = MPI_SUCCESS ∧
      (MPIDI_progress_test env (MPID_Progress_start env g0 state0) 1 g).2.1.progress_made
        = 1 ∧
      (MPIDI_progress_test env (MPID_Progress_start env g0 state0) 1 g).2.1.progress_counts 2
        = env.progress_count
            (MPIDI_progress_test env (MPID_Progress_start env g0 state0) 1 g).2.2.world 2 ∧
      (∀ i, i ≠ 2 →
        (MPIDI_progress_test env (MPID_Progress_start env g0 state0) 1 g).2.1.progress_counts i
          = (MPID_Progress_start env g0 state0).progress_counts i)) := by
  obtain ⟨_, spm, scount, svci, scnt⟩ := start_form env g0 state0 hcap
  rw [hn] at scount svci scnt
  refine ⟨⟨?_, spm, scnt⟩, ?_⟩
  · show some (MPIDI_progress_test env (MPID_Progress_start env g0 state0) 0 g).2.1 = _
    rw [progress_test_nowait]
  · intro Inv hok hg hinit hhook hcheck hworkq hnm hshm hsame hbump
    generalize MPID_Progress_start env g0 state0 = S at spm scount svci scnt hbump ⊢
    have hmax : env.MPIDI_CH4_MAX_VCIS ≠ 1 := by omega
    have hone : (1 : Int) ≠ 0 := by decide
    obtain ⟨h1, h2, h3⟩ := head_all_succeed env hok S g
    have hhi := head_inv env Inv hhook hcheck hworkq S g hinit
    have hd1 := do_global_fst_congr env g (MPIDI_progress_test_head env S g).2.2 h3.2.1
    have hd2 := do_global_ext env (MPIDI_progress_test_head env S g).2.2
    have hdw : Inv (MPIDI_do_global_progress env
        (MPIDI_progress_test_head env S g).2.2).2.world := by
      rw [hd2.2.1]
      exact hhi
    have hg2 : ¬ (MPIDI_do_global_progress env (MPIDI_progress_test_head env S g).2.2).1 ≠ 0 := by
      rw [hd1, hg]
      simp
    unfold MPIDI_progress_test
    simp only [h2, Bool.false_eq_true, if_false, hmax, h1]
    rw [if_neg hg2, targeted_sweep_eq, scount]
    have hr : List.range 4 = [0, 1] ++ [2, 3] := by decide
    rw [hr, sweep_loop_append env 1 _ _ [0, 1] [2, 3] (by simp)]
    obtain ⟨q1, q2, q3⟩ := sweep_loop_quiet env hok 1 Inv (fun st i => st.vci i)
      (fun g st i => MPIDI_check_progress_made_idx env g st i) S [0, 1]
      (fun i hi => by
        have hi2 : i < 2 := by
          simp only [List.mem_cons, List.mem_singleton, List.not_mem_nil, or_false] at hi
          omega
        have hvi : S.vci i = i := svci i (by omega)
        simp only [hvi]
        exact ⟨fun w hw => hnm i w hi2 hw, fun w hw => hshm i w hi2 hw⟩)
      (fun g2 i hi hw => by
        have hi2 : i < 2 := by
          simp only [List.mem_cons, List.mem_singleton, List.not_mem_nil, or_false] at hi
          omega
        apply check_idx_same
        rw [svci i (by omega), scnt i (by omega)]
        rcases Nat.lt_succ_iff_lt_or_eq.1 hi2 with h | h
        · have h0 : i = 0 := by omega
          subst h0
          exact (hsame _ hw).1
        · subst h
          exact (hsame _ hw).2)
      spm _ hdw
    have hns : ¬ sweep_stops 1 (sweep_loop env 1 (fun st i => st.vci i)
        (fun g st i => MPIDI_check_progress_made_idx env g st i) [0, 1] S MPI_SUCCESS
        (MPIDI_do_global_progress env (MPIDI_progress_test_head env S g).2.2).2) := by
      intro hs
      rcases hs with hs | hs
      · exact hs q1
      · rw [q2] at hs
        exact hs.2 spm
    rw [if_neg hns, q1, q2]
    generalize (sweep_loop env 1 (fun st i => st.vci i)
        (fun g st i => MPIDI_check_progress_made_idx env g st i) [0, 1] S MPI_SUCCESS
        (MPIDI_do_global_progress env (MPIDI_progress_test_head env S g).2.2).2).2.2 = m at q3
    have hv2 : S.vci 2 = 2 := svci 2 (by omega)
    simp only [sweep_loop, hv2, hone, ne_eq, not_false_eq_true, if_true, true_and]
    have hp1 := (MPIDI_PROGRESS_ok env hok S 2 (log (Event.cs_enter 2) m)).1
    have hb := hbump (log (Event.cs_enter 2) m) q3
    have hchk0 : ¬ MPIR_ERR_CHECK (MPIDI_PROGRESS env S 2 MPI_SUCCESS
        (log (Event.cs_enter 2) m)).1 = true := by
      rw [hp1]
      simp [MPIR_ERR_CHECK]
    rw [if_neg hchk0]
    have hdiff : S.progress_counts 2 ≠ env.progress_count
        (MPIDI_PROGRESS env S 2 MPI_SUCCESS (log (Event.cs_enter 2) m)).2.world (S.vci 2) := by
      rw [hv2, scnt 2 (by omega)]
      exact fun h => hb h.symm
    have hcheck2 : MPIDI_check_progress_made_idx env
        (MPIDI_PROGRESS env S 2 MPI_SUCCESS (log (Event.cs_enter 2) m)).2 S 2 =
        { S with
          progress_counts := Function.update S.progress_counts 2
            (env.progress_count
              (MPIDI_PROGRESS env S 2 MPI_SUCCESS (log (Event.cs_enter 2) m)).2.world 2)
          progress_made := 1 } := by
      rw [hv2] at hdiff
      unfold MPIDI_check_progress_made_idx
      simp only [hv2]
      rw [if_pos hdiff]
    rw [hcheck2]
    simp only [one_ne_zero, not_false_eq_true, if_true]
    refine ⟨hp1, trivial, ?_, ?_⟩
    · simp [log]
    · intro i hi
      simp [Function.update_noteq hi]

theorem exEnv_bump (st : MPID_Progress_state) (h7 : st.flag = 7) (m : Machine ExWorld) :
    exEnv.progress_count (MPIDI_PROGRESS exEnv st 2 MPI_SUCCESS m).2.world 2 =
      m.world.counters 2 + 1 := by
  have a : Int.land st.flag exEnv.MPIDI_PROGRESS_NM ≠ 0 := by rw [h7]; decide
  have b : Int.land st.flag exEnv.MPIDI_PROGRESS_SHM ≠ 0 := by rw [h7]; decide
  have c : exEnv.MPIDI_CH4_DIRECT_NETMOD = false := rfl
  have d : (call_nm exEnv 2 m).1 = MPI_SUCCESS := rfl
  unfold MPIDI_PROGRESS
  simp only [a, b, c, d, ne_eq, not_false_eq_true, if_true, Bool.false_eq_true, if_false,
    and_self]
  simp [call_nm, call_shm, log, exEnv]

/-- Witness of C14 (amended): the four-context example, in which the network
poll of context 2 bumps the counter of context 2; the call is not a global
call.  With detection enabled `progress_made` becomes 1 and the saved counts
of contexts 0, 1 and 3 stay at 10. -/
theorem MPID_Progress_test_no_detection_witness :
    (exEnv.n_vcis = 4 ∧ exEnv.n_vcis ≤ exEnv.MPIDI_CH4_MAX_VCIS) ∧
    (MPIDI_progress_test exEnv (MPID_Progress_start exEnv (exMachine 0) exGarbage) 1
      (exMachine 0)).2.1.progress_made = 1 ∧
    (∀ i, i ≠ 2 →
      (MPIDI_progress_test exEnv (MPID_Progress_start exEnv (exMachine 0) exGarbage) 1
        (exMachine 0)).2.1.progress_counts i
        = (MPID_Progress_start exEnv (exMachine 0) exGarbage).progress_counts i) := by
  have h := (MPID_Progress_test_no_detection exEnv (exMachine 0) exGarbage (exMachine 0) rfl
      (by decide)).2
      (fun w => w.counters 0 = 10 ∧ w.counters 1 = 10 ∧ 10 ≤ w.counters 2)
      ⟨fun _ _ => rfl, fun _ _ => rfl, fun _ => rfl, fun _ => rfl, fun _ => rfl⟩
      (by decide) ⟨rfl, rfl, le_refl _⟩ (fun _ h => h) (fun _ h => h) (fun _ h => h)
      (fun v w hv h => by
        have hv2 : v ≠ 2 := by omega
        simpa [exEnv, hv2] using h)
      (fun _ _ _ h => h)
      (fun _ h => ⟨h.1, h.2.1⟩)
      (fun m hm => by
        rw [exEnv_bump _ (by decide) m]
        have h10 : exEnv.progress_count (exMachine 0).world 2 = 10 := rfl
        rw [h10]
        have := hm.2.2
        omega)
  exact ⟨⟨rfl, by decide⟩, h.2.1, h.2.2.2⟩

/-- Counterexample to C14 as stated: the four-context example, session started
by `MPID_Progress_start`, one `MPID_Progress_test(state)` call that is not a
global-sweep call and during which the network poll of context 2 bumps the
counter of context 2 from 10 to 11.  After the call `progress_made` is 0, not
true: `MPID_Progress_test` passes `wait = 0` to the driver (line 256). -/
theorem MPID_Progress_test_no_detection_counterexample :
    exEnv.n_vcis = 4 ∧
    (MPIDI_do_global_progress exEnv (exMachine 0)).1 = 0 ∧
    exEnv.progress_count (exMachine 0).world 2 = 10 ∧
    exEnv.progress_count
      (MPID_Progress_test exEnv (some (MPID_Progress_start exEnv (exMachine 0) exGarbage))
        (exMachine 0)).2.2.world 2 = 11 ∧
    (MPID_Progress_test exEnv (some (MPID_Progress_start exEnv (exMachine 0) exGarbage))
      (exMachine 0)).2.1.map MPID_Progress_state.progress_made = some 0 ∧
    ¬ ((MPID_Progress_test exEnv (some (MPID_Progress_start exEnv (exMachine 0) exGarbage))
      (exMachine 0)).2.1.map MPID_Progress_state.progress_made = some 1) := by
  refine ⟨rfl, by decide, by decide, by decide, by decide, by decide⟩

end Ch4Progress
